import Mathlib

/-!
# CScout: the directive processor (`pdtoken.cpp`) and the rename pages (`cscout.cpp`)

A shallow embedding of the conditional-compilation state machine of
`Pdtoken` (`getnext`, `process_directive`, `process_if`, `process_elif`,
`process_else`, `process_endif`, `process_define`, `process_undef`, `eval`)
and of the identifier substitution path of the web interface
(`identifier_page`, `write_quit_page`, `file_replace`); further the lexical
analyser of `#if` expressions (`eval_lex`), the identifier query and the order
of its results (`xiquery_page`, `idcmp`) and the file tables of `workdb.cpp`
(`Chunker`, `file_dump`).

Conventions of the embedding:

* the lexer (`Pltoken::getnext<Fchar>`) is a list of tokens still to be
  delivered; once the list is exhausted it delivers the `EOF` token for ever;
* the static members of `Pdtoken` are the fields of `Pdstate`;
* `Error::error` appends to `Pdstate.errors`, `unify` appends to
  `Pdstate.unified`;
* functions of the repository that are not part of the translated sources
  (macro expansion, the yacc expression parser, `Ptoken::is_space`,
  `Macro::value_rtrim`, `Macro::operator!=`) are the fields of `Ext`;
* a loop that never exits is the result `none`;
* where a claim compares the code with the wording of the specification, the
  wording is a relation of its own (`DefinedSpec`, `Occurrence`, `Rewritten`,
  `lex_lt`, `IntConstant`, `unify_calls`) and the function translated from the
  source is proved to compute it;
* calls of the C and C++ libraries (`strtol`, `string::compare`, `isspace`)
  are functions of their own, written after the library's description.
-/

namespace CScout

/-! ## Tokens (`token.h`) -/

/-- File identifier together with a byte offset (`Tokid`). -/
structure Tokid where
  fi : Nat
  offs : Nat
deriving DecidableEq, Repr

/-- Token part of `token.h`: a `Tokid` and a length. -/
structure Tpart where
  ti : Tokid
  len : Nat
deriving DecidableEq, Repr

/-- Lexical token of `token.h`: type code, constituent parts, character contents. -/
structure Token where
  code : Int
  parts : List Tpart
  val : String
deriving DecidableEq, Repr

/-- Constructor `Token(int icode, const string& v)`: one part at `Tokid(0, 0)`
of the length of `v`. -/
def Token.ofVal (icode : Int) (v : String) : Token :=
  { code := icode, parts := [⟨⟨0, 0⟩, v.length⟩], val := v }

/-- End of file as returned by the lexer (`EOF` of `<cstdio>`). -/
abbrev EOF : Int := -1
/-- Character code of the newline token. -/
abbrev NL : Int := 10
/-- Character code of `#`. -/
abbrev HASH : Int := 35
/-- Character code of `(`. -/
abbrev LPAREN : Int := 40
/-- Character code of `)`. -/
abbrev RPAREN : Int := 41
/-- Character code of `,`. -/
abbrev COMMA : Int := 44

/-- Modelled from the spec: `ytab.h` (the generated token numbers) is missing;
the named token codes are numbers above every character code, distinct from
each other. This is the code of an identifier token. -/
abbrev IDENTIFIER : Int := 257
/-- Modelled from the spec: `ytab.h` is missing; code of a whitespace token. -/
abbrev SPACE : Int := 258
/-- Modelled from the spec: `ytab.h` is missing; code of a pp-number token. -/
abbrev PP_NUMBER : Int := 259
/-- Modelled from the spec: `ytab.h` is missing; code of a character literal. -/
abbrev CHAR_LITERAL : Int := 260

/-- Token the lexer returns once its input is exhausted. -/
def eofToken : Token := { code := EOF, parts := [], val := "" }

/-! ## Macros and the state of the directive processor -/

/-- Macro definition (`macro.h`): name token, kind, formal arguments, body. -/
structure Macro where
  name_token : Token
  is_function : Bool
  formal_args : List Token
  value : List Token
deriving DecidableEq, Repr

/-- Severity of a diagnostic (`error.h`). -/
inductive Severity where
  | E_WARN
  | E_ERR
deriving DecidableEq, Repr

/-- Lexer context set by `Pltoken::set_context` (`cpp.h`). -/
inductive Context where
  | cpp_normal
  | cpp_include
  | cpp_define
deriving DecidableEq, Repr

/-- The `map<string, Macro>` of defined macros as an association list with
at most one entry per name. -/
abbrev MapMacro := List (String × Macro)

/-- Lookup `macros.find(name)`; `none` stands for `macros.end()`. -/
def macros_find (m : MapMacro) (name : String) : Option Macro :=
  match m with
  | [] => none
  | (k, v) :: rest => if k = name then some v else macros_find rest name

/-- Removal `macros.erase(mi)` of the entry of a name. -/
def macros_erase (m : MapMacro) (name : String) : MapMacro :=
  m.filter (fun kv => kv.1 != name)

/-- Assignment `macros[name] = v`: the entry of the name is replaced or created. -/
def macros_set (m : MapMacro) (name : String) (v : Macro) : MapMacro :=
  (name, v) :: macros_erase m name

/-- Static state of `Pdtoken` together with the lexer input and the
diagnostics and unifications made so far. -/
structure Pdstate where
  input : List Token
  at_bol : Bool
  expand : List Token
  macros : MapMacro
  iftaken : List Bool
  skiplevel : Int
  context : Context
  errors : List (Severity × String)
  unified : List (Token × Token)
deriving DecidableEq, Repr

/-- Result of a macro expansion call: the token list after replacement, the
lexer input left, and the diagnostics and unifications it made. -/
structure Expansion where
  tokens : List Token
  input : List Token
  errors : List (Severity × String)
  unified : List (Token × Token)

/-- Collaborators of `pdtoken.cpp` that are not among the translated sources.
`eval_parse` returns the diagnostics of the parse and `some eval_result` when
the yacc parser returns 0, `none` when it reports a syntax error. -/
structure Ext where
  is_space : Token → Bool
  value_rtrim : List Token → List Token
  macro_differs : Macro → Macro → Bool
  macro_replace : MapMacro → List Token → List Token → Expansion
  macro_replace_all : MapMacro → List Token → Expansion
  eval_parse : List Token → List (Severity × String) × Option Int

/-- Call `Error::error(sev, msg)`. -/
def Pdstate.error (s : Pdstate) (sev : Severity) (msg : String) : Pdstate :=
  { s with errors := s.errors ++ [(sev, msg)] }

/-! ## The lexer interface -/

/-- One call of `Pltoken::getnext<Fchar>`: the next token and the input left. -/
def lex_getnext (inp : List Token) : Token × List Token :=
  match inp with
  | [] => (eofToken, [])
  | t :: rest => (t, rest)

/-- Modelled from the spec: `Pltoken::getnext_nospc` (`pltoken.h`) is missing;
it delivers the next token that is not a `SPACE` token. -/
def getnext_nospc (inp : List Token) : Token × List Token :=
  match inp with
  | [] => (eofToken, [])
  | t :: rest => if t.code = SPACE then getnext_nospc rest else (t, rest)

/-- Input left after `Pdtoken::eat_to_eol`: consume up to and including the
first newline (or the first `EOF`). -/
def eat_to_eol_input (inp : List Token) : List Token :=
  match inp with
  | [] => []
  | t :: rest => if t.code = EOF ∨ t.code = NL then rest else eat_to_eol_input rest

/-- State after `Pdtoken::eat_to_eol`. -/
def eat_to_eol (s : Pdstate) : Pdstate :=
  { s with input := eat_to_eol_input s.input }

/-! ## `eval`: the value of an `#if` expression -/

/-- First loop of `eval`: the tokens pushed on `eval_tokens` (the terminating
newline or `EOF` token included) and the input left. -/
def eval_read (inp : List Token) : List Token × List Token :=
  match inp with
  | [] => ([eofToken], [])
  | t :: rest =>
    if t.code = EOF ∨ t.code = NL then ([t], rest)
    else ((eval_read rest).1.cons t, (eval_read rest).2)

/-- Outcome of the `defined` loop of `eval`: the unifications made, and either
the message of the error that ended `eval` or the rewritten token list. -/
structure DefinedPass where
  unified : List (Token × Token)
  result : Except String (List Token)

/-- Predicate of the `find_if` that looks for the `defined` operator. -/
def is_defined_op (t : Token) : Bool := t.val == "defined"

/-- The loop of `eval` that processes the `defined` operator. Every round
removes at least the `defined` token, so a number of rounds above the length
of the list is never used up. -/
def defined_pass (ext : Ext) (macros : MapMacro) : Nat → List Token → DefinedPass
  | 0, toks => { unified := [], result := .ok toks }
  | fuel + 1, toks =>
    match toks.dropWhile (fun t => !is_defined_op t) with
    | [] => { unified := [], result := .ok toks }
    | _ :: after_op =>
      let pre := toks.takeWhile (fun t => !is_defined_op t)
      let r1 := after_op.dropWhile ext.is_space
      let need_bracket : Bool :=
        match r1 with
        | a :: _ => decide (a.code = LPAREN)
        | [] => false
      let r2 := if need_bracket then (r1.drop 1).dropWhile ext.is_space else r1
      match r2 with
      | [] => { unified := [], result := .error "No identifier following defined operator" }
      | arg :: r3 =>
        if arg.code ≠ IDENTIFIER then
          { unified := [], result := .error "No identifier following defined operator" }
        else
          let closing : Option (List Token) :=
            if need_bracket then
              match r3.dropWhile ext.is_space with
              | [] => none
              | l :: r4 => if l.code ≠ RPAREN then none else some r4
            else some r3
          match closing with
          | none => { unified := [], result := .error "Missing close bracket in defined operator" }
          | some rest =>
            let mi := macros_find macros arg.val
            let u : List (Token × Token) :=
              match mi with
              | some m => [(arg, m.name_token)]
              | none => []
            let num := Token.ofVal PP_NUMBER (if mi.isNone then "0" else "1")
            let tail := defined_pass ext macros fuel rest
            { unified := u ++ tail.unified,
              result := match tail.result with
                | .error e => .error e
                | .ok ts => .ok (pre ++ num :: ts) }

/-- The loop of `eval` that changes the remaining identifiers to the
pp-number `0`. -/
def zero_identifiers (toks : List Token) : List Token :=
  toks.map (fun t => if t.code = IDENTIFIER then Token.ofVal PP_NUMBER "0" else t)

/-- Conversion of the `long eval_result` to the `int` that `eval` returns:
the value is reduced to 32 bits, two's complement. -/
def long_to_int (v : Int) : Int :=
  (v + 2147483648) % 4294967296 - 2147483648

/-- The function `eval`: the returned `int` and the state afterwards. -/
def eval (ext : Ext) (s : Pdstate) : Int × Pdstate :=
  let toks := (eval_read s.input).1
  let s1 : Pdstate := { s with input := (eval_read s.input).2 }
  let dp := defined_pass ext s1.macros (toks.length + 1) toks
  let s2 : Pdstate := { s1 with unified := s1.unified ++ dp.unified }
  match dp.result with
  | .error msg => (1, s2.error .E_ERR msg)
  | .ok toks1 =>
    let mr := ext.macro_replace_all s2.macros toks1
    let s3 : Pdstate :=
      { s2 with errors := s2.errors ++ mr.errors, unified := s2.unified ++ mr.unified }
    let pr := ext.eval_parse (zero_identifiers mr.tokens)
    let s4 : Pdstate := { s3 with errors := s3.errors ++ pr.1 }
    match pr.2 with
    | none => (1, s4.error .E_ERR "Syntax error in preprocessor expression")
    | some v => (long_to_int v, s4)

/-! ## The conditional directives -/

/-- The function `Pdtoken::process_if`. -/
def process_if (ext : Ext) (s : Pdstate) : Pdstate :=
  if s.skiplevel ≠ 0 then
    { s with skiplevel := s.skiplevel + 1 }
  else
    let r := eval ext s
    let eval_res : Bool := decide (r.1 ≠ 0)
    { r.2 with iftaken := eval_res :: r.2.iftaken, skiplevel := if eval_res then 0 else 1 }

/-- The function `Pdtoken::process_elif`. -/
def process_elif (ext : Ext) (s : Pdstate) : Pdstate :=
  match s.iftaken with
  | [] => eat_to_eol (s.error .E_ERR "Unbalanced #elif")
  | top :: below =>
    if s.skiplevel > 1 then s
    else if top then { s with skiplevel := 1 }
    else process_if ext { s with iftaken := below, skiplevel := 0 }

/-- The function `Pdtoken::process_else`. -/
def process_else (s : Pdstate) : Pdstate :=
  match s.iftaken with
  | [] => eat_to_eol (s.error .E_ERR "Unbalanced #else")
  | top :: _ =>
    if s.skiplevel > 1 then s
    else if top then { s with skiplevel := 1 }
    else eat_to_eol { s with skiplevel := 0 }

/-- The function `Pdtoken::process_endif`. -/
def process_endif (s : Pdstate) : Pdstate :=
  match s.iftaken with
  | [] => eat_to_eol (s.error .E_ERR "Unbalanced #endif")
  | _ :: below =>
    let s1 : Pdstate := if s.skiplevel ≤ 1 then { s with iftaken := below } else s
    let s2 : Pdstate := if s1.skiplevel ≥ 1 then { s1 with skiplevel := s1.skiplevel - 1 } else s1
    eat_to_eol s2

/-! ## `#define`, `#undef` and the other directives -/

/-- Outcome of the formal argument loop of `process_define`: either the
message of the error reported (with the input left after `eat_to_eol`), or the
`args` map, the formal arguments, the token read after the closing bracket and
the input left. -/
inductive Formals where
  | bad (msg : String) (inp : List Token)
  | ok (args : List (String × Token)) (formal_args : List Token) (t : Token) (inp : List Token)

/-- The loop of `process_define` that gathers the formal arguments, started
before one of its `getnext_nospc` calls: `want_name` tells whether the token
read next is checked to be a parameter name (top of the loop) or the
punctuation after one. `SPACE` tokens are passed over as `getnext_nospc`
does; the exhausted input delivers `EOF`, which is neither. The assignment
`args[t.get_val()] = t` puts the newest entry first. -/
def gather_formals (want_name : Bool) (inp : List Token)
    (args : List (String × Token)) (formal_args : List Token) : Formals :=
  match inp with
  | [] =>
    if want_name then .bad "Invalid macro parameter name" []
    else .bad "Invalid macro parameter punctuation" []
  | t :: rest =>
    if t.code = SPACE then gather_formals want_name rest args formal_args
    else if want_name then
      if t.code ≠ IDENTIFIER then .bad "Invalid macro parameter name" (eat_to_eol_input rest)
      else gather_formals false rest ((t.val, t) :: args) (formal_args ++ [t])
    else if t.code = RPAREN then .ok args formal_args (lex_getnext rest).1 (lex_getnext rest).2
    else if t.code ≠ COMMA then .bad "Invalid macro parameter punctuation" (eat_to_eol_input rest)
    else gather_formals true rest args formal_args

/-- The loop of `process_define` that gathers the macro body, entered with the
current token `t` and the input left: the body, the unifications made and the
input left after the newline was read. When the input is exhausted before a
newline the lexer delivers `EOF` for ever and the loop never exits (`none`). -/
def gather_body (ext : Ext) (args : List (String × Token)) (lead : Bool) (t : Token)
    (inp : List Token) (value : List Token) (unified : List (Token × Token)) :
    Option (List Token × List (Token × Token) × List Token) :=
  if t.code = NL then some (value, unified, inp)
  else
    match inp with
    | [] => none
    | t2 :: rest =>
      if lead && ext.is_space t then gather_body ext args true t2 rest value unified
      else
        gather_body ext args false t2 rest (value ++ [t])
          (unified ++ (match args.lookup t.val with
            | some formal => [(t, formal)]
            | none => []))

/-- End of `process_define`: trim the body, warn about a differing older
definition, store the macro. -/
def define_finish (ext : Ext) (s : Pdstate) (name_token : Token) (is_function : Bool)
    (formal_args : List Token) (body : List Token × List (Token × Token) × List Token) :
    Pdstate :=
  let m : Macro :=
    { name_token := name_token, is_function := is_function, formal_args := formal_args,
      value := ext.value_rtrim body.1 }
  let s1 : Pdstate := { s with input := body.2.2, unified := s.unified ++ body.2.1 }
  let s2 : Pdstate :=
    match macros_find s1.macros name_token.val with
    | some old =>
      if ext.macro_differs old m then
        s1.error .E_WARN "Duplicate (different) macro definition"
      else s1
    | none => s1
  { s2 with macros := macros_set s2.macros name_token.val m }

/-- The function `Pdtoken::process_define`; `none` when its body loop never exits. -/
def process_define (ext : Ext) (s : Pdstate) : Option Pdstate :=
  let s0 : Pdstate := { s with context := .cpp_define }
  let name_token := (getnext_nospc s0.input).1
  let inp1 := (getnext_nospc s0.input).2
  if name_token.code ≠ IDENTIFIER then
    some (eat_to_eol ({ s0 with input := inp1 }.error .E_ERR "Invalid macro name"))
  else
    let t := (lex_getnext inp1).1
    let inp2 := (lex_getnext inp1).2
    if t.code = LPAREN then
      if (getnext_nospc inp2).1.code ≠ RPAREN then
        match gather_formals true inp2 [] [] with
        | .bad msg inp => some ({ s0 with input := inp }.error .E_ERR msg)
        | .ok args formal_args t3 inp3 =>
          (gather_body ext args true t3 inp3 [] []).map
            (define_finish ext s0 name_token true formal_args)
      else
        let inp3 := (getnext_nospc inp2).2
        (gather_body ext [] true (lex_getnext inp3).1 (lex_getnext inp3).2 [] []).map
          (define_finish ext s0 name_token true [])
    else
      (gather_body ext [] true t inp2 [] []).map (define_finish ext s0 name_token false [])

/-- The function `Pdtoken::process_undef`. -/
def process_undef (s : Pdstate) : Pdstate :=
  let t := (getnext_nospc s.input).1
  let s0 : Pdstate := { s with input := (getnext_nospc s.input).2 }
  if t.code ≠ IDENTIFIER then
    eat_to_eol (s0.error .E_ERR "Invalid macro name")
  else
    match macros_find s0.macros t.val with
    | some m =>
      eat_to_eol { s0 with unified := s0.unified ++ [(t, m.name_token)],
                           macros := macros_erase s0.macros t.val }
    | none => eat_to_eol s0

/-- The function `Pdtoken::process_include`. -/
def process_include (s : Pdstate) : Pdstate :=
  eat_to_eol { s with context := .cpp_include }

/-- The function `Pdtoken::process_line`. -/
def process_line (s : Pdstate) : Pdstate := eat_to_eol s

/-- The function `Pdtoken::process_error`. -/
def process_error (s : Pdstate) : Pdstate := eat_to_eol s

/-- The function `Pdtoken::process_pragma`. -/
def process_pragma (s : Pdstate) : Pdstate := eat_to_eol s

/-- The function `Pdtoken::process_directive`, called after the `#` was read. -/
def process_directive (ext : Ext) (s : Pdstate) : Option Pdstate :=
  let t := (getnext_nospc s.input).1
  let s0 : Pdstate := { s with input := (getnext_nospc s.input).2 }
  if t.code = NL then some s0
  else if t.code ≠ IDENTIFIER then
    some (eat_to_eol (s0.error .E_ERR "Preprocessor syntax"))
  else if t.val = "define" then process_define ext s0
  else if t.val = "include" then some (process_include s0)
  else if t.val = "if" then some (process_if ext s0)
  else if t.val = "ifdef" then some (process_if ext s0)
  else if t.val = "ifndef" then some (process_if ext s0)
  else if t.val = "elif" then some (process_elif ext s0)
  else if t.val = "else" then some (process_else s0)
  else if t.val = "endif" then some (process_endif s0)
  else if t.val = "undef" then some (process_undef s0)
  else if t.val = "line" then some (process_line s0)
  else if t.val = "error" then some (process_error s0)
  else if t.val = "pragma" then some (process_pragma s0)
  else some (s0.error .E_ERR ("Unknown preprocessor directive: " ++ t.val))

/-- The function `Pdtoken::getnext`: the token delivered and the state
afterwards. Every unit of `fuel` pays for one pass through the label
`expand_get` or `again`; `none` when the fuel is used up or `process_define`
never returns. -/
def getnext (ext : Ext) : Nat → Pdstate → Option (Token × Pdstate)
  | 0, _ => none
  | fuel + 1, s =>
    match s.expand with
    | n :: rest => some (n, { s with expand := rest })
    | [] =>
      let t := (lex_getnext s.input).1
      let s0 : Pdstate := { s with input := (lex_getnext s.input).2 }
      if s0.at_bol ∧ (t.code = SPACE ∨ t.code = NL) then getnext ext fuel s0
      else if s0.at_bol ∧ t.code = HASH then
        match process_directive ext s0 with
        | none => none
        | some s1 => getnext ext fuel s1
      else
        let s1 : Pdstate := { s0 with at_bol := false }
        if s1.skiplevel ≠ 0 then
          if t.code = NL then getnext ext fuel { s1 with at_bol := true }
          else if t.code = EOF then
            some (t, s1.error .E_ERR "EOF while processing #if directive")
          else getnext ext fuel s1
        else if t.code = NL then some (t, { s1 with at_bol := true })
        else if t.code = IDENTIFIER then
          let mr := ext.macro_replace s1.macros (t :: s1.expand) s1.input
          getnext ext fuel
            { s1 with expand := mr.tokens, input := mr.input,
                      errors := s1.errors ++ mr.errors, unified := s1.unified ++ mr.unified }
        else if t.code = EOF then
          some (t, if s1.iftaken.isEmpty then s1
                   else s1.error .E_ERR "EOF while processing #if directive")
        else some (t, s1)

/-! ## The identifier pages of `cscout.cpp` -/

/-- The class `Identifier` of `cscout.cpp`. -/
structure Identifier where
  id : String
  newid : String
  xfile : Bool
  replaced : Bool
deriving DecidableEq, Repr

/-- Method `Identifier::set_newid`. -/
def Identifier.set_newid (i : Identifier) (s : String) : Identifier :=
  { i with newid := s, replaced := true }

/-- Modelled from the spec: `eclass.h` is missing; an equivalence class has the
common length of its members, its member positions and the attributes that
are set. -/
structure Eclass where
  len : Nat
  members : List Tokid
  attrs : List Nat
deriving DecidableEq, Repr

/-- Modelled from the spec: `attr.h` is missing; number of the read-only
attribute. -/
abbrev is_readonly : Nat := 0

/-- What the pages of `cscout.cpp` work on: the equivalence classes by address
(`Eclass *`), the map `ids`, and the content of every file by `Fileid`. -/
structure World where
  eclasses : List (Nat × Eclass)
  ids : List (Nat × Identifier)
  files : List (Nat × List Char)
deriving DecidableEq, Repr

/-- Modelled from the spec: `Eclass::get_attribute` (`eclass.h`) is missing;
the attribute is set on the class at this address. -/
def get_attribute (w : World) (e : Nat) (a : Nat) : Bool :=
  match w.eclasses.lookup e with
  | some ec => ec.attrs.contains a
  | none => false

/-- Modelled from the spec: `Tokid::check_ec` (`tokid.h`) is missing; the
address of the equivalence class that has the position as a member, `none`
for the null pointer. -/
def check_ec (w : World) (ti : Tokid) : Option Nat :=
  (w.eclasses.find? (fun kv => kv.2.members.contains ti)).map (fun kv => kv.1)

/-- Modelled from the spec: `Eclass::sorted_files` (`eclass.h`) is missing; the
files that hold a member of the class, each once. -/
def sorted_files (w : World) (e : Nat) : List Nat :=
  match w.eclasses.lookup e with
  | some ec => (ec.members.map (fun ti => ti.fi)).dedup
  | none => []

/-- The function `local_access`: the peer is the local host. -/
def local_access (peer : Option String) : Bool :=
  match peer with
  | some ip => ip == "127.0.0.1"
  | none => false

/-- Element `ids[e]`: the entry of the class, a default `Identifier` when there
is none yet. -/
def ids_at (ids : List (Nat × Identifier)) (e : Nat) : Identifier :=
  match ids.lookup e with
  | some i => i
  | none => { id := "", newid := "", xfile := false, replaced := false }

/-- Assignment through the reference `ids[e]`. -/
def ids_set (ids : List (Nat × Identifier)) (e : Nat) (i : Identifier) :
    List (Nat × Identifier) :=
  if ids.any (fun kv => kv.1 == e) then
    ids.map (fun kv => if kv.1 = e then (e, i) else kv)
  else ids ++ [(e, i)]

/-- What `identifier_page` leaves behind: the world, and whether the page
shows the form to substitute the identifier. -/
structure IdentifierPage where
  world : World
  form_shown : Bool
deriving DecidableEq, Repr

/-- The function `identifier_page` (non-commercial build): `e` is the `id`
argument of the request, `sname` its `sname` variable, `peer` the address of
the peer. -/
def identifier_page (w : World) (e : Option Nat) (sname : Option String)
    (peer : Option String) : IdentifierPage :=
  match e with
  | none => { world := w, form_shown := false }
  | some e =>
    let w0 : World := { w with ids := ids_set w.ids e (ids_at w.ids e) }
    match sname with
    | some subst =>
      if !local_access peer then { world := w0, form_shown := false }
      else
        { world := { w0 with ids := ids_set w0.ids e ((ids_at w0.ids e).set_newid subst) },
          form_shown := !get_attribute w0 e is_readonly }
    | none => { world := w0, form_shown := !get_attribute w0 e is_readonly }

/-- The identifier to write at a position, when the condition of
`file_replace` holds there: the position has an equivalence class, the class
has an entry in `ids`, and the entry is marked as replaced. -/
def replacement_at (w : World) (ti : Tokid) : Option (Nat × Identifier) :=
  match check_ec w ti with
  | none => none
  | some e =>
    match w.ids.lookup e with
    | none => none
    | some i =>
      if i.replaced then
        some ((match w.eclasses.lookup e with | some ec => ec.len | none => 0), i)
      else none

/-- The loop of `file_replace` over the bytes still to read, at the offset
`offs`: the bytes written and the number of replacements. `skip` counts the
bytes that the inner `for` loop still reads without writing. -/
def file_replace_scan (w : World) (fid : Nat) (offs skip : Nat) (content : List Char) :
    List Char × Nat :=
  match content with
  | [] => ([], 0)
  | c :: rest =>
    match skip with
    | k + 1 => file_replace_scan w fid (offs + 1) k rest
    | 0 =>
      match replacement_at w ⟨fid, offs⟩ with
      | some (len, i) =>
        (i.newid.data ++ (file_replace_scan w fid (offs + 1) (len - 1) rest).1,
         (file_replace_scan w fid (offs + 1) (len - 1) rest).2 + 1)
      | none =>
        (c :: (file_replace_scan w fid (offs + 1) 0 rest).1,
         (file_replace_scan w fid (offs + 1) 0 rest).2)

/-- The function `file_replace`: the number of replacements and the world with
the file rewritten when there was one; `none` when the file cannot be opened. -/
def file_replace (w : World) (fid : Nat) : Option (Nat × World) :=
  match w.files.lookup fid with
  | none => none
  | some content =>
    let r := file_replace_scan w fid 0 0 content
    if r.2 ≠ 0 then
      some (r.2, { w with files := w.files.map (fun kv => if kv.1 = fid then (fid, r.1) else kv) })
    else some (0, w)

/-- The files `write_quit_page` processes: those of every class whose
identifier is marked as replaced. -/
def files_to_process (w : World) : List Nat :=
  ((w.ids.filter (fun kv => kv.2.replaced)).map (fun kv => sorted_files w kv.1)).flatten.dedup

/-- The loop of `write_quit_page` that does the replacements, file by file. -/
def replace_files (w : World) (process : List Nat) : Option (Nat × World) :=
  match process with
  | [] => some (0, w)
  | f :: rest =>
    match file_replace w f with
    | none => none
    | some (n, w1) => (replace_files w1 rest).map (fun r => (n + r.1, r.2))

/-- The function `write_quit_page` (non-commercial build): the total of
replacements and the world afterwards; nothing is done for a remote peer. -/
def write_quit_page (w : World) (peer : Option String) : Option (Nat × World) :=
  if !local_access peer then some (0, w)
  else replace_files w (files_to_process w)

/-! ## An instance of the collaborators -/

/-- Value of a run of decimal digits, `none` when a character is not a digit. -/
def decimal_value (acc : Nat) (cs : List Char) : Option Nat :=
  match cs with
  | [] => some acc
  | c :: rest =>
    if c.isDigit then decimal_value (acc * 10 + (c.toNat - 48)) rest else none

/-- Modelled from the spec: `macro.cpp`, `ptoken.h` and the yacc grammar of
`#if` expressions are missing. This instance of the collaborators serves to
run the directive processor on concrete inputs: whitespace is a `SPACE` or
newline token, macros differ by kind, parameter names or body spelling, an
identifier that names an object-like macro is replaced by the body of the
macro (unified with the name token, no rescanning), and an expression is one
decimal constant (anything else is a syntax error). -/
def sampleExt : Ext where
  is_space := fun t => decide (t.code = SPACE ∨ t.code = NL)
  value_rtrim := fun v =>
    (v.reverse.dropWhile (fun t => decide (t.code = SPACE ∨ t.code = NL))).reverse
  macro_differs := fun a b =>
    a.is_function != b.is_function ||
    a.formal_args.map (fun t => t.val) != b.formal_args.map (fun t => t.val) ||
    a.value.map (fun t => (t.code, t.val)) != b.value.map (fun t => (t.code, t.val))
  macro_replace := fun macros expand inp =>
    match expand with
    | [] => { tokens := [], input := inp, errors := [], unified := [] }
    | t :: rest =>
      match macros_find macros t.val with
      | some m =>
        if m.is_function then { tokens := t :: rest, input := inp, errors := [], unified := [] }
        else { tokens := m.value ++ rest, input := inp, errors := [],
               unified := [(t, m.name_token)] }
      | none => { tokens := t :: rest, input := inp, errors := [], unified := [] }
  macro_replace_all := fun macros toks =>
    { tokens := (toks.map (fun t =>
        match macros_find macros t.val with
        | some m => if t.code = IDENTIFIER ∧ m.is_function = false then m.value else [t]
        | none => [t])).flatten,
      input := [],
      errors := [],
      unified := (toks.map (fun t =>
        match macros_find macros t.val with
        | some m =>
          if t.code = IDENTIFIER ∧ m.is_function = false then [(t, m.name_token)] else []
        | none => [])).flatten }
  eval_parse := fun toks =>
    match toks.filter (fun t => !decide (t.code = SPACE ∨ t.code = NL)) with
    | [t] =>
      if t.code = PP_NUMBER ∧ t.val.data ≠ [] then
        ([], (decimal_value 0 t.val.data).map (fun n => (n : Int)))
      else ([], none)
    | _ => ([], none)

/-! ## Concrete inputs -/

/-- Token of file 1 as the lexer delivers it: code, spelling and offset. -/
def tok (code : Int) (val : String) (offs : Nat) : Token :=
  { code := code, parts := [⟨⟨1, offs⟩, val.length⟩], val := val }

/-- State of `Pdtoken` at the start of a translation unit: the initial values
of its static members, before the input `inp`. -/
def Pdstate.init (inp : List Token) : Pdstate :=
  { input := inp, at_bol := true, expand := [], macros := [], iftaken := [],
    skiplevel := 0, context := .cpp_normal, errors := [], unified := [] }

/-- State inside conditionals: the given `iftaken` stack and `skiplevel`,
before the input `inp`. -/
def Pdstate.inside (iftaken : List Bool) (skiplevel : Int) (inp : List Token) : Pdstate :=
  { Pdstate.init inp with iftaken := iftaken, skiplevel := skiplevel }

/-- Scenario S4 of the specification: `#if 0`, `#define BAD(`, `#endif`,
`int ok;`, every line ended by a newline. -/
def scenario_S4 : List Token :=
  [tok HASH "#" 0, tok IDENTIFIER "if" 1, tok SPACE " " 3, tok PP_NUMBER "0" 4, tok NL "\n" 5,
   tok HASH "#" 6, tok IDENTIFIER "define" 7, tok SPACE " " 13, tok IDENTIFIER "BAD" 14,
   tok LPAREN "(" 17, tok NL "\n" 18,
   tok HASH "#" 19, tok IDENTIFIER "endif" 20, tok NL "\n" 25,
   tok IDENTIFIER "int" 26, tok SPACE " " 29, tok IDENTIFIER "ok" 30, tok 59 ";" 32,
   tok NL "\n" 33]

/-- Macro expansion of `toks` under `macros` makes `result`, unifies `u` and
reports nothing. -/
def Ext.expands (ext : Ext) (macros : MapMacro) (toks result : List Token)
    (u : List (Token × Token)) : Prop :=
  (ext.macro_replace_all macros toks).tokens = result ∧
  (ext.macro_replace_all macros toks).errors = [] ∧
  (ext.macro_replace_all macros toks).unified = u

/-- The expression of an `#if` line fails to evaluate: the `defined` loop of
`eval` ends with one of its two errors, or the parser reports a syntax error. -/
def eval_fails (ext : Ext) (s : Pdstate) : Bool :=
  match (defined_pass ext s.macros ((eval_read s.input).1.length + 1)
      (eval_read s.input).1).result with
  | .error _ => true
  | .ok toks1 =>
    (ext.eval_parse (zero_identifiers (ext.macro_replace_all s.macros toks1).tokens)).2.isNone

/-- The lines `#define BAD`, `#endif`, each ended by a newline. -/
def skipped_define : List Token :=
  [tok HASH "#" 6, tok IDENTIFIER "define" 7, tok SPACE " " 13, tok IDENTIFIER "BAD" 14,
   tok NL "\n" 17,
   tok HASH "#" 18, tok IDENTIFIER "endif" 19, tok NL "\n" 24]

/-- Macro table after `#define X 0` (the name at offset 8, the body at 10). -/
def macros_X0 : MapMacro :=
  [("X", { name_token := tok IDENTIFIER "X" 8, is_function := false, formal_args := [],
           value := [tok PP_NUMBER "0" 10] })]

/-- Scenario S6 of the specification: file 0 is the read-only header `sys.h`
holding `int foo;`, file 1 holds `foo();`; the class at address 1 has the two
occurrences of `foo` as members and the read-only attribute set. -/
def scenario_S6 : World :=
  { eclasses := [(1, { len := 3, members := [⟨0, 4⟩, ⟨1, 0⟩], attrs := [is_readonly] })],
    ids := [(1, { id := "foo", newid := "", xfile := true, replaced := false })],
    files := [(0, "int foo;".data), (1, "foo();".data)] }

/-! ## One pass of `getnext` -/

/-- What one pass of `getnext` from the label `again` does with the token it
read from the lexer: the token is dropped (`goto again`), it was the `#` of a
directive that `process_directive` then handled (`goto again`), it was handed
to macro expansion (`goto expand_get`), or it is returned to the caller. -/
inductive Pass where
  | discarded (s : Pdstate)
  | directive (s : Pdstate)
  | expanded (s : Pdstate)
  | returned (t : Token) (s : Pdstate)

/-- The body of `getnext` from the label `again` up to the next jump or
return, entered with an empty `expand`; `none` when `process_define` never
returns. -/
def getnext_pass (ext : Ext) (s : Pdstate) : Option Pass :=
  let t := (lex_getnext s.input).1
  let s0 : Pdstate := { s with input := (lex_getnext s.input).2 }
  if s0.at_bol ∧ (t.code = SPACE ∨ t.code = NL) then some (.discarded s0)
  else if s0.at_bol ∧ t.code = HASH then
    (process_directive ext s0).map .directive
  else
    let s1 : Pdstate := { s0 with at_bol := false }
    if s1.skiplevel ≠ 0 then
      if t.code = NL then some (.discarded { s1 with at_bol := true })
      else if t.code = EOF then
        some (.returned t (s1.error .E_ERR "EOF while processing #if directive"))
      else some (.discarded s1)
    else if t.code = NL then some (.returned t { s1 with at_bol := true })
    else if t.code = IDENTIFIER then
      let mr := ext.macro_replace s1.macros (t :: s1.expand) s1.input
      some (.expanded
        { s1 with expand := mr.tokens, input := mr.input,
                  errors := s1.errors ++ mr.errors, unified := s1.unified ++ mr.unified })
    else if t.code = EOF then
      some (.returned t (if s1.iftaken.isEmpty then s1
                         else s1.error .E_ERR "EOF while processing #if directive"))
    else some (.returned t s1)

/-! ## Assumptions on the collaborators -/

/-- Modelled from the spec: `Ptoken::is_space` (`ptoken.h`) is missing; every
`SPACE` token is whitespace, and whitespace is a `SPACE` or newline token. -/
def Ext.space_ok (ext : Ext) : Prop :=
  (∀ t : Token, t.code = SPACE → ext.is_space t = true) ∧
  (∀ t : Token, ext.is_space t = true → t.code = SPACE ∨ t.code = NL)

/-- Modelled from the spec: `Macro::value_rtrim` (`macro.h`) is missing; it
removes the trailing whitespace tokens of the body. -/
def Ext.rtrim_ok (ext : Ext) : Prop :=
  ∀ v : List Token, ext.value_rtrim v = (v.reverse.dropWhile ext.is_space).reverse

/-! ## The identifier loop of `eval`, as written -/

/-- The loop `for (i = begin; (i = find_if(i, end, code == IDENTIFIER)) != end;)
*i = Ptoken(PP_NUMBER, "0")` of `eval`: `done` are the tokens before the
iterator `i`, `rest` those from `i` on. The iterator stays on the token just
replaced; `none` when the rounds given are used up. -/
def zero_loop : Nat → List Token → List Token → Option (List Token)
  | 0, _, _ => none
  | fuel + 1, done, rest =>
    match rest.dropWhile (fun t => !decide (t.code = IDENTIFIER)) with
    | [] => some (done ++ rest)
    | _ :: after =>
      zero_loop fuel (done ++ rest.takeWhile (fun t => !decide (t.code = IDENTIFIER)))
        (Token.ofVal PP_NUMBER "0" :: after)

/-- The line `#define A(x) x` after its keyword, ended by a newline. -/
def define_A_function : List Token :=
  [tok SPACE " " 7, tok IDENTIFIER "A" 8, tok LPAREN "(" 9, tok IDENTIFIER "x" 10,
   tok RPAREN ")" 11, tok SPACE " " 12, tok IDENTIFIER "x" 13, tok NL "\n" 14]

/-- The line `#define A (x)` after its keyword, ended by a newline. -/
def define_A_object : List Token :=
  [tok SPACE " " 7, tok IDENTIFIER "A" 8, tok SPACE " " 9, tok LPAREN "(" 10,
   tok IDENTIFIER "x" 11, tok RPAREN ")" 12, tok NL "\n" 13]

/-- A `#define` was rejected: `process_define` went from `s` to `s1` by
reporting an error. -/
def define_rejected (s s1 : Pdstate) : Prop :=
  ∃ msg, s1.errors = s.errors ++ [(Severity.E_ERR, msg)]

/-- The line `#foo 1`, ended by a newline. -/
def unknown_directive : List Token :=
  [tok HASH "#" 0, tok IDENTIFIER "foo" 1, tok SPACE " " 4, tok PP_NUMBER "1" 5, tok NL "\n" 6]

/-- The line `#foo #define X`, ended by a newline. -/
def unknown_then_define : List Token :=
  [tok HASH "#" 0, tok IDENTIFIER "foo" 1, tok SPACE " " 4, tok HASH "#" 5,
   tok IDENTIFIER "define" 6, tok SPACE " " 12, tok IDENTIFIER "X" 13, tok NL "\n" 14]

/-- The tokens of the line `int x;` at the offset `offs`, ended by a newline,
and of the identifier `y` on the line after it. -/
def next_lines (offs : Nat) : List Token :=
  [tok IDENTIFIER "int" offs, tok SPACE " " (offs + 3), tok IDENTIFIER "x" (offs + 4),
   tok 59 ";" (offs + 5), tok NL "\n" (offs + 6), tok IDENTIFIER "y" (offs + 7)]

/-! ## The `defined` step in the words of the specification -/

/-- The pp-number that stands for `defined X`: `1` if the macro exists, `0`
otherwise. -/
def defined_number (macros : MapMacro) (x : Token) : Token :=
  Token.ofVal PP_NUMBER (if (macros_find macros x.val).isSome then "1" else "0")

/-- The unification that `defined X` asks for: the use token with the name
token of the macro, when the macro is defined. -/
def defined_unify (macros : MapMacro) (x : Token) : List (Token × Token) :=
  match macros_find macros x.val with
  | some m => [(x, m.name_token)]
  | none => []

/-- Step 1 of the `#if` evaluator as the specification words it, for a token
list in which every `defined` is followed, after optional whitespace, by an
identifier or by `(` identifier `)`: each whole occurrence `defined X` or
`defined ( X )` is replaced by one pp-number, every other token is kept in
its place, and the operands that are defined are unified with the names of
their macros. `DefinedSpec ext macros toks out u` relates the list `toks` to
the rewritten list `out` and the unifications `u`. -/
inductive DefinedSpec (ext : Ext) (macros : MapMacro) :
    List Token → List Token → List (Token × Token) → Prop where
  | done : DefinedSpec ext macros [] [] []
  | keep (t : Token) (rest out : List Token) (u : List (Token × Token)) :
      is_defined_op t = false → DefinedSpec ext macros rest out u →
      DefinedSpec ext macros (t :: rest) (t :: out) u
  | plain (d x : Token) (ws rest out : List Token) (u : List (Token × Token)) :
      is_defined_op d = true → (∀ w ∈ ws, ext.is_space w = true) →
      x.code = IDENTIFIER → DefinedSpec ext macros rest out u →
      DefinedSpec ext macros (d :: (ws ++ x :: rest))
        (defined_number macros x :: out) (defined_unify macros x ++ u)
  | bracket (d lp x rp : Token) (ws1 ws2 ws3 rest out : List Token)
      (u : List (Token × Token)) :
      is_defined_op d = true → (∀ w ∈ ws1, ext.is_space w = true) → lp.code = LPAREN →
      (∀ w ∈ ws2, ext.is_space w = true) → x.code = IDENTIFIER →
      (∀ w ∈ ws3, ext.is_space w = true) → rp.code = RPAREN →
      DefinedSpec ext macros rest out u →
      DefinedSpec ext macros (d :: (ws1 ++ lp :: (ws2 ++ x :: (ws3 ++ rp :: rest))))
        (defined_number macros x :: out) (defined_unify macros x ++ u)

/-! ## The renaming of a file in the words of the specification -/

/-- An identifier occurrence to be renamed, as the specification words it:
`Occurrence w fid offs len newid` says that at the offset `offs` of the file
`fid` `check_ec` yields a class that has an entry in `ids` with `replaced`
set; `len` is the length of that class and `newid` the new name of the
entry. -/
inductive Occurrence (w : World) (fid offs : Nat) : Nat → String → Prop where
  | mk (e : Nat) (ec : Eclass) (i : Identifier) :
      check_ec w ⟨fid, offs⟩ = some e → w.eclasses.lookup e = some ec →
      w.ids.lookup e = some i → i.replaced = true →
      Occurrence w fid offs ec.len i.newid

/-- The content a renaming makes of a file, as the specification words it:
`Rewritten w fid offs content out n` says that the bytes `content`, which
start at the offset `offs` of the file `fid`, are rewritten to `out` with `n`
substitutions. At an offset that is an identifier occurrence to be renamed the
new name of the entry stands in place of the bytes of the length of the class;
every other byte is copied. -/
inductive Rewritten (w : World) (fid : Nat) : Nat → List Char → List Char → Nat → Prop where
  | done (offs : Nat) : Rewritten w fid offs [] [] 0
  | copy (offs : Nat) (c : Char) (rest out : List Char) (n : Nat) :
      (∀ (len : Nat) (newid : String), ¬ Occurrence w fid offs len newid) →
      Rewritten w fid (offs + 1) rest out n →
      Rewritten w fid offs (c :: rest) (c :: out) n
  | subst (offs len : Nat) (newid : String) (c : Char) (rest out : List Char) (n : Nat) :
      Occurrence w fid offs len newid →
      Rewritten w fid (offs + len) ((c :: rest).drop len) out n →
      Rewritten w fid offs (c :: rest) (newid.data ++ out) (n + 1)

/-! ## The test of `file_replace`, counted -/

/-- The number of offsets among the bytes `content`, which start at the offset
`offs` of the file `fid`, at which the test of `file_replace`
(`replacement_at`) succeeds. The proofs relate this count of the code to the
occurrences of the specification. -/
def occurrences (w : World) (fid : Nat) (offs : Nat) (content : List Char) : Nat :=
  match content with
  | [] => 0
  | _ :: rest =>
    (if (replacement_at w ⟨fid, offs⟩).isSome then 1 else 0) + occurrences w fid (offs + 1) rest

/-- The invariant of the equivalence class store for the file `fid`, in terms
of the test of `file_replace`: where the test succeeds the length is at least
1, and it does not succeed inside the bytes of that length. -/
def World.classes_ok (w : World) (fid : Nat) : Prop :=
  (∀ (offs len : Nat) (i : Identifier),
    replacement_at w ⟨fid, offs⟩ = some (len, i) → 1 ≤ len) ∧
  (∀ (offs len : Nat) (i : Identifier),
    replacement_at w ⟨fid, offs⟩ = some (len, i) →
    ∀ j, 0 < j → j < len → replacement_at w ⟨fid, offs + j⟩ = none)

/-- A world with one writable file, number 1, that holds `foo();`; the class
at address 1 has the occurrence of `foo` at offset 0 as its member, and its
identifier is marked as replaced by `bar`. -/
def renamed_world : World :=
  { eclasses := [(1, { len := 3, members := [⟨1, 0⟩], attrs := [] })],
    ids := [(1, { id := "foo", newid := "bar", xfile := false, replaced := true })],
    files := [(1, "foo();".data)] }

/-! ## Sequences of conditional directives -/

/-- The four conditional directives, by the function that handles them
(`#if`, `#ifdef` and `#ifndef` all go to `process_if`). -/
inductive Dir where
  | d_if
  | d_elif
  | d_else
  | d_endif
deriving DecidableEq, Repr

/-- One directive of a sequence: the handler is called with the rest of the
directive line, and whatever follows it, as the lexer input. -/
def run_dir (ext : Ext) (d : Dir × List Token) (s : Pdstate) : Pdstate :=
  match d.1 with
  | .d_if => process_if ext { s with input := d.2 }
  | .d_elif => process_elif ext { s with input := d.2 }
  | .d_else => process_else { s with input := d.2 }
  | .d_endif => process_endif { s with input := d.2 }

/-- A state together with the number of `#if*` directives seen and the number
of `#endif` directives that were not rejected as unbalanced. -/
structure Nest where
  state : Pdstate
  ifs : Nat
  endifs : Nat

/-- One directive, counted: an `#endif` is rejected as unbalanced when
`iftaken` is empty at its call. -/
def Nest.step (ext : Ext) (n : Nest) (d : Dir × List Token) : Nest :=
  { state := run_dir ext d n.state,
    ifs := if d.1 = .d_if then n.ifs + 1 else n.ifs,
    endifs := if d.1 = .d_endif ∧ n.state.iftaken ≠ [] then n.endifs + 1 else n.endifs }

/-- A sequence of directives, counted. -/
def Nest.run (ext : Ext) (n : Nest) (ds : List (Dir × List Token)) : Nest :=
  ds.foldl (Nest.step ext) n

/-! ## The body loop of `process_define`, as written -/

/-- The body loop of `process_define` as it is written, with its calls of the
lexer: `fuel` bounds the number of rounds, `none` when they are used up. -/
def body_loop (ext : Ext) (args : List (String × Token)) :
    Nat → Bool → Token → List Token → List Token → List (Token × Token) →
    Option (List Token × List (Token × Token) × List Token)
  | 0, _, _, _, _, _ => none
  | fuel + 1, lead, t, inp, value, unified =>
    if t.code = NL then some (value, unified, inp)
    else if lead && ext.is_space t then
      body_loop ext args fuel true (lex_getnext inp).1 (lex_getnext inp).2 value unified
    else
      body_loop ext args fuel false (lex_getnext inp).1 (lex_getnext inp).2 (value ++ [t])
        (unified ++ (match args.lookup t.val with
          | some formal => [(t, formal)]
          | none => []))

/-! ## The identifier query of `cscout.cpp` -/

/-- Modelled from the spec: `Eclass::get_size` (`eclass.h`) is missing; the
number of members of the class at this address. -/
def get_size (w : World) (e : Nat) : Nat :=
  match w.eclasses.lookup e with
  | some ec => ec.members.length
  | none => 0

/-- The variables of an identifier query as `xiquery_page` reads them: the
first character of `match`, the attribute checkboxes `a0`, `a1`, ... and the
three other checkboxes. -/
structure Query where
  match_type : Char
  marked : Nat → Bool
  xfile : Bool
  unused : Bool
  writable : Bool

/-- The body of the loop of `xiquery_page` over `ids`, for the identifier `id`
of the class at address `e`: whether the identifier is inserted into
`sorted_ids`. `attr_max` (`attr.h`, missing) is the number of attributes that
are not projects, `current_project` the selected project or 0. The loops over
`j < attr_max` that leave at the first hit are written with `any` and `all`;
`none` stands for a `match` value outside the four cases, where `add` is
read without having been set. -/
def xiquery_add (attr_max current_project : Nat) (w : World) (e : Nat) (id : Identifier)
    (q : Query) : Option Bool :=
  if current_project ≠ 0 ∧ get_attribute w e current_project = false then some false
  else if q.match_type = 'Y' then
    let add := (List.range attr_max).any (fun j => q.marked j && get_attribute w e j)
    let add := add || (q.xfile && id.xfile)
    let add := add || (q.unused && decide (get_size w e = 1))
    some (add || (q.writable && !get_attribute w e is_readonly))
  else if q.match_type = 'L' then
    let add := (List.range attr_max).all (fun j => !(q.marked j && !get_attribute w e j))
    let add := add && (!q.xfile || id.xfile)
    let add := add && (!q.unused || decide (get_size w e = 1))
    some (add && (!q.writable || !get_attribute w e is_readonly))
  else if q.match_type = 'E' then
    let add := (List.range attr_max).all (fun j => !(q.marked j && get_attribute w e j))
    let add := add && (!q.xfile || !id.xfile)
    let add := add && (!q.unused || !decide (get_size w e = 1))
    some (add && (!q.writable || get_attribute w e is_readonly))
  else if q.match_type = 'T' then
    let add := (List.range attr_max).all (fun j => !(q.marked j != get_attribute w e j))
    let add := add && (q.xfile == id.xfile)
    let add := add && (q.unused == decide (get_size w e = 1))
    some (add && (q.writable == !get_attribute w e is_readonly))
  else none

/-- A world with one class, at address 1, that has no attribute, and its
identifier. -/
def world_one_class : World :=
  { eclasses := [(1, { len := 1, members := [{ fi := 1, offs := 0 }], attrs := [] })],
    ids := [(1, { id := "a", newid := "", xfile := false, replaced := false })],
    files := [(1, ['a'])] }

/-- A query with no mark set. -/
def query_unmarked (match_type : Char) : Query :=
  { match_type := match_type, marked := fun _ => false, xfile := false, unused := false,
    writable := false }

/-! ## The order of the identifier lists, `idcmp` of `cscout.cpp` -/

/-- The loop of `idcmp` for `sort_rev`, with the expression returned after
it: `j1` and `j2` are what the two reverse iterators have left to visit. The
characters are compared by their codes, as `char` does for the characters of
identifiers. -/
def rev_loop (j1 j2 : List Char) : Bool :=
  match j1, j2 with
  | c1 :: r1, c2 :: r2 => if c1 ≠ c2 then decide (c1 < c2) else rev_loop r1 r2
  | [], _ :: _ => true
  | [], [] => false
  | _ :: _, [] => false

/-- The call `s1.compare(s2)` of the C++ library, by its sign: the first
differing character decides, then the length. -/
def string_compare (s1 s2 : List Char) : Int :=
  match s1, s2 with
  | c1 :: r1, c2 :: r2 => if c1 < c2 then -1 else if c2 < c1 then 1 else string_compare r1 r2
  | [], _ :: _ => -1
  | [], [] => 0
  | _ :: _, [] => 1

/-- The comparison `idcmp::operator()` on two entries of `ids`, of which it
reads the names of the identifiers; `sort_rev` is the global flag. -/
def idcmp (sort_rev : Bool) (i1 i2 : Identifier) : Bool :=
  if sort_rev then rev_loop i1.id.data.reverse i2.id.data.reverse
  else decide (string_compare i1.id.data i2.id.data < 0)

/-- Lexicographically smaller, as the specification has it: `a` is a proper
start of `b`, or after a common start `a` goes on with a smaller character
than `b`. -/
def lex_lt (a b : List Char) : Prop :=
  (∃ r : List Char, r ≠ [] ∧ b = a ++ r) ∨
  (∃ (p : List Char) (x y : Char) (ra rb : List Char),
    a = p ++ x :: ra ∧ b = p ++ y :: rb ∧ x < y)

/-! ## The head of a `#define` line -/

/-- What `process_define` has when it enters its body loop: the name token,
the kind of the macro, the `args` map, the formal arguments, the token `t`
read last and the input left. -/
structure Header where
  name_token : Token
  is_function : Bool
  args : List (String × Token)
  formal_args : List Token
  t : Token
  inp : List Token

/-- The part of `process_define` before its body loop: `none` when the name
or the parameter list is rejected. -/
def define_header (s : Pdstate) : Option Header :=
  let name_token := (getnext_nospc s.input).1
  let inp1 := (getnext_nospc s.input).2
  if name_token.code ≠ IDENTIFIER then none
  else
    let t := (lex_getnext inp1).1
    let inp2 := (lex_getnext inp1).2
    if t.code = LPAREN then
      if (getnext_nospc inp2).1.code ≠ RPAREN then
        match gather_formals true inp2 [] [] with
        | .bad _ _ => none
        | .ok args formal_args t3 inp3 => some ⟨name_token, true, args, formal_args, t3, inp3⟩
      else
        let inp3 := (getnext_nospc inp2).2
        some ⟨name_token, true, [], [], (lex_getnext inp3).1, (lex_getnext inp3).2⟩
    else some ⟨name_token, false, [], [], t, inp2⟩

/-- The unifications that the specification asks of a macro body: every body
token whose spelling is the name of a formal argument, with the token of that
argument in the parameter list (the last one of the name), in the order of
the body, and no other pair. -/
def unify_calls (formal_args : List Token) (body : List Token) : List (Token × Token) :=
  body.flatMap (fun t =>
    match formal_args.reverse.find? (fun f => f.val == t.val) with
    | some formal => [(t, formal)]
    | none => [])

/-- The line `#define A x ` after its keyword: the body `x` is followed by
a space and the newline. -/
def define_A_trailing : List Token :=
  [tok SPACE " " 7, tok IDENTIFIER "A" 8, tok SPACE " " 9, tok IDENTIFIER "x" 10,
   tok SPACE " " 11, tok NL "\n" 12]

/-! ## The file tables of `workdb.cpp` -/

/-- The states of the machine that `file_dump` runs over a C file: the
enumeration is declared in a header that is missing, these are the states
that the `switch` of `file_dump` names. -/
inductive e_cfile_state where
  | s_normal
  | s_saw_slash
  | s_saw_chr_backslash
  | s_saw_str_backslash
  | s_cpp_comment
  | s_block_comment
  | s_block_star
  | s_string
  | s_char
deriving DecidableEq, Repr

/-- A row of the tables `TOKENS`, `COMMENTS`, `STRINGS` and `REST`: the table,
the column `FOFFSET` and the text, unescaped; for a `TOKENS` row the text is
the spelling of the identifier, which `file_dump` reads from the file. -/
structure Row where
  table : String
  foffset : Nat
  text : List Char
deriving DecidableEq, Repr

/-- The fields of the class `Chunker` that change: the table chunked into,
the starting position of the current chunk and the characters collected. -/
structure Chunker where
  table : String
  startpos : Nat
  chunk : List Char
deriving DecidableEq, Repr

/-- Method `Chunker::flush`: `tellg` is the position of the stream at the
call. The rows written and the chunker afterwards. -/
def Chunker.flush (ch : Chunker) (tellg : Nat) : List Row × Chunker :=
  if ch.chunk.length > 0 then
    ([⟨ch.table, ch.startpos, ch.chunk⟩], { ch with chunk := [], startpos := tellg })
  else ([], { ch with startpos := tellg })

/-- Method `Chunker::start` with the input `s` already collected. -/
def Chunker.start (ch : Chunker) (tellg : Nat) (t : String) (s : List Char) :
    List Row × Chunker :=
  ((ch.flush tellg).1,
    { table := t, startpos := (ch.flush tellg).2.startpos - s.length, chunk := s })

/-- Method `Chunker::add`. -/
def Chunker.add (ch : Chunker) (c : Char) : Chunker :=
  { ch with chunk := ch.chunk ++ [c] }

/-- What the loop of `file_dump` carries along: the position of the stream,
the state of the machine, the chunker and the rows written so far. -/
structure Dump where
  pos : Nat
  cstate : e_cfile_state
  chunker : Chunker
  rows : List Row
deriving DecidableEq, Repr

/-- The `switch` of `file_dump` on a character that is not the start of an
identifier; `tellg` is the position after the character. -/
def dump_char (cstate : e_cfile_state) (ch : Chunker) (tellg : Nat) (c : Char) :
    e_cfile_state × List Row × Chunker :=
  match cstate with
  | .s_normal =>
    if c = '/' then (.s_saw_slash, [], ch)
    else if c = '"' then (.s_string, ch.start tellg "STRINGS" [c])
    else if c = '\'' then (.s_char, [], ch.add c)
    else (.s_normal, [], ch.add c)
  | .s_char =>
    if c = '\'' then (.s_normal, [], ch.add c)
    else if c = '\\' then (.s_saw_chr_backslash, [], ch.add c)
    else (.s_char, [], ch.add c)
  | .s_string =>
    if c = '"' then (.s_normal, (ch.add c).start tellg "REST" [])
    else if c = '\\' then (.s_saw_str_backslash, [], ch.add c)
    else (.s_string, [], ch.add c)
  | .s_saw_chr_backslash => (.s_char, [], ch.add c)
  | .s_saw_str_backslash => (.s_string, [], ch.add c)
  | .s_saw_slash =>
    if c = '/' then (.s_cpp_comment, ch.start tellg "COMMENTS" ['/', '/'])
    else if c = '*' then (.s_block_comment, ch.start tellg "COMMENTS" ['/', '*'])
    else (.s_normal, [], (ch.add '/').add c)
  | .s_cpp_comment =>
    if c = '\n' then (.s_normal, (ch.add c).start tellg "REST" [])
    else (.s_cpp_comment, [], ch.add c)
  | .s_block_comment =>
    if c = '*' then (.s_block_star, [], ch.add c)
    else (.s_block_comment, [], ch.add c)
  | .s_block_star =>
    if c = '/' then (.s_normal, (ch.add c).start tellg "REST" [])
    else if c ≠ '*' then (.s_block_comment, [], ch.add c)
    else (.s_block_star, [], ch.add c)

/-- The loop of `file_dump` over the characters of the file `fid` with the
content `content`; `is_identifier` stands for `Eclass::is_identifier`
(`eclass.h`, missing). The rows of `IDS`, `LINEPOS` and the metrics are left
out, and the text of the rows is not escaped. `fuel` bounds the rounds, `none`
when they are used up; every round reads at least one character. An
identifier is read with the length of its class, as far as the file goes. -/
def dump_loop (w : World) (is_identifier : Eclass → Bool) (fid : Nat) (content : List Char) :
    Nat → Dump → Option Dump
  | 0, _ => none
  | fuel + 1, d =>
    match content.drop d.pos with
    | [] => some d
    | c :: _ =>
      let ec : Option Eclass :=
        (check_ec w ⟨fid, d.pos⟩).bind (fun e => w.eclasses.lookup e)
      if d.cstate ≠ .s_block_comment ∧ d.cstate ≠ .s_string ∧ d.cstate ≠ .s_cpp_comment ∧
          (c.isAlphanum ∨ c = '_') ∧ (ec.map is_identifier) = some true then
        let len := match ec with
          | some e => e.len
          | none => 1
        let s := (content.drop d.pos).take (max len 1)
        let fl := d.chunker.flush (d.pos + s.length)
        dump_loop w is_identifier fid content fuel
          { d with pos := d.pos + s.length, chunker := fl.2,
                   rows := d.rows ++ fl.1 ++ [⟨"TOKENS", d.pos, s⟩] }
      else
        let r := dump_char d.cstate d.chunker (d.pos + 1) c
        dump_loop w is_identifier fid content fuel
          { pos := d.pos + 1, cstate := r.1, chunker := r.2.2, rows := d.rows ++ r.2.1 }

/-- The function `file_dump`: the rows of `TOKENS`, `COMMENTS`, `STRINGS` and
`REST` written for the file `fid`, in the order written; `none` when the file
is not there or the rounds of the loop, one more than the file has
characters, are used up. -/
def file_dump (w : World) (is_identifier : Eclass → Bool) (fid : Nat) : Option (List Row) :=
  match w.files.lookup fid with
  | none => none
  | some content =>
    (dump_loop w is_identifier fid content (content.length + 1)
      { pos := 0, cstate := .s_normal, chunker := ⟨"REST", 0, []⟩, rows := [] }).map
      (fun d => d.rows ++ (d.chunker.flush d.pos).1)

/-- Whether rows, taken in the order given, cover `content` from the offset
`pos` on: each row has the offset of the first character of its text as
`FOFFSET`, starts where the row before it ends, and the texts together are
`content`. -/
def rows_cover (pos : Nat) (rows : List Row) (content : List Char) : Bool :=
  match rows with
  | [] => content.isEmpty
  | r :: rest =>
    r.foffset == pos && r.text.isPrefixOf content &&
      rows_cover (pos + r.text.length) rest (content.drop r.text.length)

/-- Whether the rows written for a file cover it exactly, in the order of
`FOFFSET`. -/
def covers_file (rows : List Row) (content : List Char) : Bool :=
  rows_cover 0 (rows.insertionSort (fun a b => a.foffset ≤ b.foffset)) content

/-- A world with the file 1 of the content given, in which each of the
offsets `offs` holds an identifier of length 1 in a class of its own. -/
def world_of_file (content : List Char) (offs : List Nat) : World :=
  { eclasses := offs.map (fun o => (o + 1, { len := 1, members := [⟨1, o⟩], attrs := [] })),
    ids := [],
    files := [(1, content)] }

/-! ## The lexical analyser of `#if` expressions, `eval_lex` -/

/-- Modelled from the spec: the token codes `INT_CONST` and `FLOAT_CONST` of
the grammar of `#if` expressions are declared in a generated header that is
missing; two codes that no token of the lexer has. -/
abbrev INT_CONST : Int := 300

/-- See `INT_CONST`. -/
abbrev FLOAT_CONST : Int := 301

/-- The largest `long`, 64 bits wide. -/
abbrev LONG_MAX : Int := 9223372036854775807

/-- The smallest `long`, 64 bits wide. -/
abbrev LONG_MIN : Int := -9223372036854775808

/-- The value of a character as a digit of `strtol`: `0` to `9`, then the
letters of either case from 10 on. -/
def digit_value (c : Char) : Option Nat :=
  if 48 ≤ c.toNat ∧ c.toNat ≤ 57 then some (c.toNat - 48)
  else if 97 ≤ c.toNat ∧ c.toNat ≤ 122 then some (c.toNat - 87)
  else if 65 ≤ c.toNat ∧ c.toNat ≤ 90 then some (c.toNat - 55)
  else none

/-- Whether the character is a digit of the base. -/
def valid_digit (base : Nat) (c : Char) : Bool :=
  match digit_value c with
  | some d => decide (d < base)
  | none => false

/-- The white space of `isspace` in the C locale. -/
def isspace (c : Char) : Bool :=
  decide (c.toNat = 32 ∨ (9 ≤ c.toNat ∧ c.toNat ≤ 13))

/-- The digit loop of `strtol`: the value collected and the characters from
the first one that is not a digit of the base on. -/
def strtol_digits (base : Nat) (acc : Nat) (cs : List Char) : Nat × List Char :=
  match cs with
  | [] => (acc, [])
  | c :: rest =>
    if valid_digit base c then
      strtol_digits base (acc * base + (digit_value c).getD 0) rest
    else (acc, c :: rest)

/-- Whether the characters start with `0x` or `0X` and a hexadecimal digit. -/
def hex_start (cs : List Char) : Bool :=
  match cs with
  | z :: x :: h :: _ => decide (z = '0') && (decide (x = 'x') || decide (x = 'X')) &&
      valid_digit 16 h
  | _ => false

/-- The call `strtol(num, &endptr, 0)` of the C library: white space, a sign,
the base by the start of the digits (`0x` and a hexadecimal digit: 16, `0`: 8,
else 10), the digits. The `long` returned, which is the nearest bound when the
value is out of range, and the characters that `endptr` points to, which are
all of `num` when there is no digit. -/
def strtol (num : List Char) : Int × List Char :=
  let s1 := num.dropWhile isspace
  let neg : Bool := decide (s1.head? = some '-')
  let s2 := if s1.head? = some '-' ∨ s1.head? = some '+' then s1.tail else s1
  let base : Nat := if hex_start s2 then 16 else if s2.head? = some '0' then 8 else 10
  let s3 := if hex_start s2 then s2.drop 2 else s2
  let r := strtol_digits base 0 s3
  if r.2.length = s3.length then (0, num)
  else
    let v : Int := if neg then -(r.1 : Int) else (r.1 : Int)
    (if v > LONG_MAX then LONG_MAX else if v < LONG_MIN then LONG_MIN else v, r.2)

/-- What a call of `eval_lex` leaves: the code returned, the global
`eval_lval`, the tokens from `eval_ptr` on and the errors reported. -/
structure Lexed where
  code : Int
  eval_lval : Int
  rest : List Token
  errors : List (Severity × String)
deriving DecidableEq, Repr

/-- The function `eval_lex` on the tokens from `eval_ptr` on, `eval_lval`
being the value of the global at the call. `unescape_char` (missing) gives
the value of a character literal and what the iterator `si` has left. The
spelling of a token holds no NUL character, so `*endptr == 0` is the end of
the spelling. -/
def eval_lex (unescape_char : List Char → Int × List Char) (eval_lval : Int) :
    List Token → Lexed
  | [] => ⟨0, eval_lval, [], []⟩
  | t :: rest =>
    if t.code = NL ∨ t.code = SPACE then eval_lex unescape_char eval_lval rest
    else if t.code = PP_NUMBER then
      ⟨if (strtol t.val.data).2 = [] then INT_CONST else FLOAT_CONST,
        (strtol t.val.data).1, rest, []⟩
    else if t.code = CHAR_LITERAL then
      ⟨INT_CONST, (unescape_char t.val.data).1, rest,
        if (unescape_char t.val.data).2 ≠ [] then
          [(.E_ERR, "Illegal characters in character escape sequence")]
        else []⟩
    else ⟨t.code, eval_lval, rest, []⟩

/-- The value of a sequence of digits of the base. -/
def digits_value (base : Nat) (cs : List Char) : Nat :=
  cs.foldl (fun acc c => acc * base + (digit_value c).getD 0) 0

/-- The integer constants of C without a suffix, as the specification has
them, with their values: decimal (digits, the first not `0`), octal (`0` and
octal digits) and hexadecimal (`0x` or `0X` and hexadecimal digits). -/
inductive IntConstant : List Char → Nat → Prop where
  | decimal (d : Char) (ds : List Char) :
      valid_digit 10 d = true → d ≠ '0' → (∀ c ∈ ds, valid_digit 10 c = true) →
      IntConstant (d :: ds) (digits_value 10 (d :: ds))
  | octal (ds : List Char) :
      (∀ c ∈ ds, valid_digit 8 c = true) →
      IntConstant ('0' :: ds) (digits_value 8 ds)
  | hexadecimal (x h : Char) (hs : List Char) :
      (x = 'x' ∨ x = 'X') → (∀ c ∈ h :: hs, valid_digit 16 c = true) →
      IntConstant ('0' :: x :: h :: hs) (digits_value 16 (h :: hs))

/-- The spellings of the floating constants of C, and more: a spelling with
a `.`, or with the `p` or `P` of a hexadecimal exponent, or decimal digits
followed by the `e` or `E` of an exponent. -/
def float_spelling (cs : List Char) : Prop :=
  '.' ∈ cs ∨ 'p' ∈ cs ∨ 'P' ∈ cs ∨
  ∃ (ds : List Char) (c : Char) (tail : List Char),
    cs = ds ++ c :: tail ∧ ds ≠ [] ∧ (∀ d ∈ ds, valid_digit 10 d = true) ∧ (c = 'e' ∨ c = 'E')

/-! ## Chains and blocks with a rejected `#define` in a body -/

/-- The lines `#if 0`, `#define A(`, `#elif 1`, `int a;`, `#endif`, every line
ended by a newline. -/
def chain_elif_swallowed : List Token :=
  [tok HASH "#" 0, tok IDENTIFIER "if" 1, tok SPACE " " 3, tok PP_NUMBER "0" 4, tok NL "\n" 5,
   tok HASH "#" 6, tok IDENTIFIER "define" 7, tok SPACE " " 13, tok IDENTIFIER "A" 14,
   tok LPAREN "(" 15, tok NL "\n" 16,
   tok HASH "#" 17, tok IDENTIFIER "elif" 18, tok SPACE " " 22, tok PP_NUMBER "1" 23,
   tok NL "\n" 24,
   tok IDENTIFIER "int" 25, tok SPACE " " 28, tok IDENTIFIER "a" 29, tok 59 ";" 30,
   tok NL "\n" 31,
   tok HASH "#" 32, tok IDENTIFIER "endif" 33, tok NL "\n" 38]

/-- The lines `#if 1`, `#define A(`, `#else`, `2;`, `#endif`, every line ended
by a newline. -/
def chain_else_swallowed : List Token :=
  [tok HASH "#" 0, tok IDENTIFIER "if" 1, tok SPACE " " 3, tok PP_NUMBER "1" 4, tok NL "\n" 5,
   tok HASH "#" 6, tok IDENTIFIER "define" 7, tok SPACE " " 13, tok IDENTIFIER "A" 14,
   tok LPAREN "(" 15, tok NL "\n" 16,
   tok HASH "#" 17, tok IDENTIFIER "else" 18, tok NL "\n" 22,
   tok PP_NUMBER "2" 23, tok 59 ";" 24, tok NL "\n" 25,
   tok HASH "#" 26, tok IDENTIFIER "endif" 27, tok NL "\n" 32]

/-- The lines `#if 0`, `#if 1`, `#define A(`, `#endif`: a conditional block
met while the lines of `#if 0` are skipped. -/
def block_endif_swallowed : List Token :=
  [tok HASH "#" 0, tok IDENTIFIER "if" 1, tok SPACE " " 3, tok PP_NUMBER "0" 4, tok NL "\n" 5,
   tok HASH "#" 6, tok IDENTIFIER "if" 7, tok SPACE " " 9, tok PP_NUMBER "1" 10, tok NL "\n" 11,
   tok HASH "#" 12, tok IDENTIFIER "define" 13, tok SPACE " " 19, tok IDENTIFIER "A" 20,
   tok LPAREN "(" 21, tok NL "\n" 22,
   tok HASH "#" 23, tok IDENTIFIER "endif" 24, tok NL "\n" 29]

/-- The line `#endif` that closes the `#if 0` of `block_endif_swallowed`. -/
def outer_endif : List Token :=
  [tok HASH "#" 30, tok IDENTIFIER "endif" 31, tok NL "\n" 36]

/-! ## Lemmas on the embedding -/

/-- Skipping to the end of the line touches the lexer input only. -/
theorem eat_to_eol_frame (s : Pdstate) :
    (eat_to_eol s).iftaken = s.iftaken ∧ (eat_to_eol s).skiplevel = s.skiplevel ∧
    (eat_to_eol s).macros = s.macros ∧ (eat_to_eol s).errors = s.errors ∧
    (eat_to_eol s).unified = s.unified := by
  simp [eat_to_eol]

/-- The function `eval` reads tokens, unifies and reports, and leaves the rest
of the state as it was. -/
theorem eval_frame (ext : Ext) (s : Pdstate) :
    (eval ext s).2.iftaken = s.iftaken ∧ (eval ext s).2.skiplevel = s.skiplevel ∧
    (eval ext s).2.macros = s.macros ∧ (eval ext s).2.at_bol = s.at_bol ∧
    (eval ext s).2.expand = s.expand := by
  unfold eval
  simp only []
  split
  · simp [Pdstate.error]
  · split <;> simp [Pdstate.error]

/-- Value and state of `eval` from the outcome of its steps, when none fails. -/
theorem eval_ok (ext : Ext) (s : Pdstate) (u : List (Token × Token)) (toks1 : List Token)
    (diags : List (Severity × String)) (v : Int)
    (hdp : defined_pass ext s.macros ((eval_read s.input).1.length + 1) (eval_read s.input).1 =
      { unified := u, result := .ok toks1 })
    (hparse : ext.eval_parse (zero_identifiers (ext.macro_replace_all s.macros toks1).tokens) =
      (diags, some v)) :
    eval ext s = (long_to_int v,
      { s with input := (eval_read s.input).2,
               unified := (s.unified ++ u) ++ (ext.macro_replace_all s.macros toks1).unified,
               errors := (s.errors ++ (ext.macro_replace_all s.macros toks1).errors) ++ diags }) := by
  unfold eval
  simp only [hdp, hparse]

/-- Value and state of `eval` when its `defined` loop ends with an error. -/
theorem eval_defined_error (ext : Ext) (s : Pdstate) (e : String)
    (hdp : (defined_pass ext s.macros ((eval_read s.input).1.length + 1)
      (eval_read s.input).1).result = .error e) :
    (eval ext s).1 = 1 ∧ (eval ext s).2.errors = s.errors ++ [(Severity.E_ERR, e)] := by
  unfold eval
  simp only [hdp]
  simp [Pdstate.error]

/-- Value and state of `eval` when the parser reports a syntax error. -/
theorem eval_syntax_error (ext : Ext) (s : Pdstate) (toks1 : List Token)
    (hdp : (defined_pass ext s.macros ((eval_read s.input).1.length + 1)
      (eval_read s.input).1).result = .ok toks1)
    (hparse : (ext.eval_parse
      (zero_identifiers (ext.macro_replace_all s.macros toks1).tokens)).2 = none) :
    (eval ext s).1 = 1 ∧
    (eval ext s).2.errors.getLast? =
      some (Severity.E_ERR, "Syntax error in preprocessor expression") := by
  unfold eval
  simp only [hdp, hparse]
  simp [Pdstate.error]

/-- The only errors of the `defined` loop are its two messages. -/
theorem defined_pass_error (ext : Ext) (macros : MapMacro) (fuel : Nat) :
    ∀ (toks : List Token) (e : String),
      (defined_pass ext macros fuel toks).result = .error e →
      e = "No identifier following defined operator" ∨
      e = "Missing close bracket in defined operator" := by
  induction fuel with
  | zero =>
    intro toks e h
    simp [defined_pass] at h
  | succ n ih =>
    intro toks e h
    unfold defined_pass at h
    split at h
    · simp at h
    · simp only [] at h
      split at h
      · simp at h
        exact Or.inl h.symm
      · split at h
        · simp at h
          exact Or.inl h.symm
        · split at h
          · simp at h
            exact Or.inr h.symm
          · rename_i rest _
            simp only [] at h
            split at h
            · rename_i e2 he2
              have := ih rest e2 he2
              simp at h
              rw [← h]
              exact this
            · simp at h

/-- Dropping a prefix does not lengthen a list. -/
theorem length_dropWhile_le {α : Type} (p : α → Bool) (l : List α) :
    (l.dropWhile p).length ≤ l.length := by
  induction l with
  | nil => simp
  | cons a t ih =>
    simp only [List.dropWhile_cons]
    split
    · simp only [List.length_cons]; omega
    · simp

/-- The rounds of the `defined` loop beyond the length of the list are never
used: any two numbers of rounds above the length give the same outcome. -/
theorem defined_pass_fuel (ext : Ext) (macros : MapMacro) (f1 : Nat) :
    ∀ (f2 : Nat) (toks : List Token), toks.length < f1 → toks.length < f2 →
      defined_pass ext macros f1 toks = defined_pass ext macros f2 toks := by
  induction f1 with
  | zero => intro f2 toks h; omega
  | succ n ih =>
    intro f2 toks h1 h2
    cases f2 with
    | zero => omega
    | succ m =>
      unfold defined_pass
      split
      · rfl
      · rename_i d after_op hdrop
        have hlen : after_op.length < toks.length := by
          have := length_dropWhile_le (fun t => !is_defined_op t) toks
          rw [hdrop] at this
          simp only [List.length_cons] at this
          omega
        simp only []
        split
        · rfl
        · rename_i arg r3 hr2
          have hr3 : r3.length < toks.length := by
            have h2 : (arg :: r3).length ≤ after_op.length := by
              rw [← hr2]
              split
              · have a := length_dropWhile_le ext.is_space
                  (List.drop 1 (List.dropWhile ext.is_space after_op))
                have b : (List.drop 1 (List.dropWhile ext.is_space after_op)).length ≤
                    (List.dropWhile ext.is_space after_op).length := by
                  rw [List.length_drop]; omega
                have c := length_dropWhile_le ext.is_space after_op
                omega
              · exact length_dropWhile_le _ _
            simp only [List.length_cons] at h2
            omega
          split
          · rfl
          · split
            · rfl
            · rename_i rest hclosing
              have hrest : rest.length < toks.length := by
                split at hclosing
                · split at hclosing
                  · simp at hclosing
                  · rename_i l r4 hr4
                    split at hclosing
                    · simp at hclosing
                    · simp only [Option.some.injEq] at hclosing
                      have := length_dropWhile_le ext.is_space r3
                      rw [hr4] at this
                      simp only [List.length_cons] at this
                      rw [← hclosing]
                      omega
                · simp only [Option.some.injEq] at hclosing
                  rw [← hclosing]
                  exact hr3
              rw [ih m rest (by omega) (by omega)]

/-- None of the four conditional directives makes `skiplevel` negative. -/
theorem skiplevel_nonneg (ext : Ext) (s : Pdstate) (h : 0 ≤ s.skiplevel) :
    0 ≤ (process_if ext s).skiplevel ∧ 0 ≤ (process_elif ext s).skiplevel ∧
    0 ≤ (process_else s).skiplevel ∧ 0 ≤ (process_endif s).skiplevel := by
  have hif : ∀ t : Pdstate, 0 ≤ t.skiplevel → 0 ≤ (process_if ext t).skiplevel := by
    intro t ht
    unfold process_if
    split
    · simp only []; omega
    · simp only []; split <;> decide
  refine ⟨hif s h, ?_, ?_, ?_⟩
  · unfold process_elif
    split
    · simpa [eat_to_eol, Pdstate.error] using h
    · split
      · exact h
      · split
        · simp
        · exact hif _ (le_refl 0)
  · unfold process_else
    split
    · simpa [eat_to_eol, Pdstate.error] using h
    · split
      · exact h
      · split
        · simp
        · simp [eat_to_eol]
  · unfold process_endif
    split
    · simpa [eat_to_eol, Pdstate.error] using h
    · simp only [eat_to_eol]
      split <;> split <;> simp_all

/-- The macro table `macros_X0` is the one the line `#define X 0` leaves
behind (with the sample collaborators). -/
theorem macros_X0_reached :
    (process_directive sampleExt
      (Pdstate.init [tok IDENTIFIER "define" 1, tok SPACE " " 7, tok IDENTIFIER "X" 8,
        tok SPACE " " 9, tok PP_NUMBER "0" 10, tok NL "\n" 11])).map (fun s => s.macros) =
      some macros_X0 := by
  decide

/-! ## The claims -/

/-- Claim C1, evaluated on the code at scenario S4 (`#if 0`, `#define BAD(`,
`#endif`, `int ok;`): for every collaborator that leaves the expression `0`
unexpanded and evaluates it to 0, and whatever fuel is left over, `getnext`
processes the `#define` inside the skipped region: it reports `Invalid macro
parameter name`, the recovery swallows the `#endif` line, the tokens of
`int ok;` are discarded and the end of file is met with `skiplevel` 1, which
is reported too. For the well-formed line `#define BAD` met at `skiplevel` 1
the macro table holds `BAD` afterwards. -/
theorem skipped_define_is_processed (ext : Ext) (fuel : Nat)
    (hexp : ext.expands []
      [tok SPACE " " 3, tok PP_NUMBER "0" 4, tok NL "\n" 5]
      [tok SPACE " " 3, tok PP_NUMBER "0" 4, tok NL "\n" 5] [])
    (hparse : ext.eval_parse [tok SPACE " " 3, tok PP_NUMBER "0" 4, tok NL "\n" 5] =
      ([], some 0)) :
    getnext ext (fuel + 8) (Pdstate.init scenario_S4) =
      some (eofToken,
        { input := [], at_bol := false, expand := [], macros := [], iftaken := [false],
          skiplevel := 1, context := .cpp_define,
          errors := [(.E_ERR, "Invalid macro parameter name"),
                     (.E_ERR, "EOF while processing #if directive")],
          unified := [] }) ∧
    (getnext ext (fuel + 3) (Pdstate.inside [false] 1 skipped_define)).map
        (fun r => (r.1, r.2.macros.map Prod.fst, r.2.iftaken, r.2.skiplevel, r.2.errors)) =
      some (eofToken, ["BAD"], [], 0, []) := by
  obtain ⟨h1, h2, h3⟩ := hexp
  refine ⟨?_, rfl⟩
  have step1 : getnext ext (fuel + 8) (Pdstate.init scenario_S4) =
      getnext ext (fuel + 7) (process_if ext (Pdstate.init (scenario_S4.drop 2))) := rfl
  have hev := eval_ok ext (Pdstate.init (scenario_S4.drop 2)) []
    [tok SPACE " " 3, tok PP_NUMBER "0" 4, tok NL "\n" 5] [] 0 rfl
    (by erw [h1]; exact hparse)
  have step2 : process_if ext (Pdstate.init (scenario_S4.drop 2)) =
      { Pdstate.init (scenario_S4.drop 5) with iftaken := [false], skiplevel := 1 } := by
    unfold process_if
    erw [hev, h2, h3]
    rfl
  rw [step1, step2]
  rfl

/-- Instance of the evaluation of scenario S4 with the sample collaborators. -/
theorem skipped_define_is_processed_witness :
    (getnext sampleExt 8 (Pdstate.init scenario_S4)).map (fun r => (r.1, r.2.errors)) =
      some (eofToken, [(.E_ERR, "Invalid macro parameter name"),
                       (.E_ERR, "EOF while processing #if directive")]) :=
  congrArg (Option.map (fun r => (r.1, r.2.errors)))
    (skipped_define_is_processed sampleExt 0 ⟨rfl, rfl, rfl⟩ rfl).1

/-- Claim C2, evaluated on the code at scenario S6: the class of `foo` has the
read-only attribute set and the page does not show the substitution form for
it, yet `identifier_page` called with `sname=bar` marks its `Identifier` as
replaced, and `write_quit_page` then rewrites both occurrences, the one in the
read-only header included. -/
theorem readonly_rename_not_refused :
    get_attribute scenario_S6 1 is_readonly = true ∧
    (identifier_page scenario_S6 (some 1) (some "bar") (some "127.0.0.1")).world.ids =
      [(1, { id := "foo", newid := "bar", xfile := true, replaced := true })] ∧
    (identifier_page scenario_S6 (some 1) (some "bar") (some "127.0.0.1")).form_shown = false ∧
    write_quit_page
        (identifier_page scenario_S6 (some 1) (some "bar") (some "127.0.0.1")).world
        (some "127.0.0.1") =
      some (2, { scenario_S6 with
        ids := [(1, { id := "foo", newid := "bar", xfile := true, replaced := true })],
        files := [(0, "int bar;".data), (1, "bar();".data)] }) := by
  decide

/-- Claim C3, evaluated on the code after `#define X 0`: `X` is a key of the
macro table, yet for every collaborator that expands `X` to its body `0` and
evaluates `0` to 0, the line `#ifdef X` at `skiplevel` 0 pushes false on
`iftaken` and sets `skiplevel` to 1: the line is decided by the value of its
expanded expression, as a `#if X` line is. -/
theorem ifdef_decided_as_if (ext : Ext)
    (hexp : ext.expands macros_X0
      [tok SPACE " " 18, tok IDENTIFIER "X" 19, tok NL "\n" 20]
      [tok SPACE " " 18, tok PP_NUMBER "0" 10, tok NL "\n" 20]
      [(tok IDENTIFIER "X" 19, tok IDENTIFIER "X" 8)])
    (hparse : ext.eval_parse [tok SPACE " " 18, tok PP_NUMBER "0" 10, tok NL "\n" 20] =
      ([], some 0)) :
    (macros_find macros_X0 "X").isSome = true ∧
    process_directive ext
        { Pdstate.init [tok IDENTIFIER "ifdef" 13, tok SPACE " " 18, tok IDENTIFIER "X" 19,
            tok NL "\n" 20] with macros := macros_X0 } =
      some { Pdstate.init [] with
        macros := macros_X0, iftaken := [false], skiplevel := 1,
        unified := [(tok IDENTIFIER "X" 19, tok IDENTIFIER "X" 8)] } := by
  refine ⟨rfl, ?_⟩
  obtain ⟨h1, h2, h3⟩ := hexp
  have step1 : process_directive ext
      { Pdstate.init [tok IDENTIFIER "ifdef" 13, tok SPACE " " 18, tok IDENTIFIER "X" 19,
          tok NL "\n" 20] with macros := macros_X0 } =
      some (process_if ext { Pdstate.init [tok SPACE " " 18, tok IDENTIFIER "X" 19,
          tok NL "\n" 20] with macros := macros_X0 }) := rfl
  have hev := eval_ok ext { Pdstate.init [tok SPACE " " 18, tok IDENTIFIER "X" 19,
      tok NL "\n" 20] with macros := macros_X0 } []
    [tok SPACE " " 18, tok IDENTIFIER "X" 19, tok NL "\n" 20] [] 0 rfl
    (by erw [h1]; exact hparse)
  rw [step1]
  unfold process_if
  erw [hev, h2, h3]
  rfl

/-- Instance of `#ifdef X` after `#define X 0` with the sample collaborators. -/
theorem ifdef_decided_as_if_witness :
    (macros_find macros_X0 "X").isSome = true ∧
    process_directive sampleExt
        { Pdstate.init [tok IDENTIFIER "ifdef" 13, tok SPACE " " 18, tok IDENTIFIER "X" 19,
            tok NL "\n" 20] with macros := macros_X0 } =
      some { Pdstate.init [] with
        macros := macros_X0, iftaken := [false], skiplevel := 1,
        unified := [(tok IDENTIFIER "X" 19, tok IDENTIFIER "X" 8)] } :=
  ifdef_decided_as_if sampleExt ⟨rfl, rfl, rfl⟩ rfl

/-- Claim C4, evaluated on the code: in every state and before every line,
`process_directive` does for the keyword `ifndef` exactly what it does for
`ifdef`, so the two results are never the negation of each other; and with an
empty macro table, for every collaborator that leaves the unknown identifier
`X` unexpanded and evaluates `0` to 0, the line `#ifndef X` at `skiplevel` 0
pushes false on `iftaken` and sets `skiplevel` to 1 although `X` is not
defined. -/
theorem ifndef_decided_as_ifdef (ext : Ext)
    (hexp : ext.expands []
      [tok SPACE " " 7, tok IDENTIFIER "X" 8, tok NL "\n" 9]
      [tok SPACE " " 7, tok IDENTIFIER "X" 8, tok NL "\n" 9] [])
    (hparse : ext.eval_parse [tok SPACE " " 7, Token.ofVal PP_NUMBER "0", tok NL "\n" 9] =
      ([], some 0)) :
    (∀ (s : Pdstate) (line : List Token) (p1 p2 : List Tpart),
      process_directive ext { s with input := ⟨IDENTIFIER, p1, "ifndef"⟩ :: line } =
        process_directive ext { s with input := ⟨IDENTIFIER, p2, "ifdef"⟩ :: line }) ∧
    macros_find [] "X" = none ∧
    process_directive ext
        (Pdstate.init [tok IDENTIFIER "ifndef" 1, tok SPACE " " 7, tok IDENTIFIER "X" 8,
          tok NL "\n" 9]) =
      some { Pdstate.init [] with iftaken := [false], skiplevel := 1 } := by
  refine ⟨fun s line p1 p2 => rfl, rfl, ?_⟩
  obtain ⟨h1, h2, h3⟩ := hexp
  have step1 : process_directive ext
      (Pdstate.init [tok IDENTIFIER "ifndef" 1, tok SPACE " " 7, tok IDENTIFIER "X" 8,
        tok NL "\n" 9]) =
      some (process_if ext (Pdstate.init [tok SPACE " " 7, tok IDENTIFIER "X" 8,
        tok NL "\n" 9])) := rfl
  have hev := eval_ok ext (Pdstate.init [tok SPACE " " 7, tok IDENTIFIER "X" 8,
      tok NL "\n" 9]) []
    [tok SPACE " " 7, tok IDENTIFIER "X" 8, tok NL "\n" 9] [] 0 rfl
    (by erw [h1]; exact hparse)
  rw [step1]
  unfold process_if
  erw [hev, h2, h3]
  rfl

/-- Instance of `#ifndef X` before any definition with the sample collaborators. -/
theorem ifndef_decided_as_ifdef_witness :
    process_directive sampleExt
        (Pdstate.init [tok IDENTIFIER "ifndef" 1, tok SPACE " " 7, tok IDENTIFIER "X" 8,
          tok NL "\n" 9]) =
      some { Pdstate.init [] with iftaken := [false], skiplevel := 1 } :=
  (ifndef_decided_as_ifdef sampleExt ⟨rfl, rfl, rfl⟩ rfl).2.2

/-- Counterexample to claim C5 as stated: on the line `#if defined` (no
operand) at `skiplevel` 0 the evaluation fails, the error is reported, and
`process_if` pushes true on `iftaken` and leaves `skiplevel` 0. -/
theorem eval_failure_pushes_true :
    eval_fails sampleExt (Pdstate.init [tok IDENTIFIER "defined" 4, tok NL "\n" 11]) = true ∧
    process_if sampleExt (Pdstate.init [tok IDENTIFIER "defined" 4, tok NL "\n" 11]) =
      { Pdstate.init [] with
        iftaken := [true], skiplevel := 0,
        errors := [(.E_ERR, "No identifier following defined operator")] } := by
  decide

/-- Claim C5 as amended: whenever the evaluation of the expression fails at
`skiplevel` 0 (the `defined` operator has no identifier operand or lacks its
closing bracket, or the parser reports a syntax error), the error is the last
one reported, `eval` returns 1 and the conditional is treated as true:
`process_if` pushes true on `iftaken` and `skiplevel` stays 0. -/
theorem eval_failure_taken (ext : Ext) (s : Pdstate) (hskip : s.skiplevel = 0)
    (hfail : eval_fails ext s = true) :
    (process_if ext s).iftaken = true :: s.iftaken ∧
    (process_if ext s).skiplevel = 0 ∧
    ∃ msg, (msg = "No identifier following defined operator" ∨
        msg = "Missing close bracket in defined operator" ∨
        msg = "Syntax error in preprocessor expression") ∧
      (process_if ext s).errors.getLast? = some (Severity.E_ERR, msg) := by
  have hframe := (eval_frame ext s).1
  have hval : (eval ext s).1 = 1 ∧ ∃ msg, (msg = "No identifier following defined operator" ∨
        msg = "Missing close bracket in defined operator" ∨
        msg = "Syntax error in preprocessor expression") ∧
      (eval ext s).2.errors.getLast? = some (Severity.E_ERR, msg) := by
    unfold eval_fails at hfail
    cases hdp : (defined_pass ext s.macros ((eval_read s.input).1.length + 1)
        (eval_read s.input).1).result with
    | error e =>
      have h := eval_defined_error ext s e hdp
      refine ⟨h.1, e, ?_, by simp [h.2]⟩
      rcases defined_pass_error ext _ _ _ e hdp with h | h
      · exact Or.inl h
      · exact Or.inr (Or.inl h)
    | ok toks1 =>
      rw [hdp] at hfail
      simp only [Option.isNone_iff_eq_none] at hfail
      have h := eval_syntax_error ext s toks1 hdp hfail
      exact ⟨h.1, _, Or.inr (Or.inr rfl), h.2⟩
  obtain ⟨h1, msg, hmsg, herr⟩ := hval
  refine ⟨?_, ?_, msg, hmsg, ?_⟩
  · simp [process_if, hskip, h1, hframe]
  · simp [process_if, hskip, h1]
  · simp [process_if, hskip, herr]

/-- Instance of a failed evaluation: the line `#if 1 2`, a syntax error for the
sample collaborators. -/
theorem eval_failure_taken_witness :
    (process_if sampleExt
      (Pdstate.init [tok PP_NUMBER "1" 4, tok SPACE " " 5, tok PP_NUMBER "2" 6,
        tok NL "\n" 7])).iftaken = [true] ∧
    (process_if sampleExt
      (Pdstate.init [tok PP_NUMBER "1" 4, tok SPACE " " 5, tok PP_NUMBER "2" 6,
        tok NL "\n" 7])).skiplevel = 0 :=
  ⟨(eval_failure_taken sampleExt
      (Pdstate.init [tok PP_NUMBER "1" 4, tok SPACE " " 5, tok PP_NUMBER "2" 6, tok NL "\n" 7])
      rfl (by decide)).1,
   (eval_failure_taken sampleExt
      (Pdstate.init [tok PP_NUMBER "1" 4, tok SPACE " " 5, tok PP_NUMBER "2" 6, tok NL "\n" 7])
      rfl (by decide)).2.1⟩

/-- Claim C7: postcondition of `process_if`. When `skiplevel > 0` on entry it
is incremented by exactly 1 and nothing else changes (`iftaken` is unchanged
and no token is read, so the expression is not evaluated). When
`skiplevel = 0` on entry the expression is evaluated by `eval` to a value `r`,
the boolean `r != 0` is pushed on `iftaken` (one entry more, the entries below
unchanged), and `skiplevel` becomes 0 when `r != 0` and 1 when `r = 0`. -/
theorem process_if_post (ext : Ext) (s : Pdstate) :
    (0 < s.skiplevel → process_if ext s = { s with skiplevel := s.skiplevel + 1 }) ∧
    (s.skiplevel = 0 →
      process_if ext s =
        { (eval ext s).2 with
            iftaken := decide ((eval ext s).1 ≠ 0) :: s.iftaken,
            skiplevel := if (eval ext s).1 ≠ 0 then 0 else 1 } ∧
      (process_if ext s).iftaken.length = s.iftaken.length + 1 ∧
      (process_if ext s).iftaken.tail = s.iftaken ∧
      ((eval ext s).1 ≠ 0 → (process_if ext s).skiplevel = 0) ∧
      ((eval ext s).1 = 0 → (process_if ext s).skiplevel = 1)) := by
  constructor
  · intro h
    have h0 : s.skiplevel ≠ 0 := ne_of_gt h
    simp [process_if, h0]
  · intro h
    have hf := (eval_frame ext s).1
    refine ⟨?_, ?_, ?_, ?_, ?_⟩
    · simp [process_if, h, hf]
    · simp [process_if, h, hf]
    · simp [process_if, h, hf]
    · intro hr
      simp [process_if, h, hr]
    · intro hr
      simp [process_if, h, hr]

/-- Instances: `#if 1` met at `skiplevel` 2, and `#if 0` met at `skiplevel` 0. -/
theorem process_if_post_witness :
    process_if sampleExt (Pdstate.inside [false] 2 [tok PP_NUMBER "1" 4, tok NL "\n" 5]) =
      Pdstate.inside [false] 3 [tok PP_NUMBER "1" 4, tok NL "\n" 5] ∧
    (process_if sampleExt (Pdstate.init [tok PP_NUMBER "0" 4, tok NL "\n" 5])).skiplevel = 1 :=
  ⟨(process_if_post sampleExt (Pdstate.inside [false] 2 [tok PP_NUMBER "1" 4, tok NL "\n" 5])).1
      (by decide),
   ((process_if_post sampleExt (Pdstate.init [tok PP_NUMBER "0" 4, tok NL "\n" 5])).2
      rfl).2.2.2.2 (by decide)⟩

/-- Claim C8: with a non-empty `iftaken`, `process_else` at `skiplevel <= 1`
sets `skiplevel` to 1 when the top of `iftaken` is true and to 0 otherwise; at
`skiplevel > 1` it changes nothing; in every case `iftaken` is unchanged. -/
theorem process_else_post (s : Pdstate) (top : Bool) (below : List Bool)
    (htop : s.iftaken = top :: below) :
    (s.skiplevel ≤ 1 → (process_else s).skiplevel = if top then 1 else 0) ∧
    (1 < s.skiplevel → process_else s = s) ∧
    (process_else s).iftaken = s.iftaken := by
  unfold process_else
  rw [htop]
  refine ⟨?_, ?_, ?_⟩
  · intro h
    have h1 : ¬ s.skiplevel > 1 := not_lt.mpr h
    cases top <;> simp [h1, eat_to_eol]
  · intro h
    simp [h]
  · by_cases h : s.skiplevel > 1
    · simp [h, htop]
    · cases top <;> simp [h, eat_to_eol, htop]

/-- Instances: `#else` after a branch not taken at `skiplevel` 1, `#else` at
`skiplevel` 2, and `#else` after a taken branch. -/
theorem process_else_post_witness :
    (process_else (Pdstate.inside [false, true] 1 [tok NL "\n" 5])).skiplevel = 0 ∧
    process_else (Pdstate.inside [false, true] 2 [tok NL "\n" 5]) =
      Pdstate.inside [false, true] 2 [tok NL "\n" 5] ∧
    (process_else (Pdstate.inside [true] 0 [tok NL "\n" 5])).iftaken = [true] :=
  ⟨(process_else_post (Pdstate.inside [false, true] 1 [tok NL "\n" 5]) false [true] rfl).1
      (by decide),
   (process_else_post (Pdstate.inside [false, true] 2 [tok NL "\n" 5]) false [true] rfl).2.1
      (by decide),
   (process_else_post (Pdstate.inside [true] 0 [tok NL "\n" 5]) true [] rfl).2.2⟩

/-- Claim C9: with a non-empty `iftaken` (and `skiplevel` not negative, as in
every state the directives reach), `process_endif` sets `skiplevel` to
`max(skiplevel - 1, 0)`; it pops exactly one entry from `iftaken` when
`skiplevel` was 0 or 1 on entry and leaves `iftaken` unchanged when
`skiplevel` was greater than 1. -/
theorem process_endif_post (s : Pdstate) (top : Bool) (below : List Bool)
    (htop : s.iftaken = top :: below) (hnonneg : 0 ≤ s.skiplevel) :
    (process_endif s).skiplevel = max (s.skiplevel - 1) 0 ∧
    (s.skiplevel ≤ 1 → (process_endif s).iftaken = below) ∧
    (1 < s.skiplevel → (process_endif s).iftaken = s.iftaken) := by
  unfold process_endif
  rw [htop]
  refine ⟨?_, ?_, ?_⟩
  · by_cases h1 : s.skiplevel ≤ 1
    · by_cases h2 : s.skiplevel ≥ 1
      · have : s.skiplevel = 1 := le_antisymm h1 h2
        simp [eat_to_eol, this]
      · have : s.skiplevel = 0 := by omega
        simp [eat_to_eol, this]
    · have h2 : s.skiplevel ≥ 1 := by omega
      have h3 : max (s.skiplevel - 1) 0 = s.skiplevel - 1 := max_eq_left (by omega)
      simp [eat_to_eol, h1, h2, h3]
  · intro h1
    by_cases h2 : s.skiplevel ≥ 1 <;> simp [eat_to_eol, h1, h2]
  · intro h1
    have h2 : ¬ s.skiplevel ≤ 1 := not_le.mpr h1
    have h3 : s.skiplevel ≥ 1 := le_of_lt h1
    simp [eat_to_eol, h2, h3, htop]

/-- Instances: `#endif` at `skiplevel` 1 pops the stack and ends the skipping,
`#endif` at `skiplevel` 3 leaves the stack. -/
theorem process_endif_post_witness :
    (process_endif (Pdstate.inside [false, true] 1 [tok NL "\n" 6])).skiplevel = 0 ∧
    (process_endif (Pdstate.inside [false, true] 1 [tok NL "\n" 6])).iftaken = [true] ∧
    (process_endif (Pdstate.inside [false, true] 3 [tok NL "\n" 6])).iftaken = [false, true] :=
  ⟨(process_endif_post (Pdstate.inside [false, true] 1 [tok NL "\n" 6]) false [true] rfl
      (by decide)).1,
   (process_endif_post (Pdstate.inside [false, true] 1 [tok NL "\n" 6]) false [true] rfl
      (by decide)).2.1 (by decide),
   (process_endif_post (Pdstate.inside [false, true] 3 [tok NL "\n" 6]) false [true] rfl
      (by decide)).2.2 (by decide)⟩

/-- Claim C10: with an empty `iftaken`, each of `process_elif`, `process_else`
and `process_endif` reports its `Unbalanced` error and leaves `iftaken` (empty)
and `skiplevel` as they were; the macro table is unchanged too. -/
theorem unbalanced_no_effect (ext : Ext) (s : Pdstate) (hempty : s.iftaken = []) :
    ((process_elif ext s).errors = s.errors ++ [(Severity.E_ERR, "Unbalanced #elif")] ∧
      (process_elif ext s).iftaken = s.iftaken ∧
      (process_elif ext s).skiplevel = s.skiplevel ∧
      (process_elif ext s).macros = s.macros) ∧
    ((process_else s).errors = s.errors ++ [(Severity.E_ERR, "Unbalanced #else")] ∧
      (process_else s).iftaken = s.iftaken ∧
      (process_else s).skiplevel = s.skiplevel ∧
      (process_else s).macros = s.macros) ∧
    ((process_endif s).errors = s.errors ++ [(Severity.E_ERR, "Unbalanced #endif")] ∧
      (process_endif s).iftaken = s.iftaken ∧
      (process_endif s).skiplevel = s.skiplevel ∧
      (process_endif s).macros = s.macros) := by
  unfold process_elif process_else process_endif
  rw [hempty]
  simp [eat_to_eol, Pdstate.error, hempty]

/-- Instance: an `#endif` at the start of a translation unit. -/
theorem unbalanced_no_effect_witness :
    (process_endif (Pdstate.init [tok NL "\n" 6])).errors
      = [(Severity.E_ERR, "Unbalanced #endif")] ∧
    (process_endif (Pdstate.init [tok NL "\n" 6])).iftaken = [] ∧
    (process_endif (Pdstate.init [tok NL "\n" 6])).skiplevel = 0 :=
  ⟨(unbalanced_no_effect sampleExt (Pdstate.init [tok NL "\n" 6]) rfl).2.2.1,
   (unbalanced_no_effect sampleExt (Pdstate.init [tok NL "\n" 6]) rfl).2.2.2.1,
   (unbalanced_no_effect sampleExt (Pdstate.init [tok NL "\n" 6]) rfl).2.2.2.2.1⟩

/-- One turn of `getnext`: with an empty `expand` it does one pass and, unless
the pass returns a token, starts again. -/
theorem getnext_unfold (ext : Ext) (fuel : Nat) (s : Pdstate) (hexp : s.expand = []) :
    getnext ext (fuel + 1) s =
      match getnext_pass ext s with
      | none => none
      | some (.discarded s1) => getnext ext fuel s1
      | some (.directive s1) => getnext ext fuel s1
      | some (.expanded s1) => getnext ext fuel s1
      | some (.returned t s1) => some (t, s1) := by
  conv => lhs; rw [getnext]
  unfold getnext_pass
  simp only [hexp]
  split
  · rfl
  · split
    · generalize process_directive ext _ = r
      cases r <;> rfl
    · split
      · split
        · rfl
        · split <;> rfl
      · split
        · rfl
        · split
          · rfl
          · split <;> rfl

/-- The function `process_define` leaves `expand` and `skiplevel` alone. -/
theorem process_define_frame (ext : Ext) (s s1 : Pdstate)
    (h : process_define ext s = some s1) :
    s1.expand = s.expand ∧ s1.at_bol = s.at_bol := by
  unfold process_define at h
  simp only [] at h
  split at h
  · simp only [Option.some.injEq] at h
    subst h
    simp [eat_to_eol, Pdstate.error]
  · split at h
    · split at h
      · split at h
        · simp only [Option.some.injEq] at h
          subst h
          simp [Pdstate.error]
        · simp only [Option.map_eq_some'] at h
          obtain ⟨b, _, hb⟩ := h
          subst hb
          unfold define_finish
          simp only []
          split
          · split <;> simp [Pdstate.error]
          · simp
      · simp only [Option.map_eq_some'] at h
        obtain ⟨b, _, hb⟩ := h
        subst hb
        unfold define_finish
        simp only []
        split
        · split <;> simp [Pdstate.error]
        · simp
    · simp only [Option.map_eq_some'] at h
      obtain ⟨b, _, hb⟩ := h
      subst hb
      unfold define_finish
      simp only []
      split
      · split <;> simp [Pdstate.error]
      · simp

/-- The function `process_if` leaves `expand` alone. -/
theorem process_if_frame (ext : Ext) (s : Pdstate) :
    (process_if ext s).expand = s.expand := by
  unfold process_if
  split
  · rfl
  · exact (eval_frame ext s).2.2.2.2

/-- The outcomes of `process_directive`, by the handler that made them. -/
theorem process_directive_cases (ext : Ext) (s s1 : Pdstate)
    (h : process_directive ext s = some s1) :
    s1 = { s with input := (getnext_nospc s.input).2 } ∨
    s1 = eat_to_eol (({ s with input := (getnext_nospc s.input).2 } : Pdstate).error
      .E_ERR "Preprocessor syntax") ∨
    process_define ext { s with input := (getnext_nospc s.input).2 } = some s1 ∨
    s1 = process_include { s with input := (getnext_nospc s.input).2 } ∨
    s1 = process_if ext { s with input := (getnext_nospc s.input).2 } ∨
    s1 = process_elif ext { s with input := (getnext_nospc s.input).2 } ∨
    s1 = process_else { s with input := (getnext_nospc s.input).2 } ∨
    s1 = process_endif { s with input := (getnext_nospc s.input).2 } ∨
    s1 = process_undef { s with input := (getnext_nospc s.input).2 } ∨
    s1 = eat_to_eol { s with input := (getnext_nospc s.input).2 } ∨
    s1 = ({ s with input := (getnext_nospc s.input).2 } : Pdstate).error .E_ERR
      ("Unknown preprocessor directive: " ++ (getnext_nospc s.input).1.val) := by
  unfold process_directive at h
  simp only [] at h
  by_cases c1 : (getnext_nospc s.input).1.code = NL
  · rw [if_pos c1] at h; exact Or.inl (Option.some.inj h).symm
  rw [if_neg c1] at h
  by_cases c2 : (getnext_nospc s.input).1.code ≠ IDENTIFIER
  · rw [if_pos c2] at h; exact Or.inr (Or.inl (Option.some.inj h).symm)
  rw [if_neg c2] at h
  by_cases c3 : (getnext_nospc s.input).1.val = "define"
  · rw [if_pos c3] at h; exact Or.inr (Or.inr (Or.inl h))
  rw [if_neg c3] at h
  by_cases c4 : (getnext_nospc s.input).1.val = "include"
  · rw [if_pos c4] at h; exact Or.inr (Or.inr (Or.inr (Or.inl (Option.some.inj h).symm)))
  rw [if_neg c4] at h
  by_cases c5 : (getnext_nospc s.input).1.val = "if"
  · rw [if_pos c5] at h
    exact Or.inr (Or.inr (Or.inr (Or.inr (Or.inl (Option.some.inj h).symm))))
  rw [if_neg c5] at h
  by_cases c6 : (getnext_nospc s.input).1.val = "ifdef"
  · rw [if_pos c6] at h
    exact Or.inr (Or.inr (Or.inr (Or.inr (Or.inl (Option.some.inj h).symm))))
  rw [if_neg c6] at h
  by_cases c7 : (getnext_nospc s.input).1.val = "ifndef"
  · rw [if_pos c7] at h
    exact Or.inr (Or.inr (Or.inr (Or.inr (Or.inl (Option.some.inj h).symm))))
  rw [if_neg c7] at h
  by_cases c8 : (getnext_nospc s.input).1.val = "elif"
  · rw [if_pos c8] at h
    exact Or.inr (Or.inr (Or.inr (Or.inr (Or.inr (Or.inl (Option.some.inj h).symm)))))
  rw [if_neg c8] at h
  by_cases c9 : (getnext_nospc s.input).1.val = "else"
  · rw [if_pos c9] at h
    exact Or.inr (Or.inr (Or.inr (Or.inr (Or.inr (Or.inr (Or.inl (Option.some.inj h).symm))))))
  rw [if_neg c9] at h
  by_cases c10 : (getnext_nospc s.input).1.val = "endif"
  · rw [if_pos c10] at h
    exact Or.inr (Or.inr (Or.inr (Or.inr (Or.inr (Or.inr (Or.inr
      (Or.inl (Option.some.inj h).symm)))))))
  rw [if_neg c10] at h
  by_cases c11 : (getnext_nospc s.input).1.val = "undef"
  · rw [if_pos c11] at h
    exact Or.inr (Or.inr (Or.inr (Or.inr (Or.inr (Or.inr (Or.inr (Or.inr
      (Or.inl (Option.some.inj h).symm))))))))
  rw [if_neg c11] at h
  have hline : ∀ x : Pdstate, some (eat_to_eol x) = some s1 → s1 = eat_to_eol x :=
    fun x hx => (Option.some.inj hx).symm
  by_cases c12 : (getnext_nospc s.input).1.val = "line"
  · rw [if_pos c12] at h
    exact Or.inr (Or.inr (Or.inr (Or.inr (Or.inr (Or.inr (Or.inr (Or.inr (Or.inr
      (Or.inl (hline _ h))))))))))
  rw [if_neg c12] at h
  by_cases c13 : (getnext_nospc s.input).1.val = "error"
  · rw [if_pos c13] at h
    exact Or.inr (Or.inr (Or.inr (Or.inr (Or.inr (Or.inr (Or.inr (Or.inr (Or.inr
      (Or.inl (hline _ h))))))))))
  rw [if_neg c13] at h
  by_cases c14 : (getnext_nospc s.input).1.val = "pragma"
  · rw [if_pos c14] at h
    exact Or.inr (Or.inr (Or.inr (Or.inr (Or.inr (Or.inr (Or.inr (Or.inr (Or.inr
      (Or.inl (hline _ h))))))))))
  rw [if_neg c14] at h
  exact Or.inr (Or.inr (Or.inr (Or.inr (Or.inr (Or.inr (Or.inr (Or.inr (Or.inr
    (Or.inr (Option.some.inj h).symm)))))))))

/-- The function `process_directive` leaves `expand` alone. -/
theorem process_directive_frame (ext : Ext) (s s1 : Pdstate)
    (h : process_directive ext s = some s1) : s1.expand = s.expand := by
  rcases process_directive_cases ext s s1 h with
    h | h | h | h | h | h | h | h | h | h | h
  · subst h; rfl
  · subst h; rfl
  · exact (process_define_frame ext _ s1 h).1
  · subst h; rfl
  · subst h; exact process_if_frame ext _
  · subst h
    unfold process_elif
    split
    · rfl
    · split
      · rfl
      · split
        · rfl
        · exact process_if_frame ext _
  · subst h
    unfold process_else
    split
    · rfl
    · split
      · rfl
      · split <;> rfl
  · subst h
    unfold process_endif
    split
    · rfl
    · simp only [eat_to_eol]
      split <;> split <;> rfl
  · subst h
    unfold process_undef
    simp only []
    split
    · rfl
    · split <;> rfl
  · subst h; rfl
  · subst h; rfl

/-- What a pass of `getnext` entered with a `skiplevel` other than 0 does. -/
theorem getnext_pass_skipping (ext : Ext) (s : Pdstate) (hskip : s.skiplevel ≠ 0) :
    getnext_pass ext s =
      if s.at_bol = true ∧ ((lex_getnext s.input).1.code = SPACE ∨
          (lex_getnext s.input).1.code = NL) then
        some (.discarded { s with input := (lex_getnext s.input).2 })
      else if s.at_bol = true ∧ (lex_getnext s.input).1.code = HASH then
        (process_directive ext { s with input := (lex_getnext s.input).2 }).map .directive
      else if (lex_getnext s.input).1.code = NL then
        some (.discarded { s with input := (lex_getnext s.input).2, at_bol := true })
      else if (lex_getnext s.input).1.code = EOF then
        some (.returned (lex_getnext s.input).1
          (({ s with input := (lex_getnext s.input).2, at_bol := false } : Pdstate).error
            .E_ERR "EOF while processing #if directive"))
      else some (.discarded { s with input := (lex_getnext s.input).2, at_bol := false }) := by
  unfold getnext_pass
  simp only []
  rw [if_pos hskip]

/-- What a pass of `getnext` leaves behind: `expand` stays empty unless the
token was handed to macro expansion, which happens at `skiplevel` 0 only, and
a token returned while `skiplevel` is not 0 is `EOF`. -/
theorem getnext_pass_post (ext : Ext) (s : Pdstate) (hexp : s.expand = []) (p : Pass)
    (h : getnext_pass ext s = some p) :
    match p with
    | .discarded s1 => s1.expand = []
    | .directive s1 => s1.expand = []
    | .expanded s1 => s1.skiplevel = 0
    | .returned t s1 => s1.skiplevel ≠ 0 → t.code = EOF := by
  by_cases hskip : s.skiplevel ≠ 0
  · rw [getnext_pass_skipping ext s hskip] at h
    split at h
    · cases h; exact hexp
    · split at h
      · simp only [Option.map_eq_some'] at h
        obtain ⟨s2, hpd, hp⟩ := h
        subst hp
        exact (process_directive_frame ext _ s2 hpd).trans hexp
      · split at h
        · cases h; exact hexp
        · split at h
          · rename_i heof
            cases h
            intro _
            exact heof
          · cases h; exact hexp
  · simp only [ne_eq, Decidable.not_not] at hskip
    unfold getnext_pass at h
    simp only [] at h
    split at h
    · cases h; exact hexp
    · split at h
      · simp only [Option.map_eq_some'] at h
        obtain ⟨s2, hpd, hp⟩ := h
        subst hp
        exact (process_directive_frame ext _ s2 hpd).trans hexp
      · rw [if_neg (by simp [hskip])] at h
        split at h
        · cases h
          intro hne
          exact absurd hskip hne
        · split at h
          · cases h; exact hskip
          · split at h
            · rename_i heof
              cases h
              intro _
              exact heof
            · cases h
              intro hne
              exact absurd hskip hne

/-- Claim C11: a token that `getnext` reads from the lexer while `skiplevel`
is not 0 is never handed to macro expansion and is never returned unless it
is the `EOF` token; when it is neither `EOF` nor the `#` of a directive line
it is dropped, the pass changing nothing but the lexer position and `at_bol`.
Hence whenever a call of `getnext` returns with `skiplevel` not 0, the token
it returns is `EOF`. -/
theorem skipped_token_not_returned (ext : Ext) (s : Pdstate) (hskip : s.skiplevel ≠ 0) :
    (∀ s1, getnext_pass ext s ≠ some (.expanded s1)) ∧
    (∀ t s1, getnext_pass ext s = some (.returned t s1) →
      t = (lex_getnext s.input).1 ∧ t.code = EOF) ∧
    (¬ (s.at_bol = true ∧ (lex_getnext s.input).1.code = HASH) →
      (lex_getnext s.input).1.code ≠ EOF →
      ∃ b, getnext_pass ext s =
        some (.discarded { s with input := (lex_getnext s.input).2, at_bol := b })) ∧
    (∀ fuel t s1, s.expand = [] → getnext ext fuel s = some (t, s1) →
      s1.skiplevel ≠ 0 → t.code = EOF) := by
  refine ⟨?_, ?_, ?_, ?_⟩
  · intro s1
    rw [getnext_pass_skipping ext s hskip]
    split
    · simp
    · split
      · cases process_directive ext _ <;> simp
      · split
        · simp
        · split <;> simp
  · intro t s1
    rw [getnext_pass_skipping ext s hskip]
    split
    · simp
    · split
      · cases process_directive ext _ <;> simp
      · split
        · simp
        · split
          · rename_i heof
            intro h
            simp only [Option.some.injEq, Pass.returned.injEq] at h
            exact ⟨h.1.symm, h.1 ▸ heof⟩
          · simp
  · intro hdir heof
    rw [getnext_pass_skipping ext s hskip]
    split
    · exact ⟨s.at_bol, rfl⟩
    · split
      · exact ⟨true, rfl⟩
      · exact ⟨false, rfl⟩
  · have key : ∀ (fuel : Nat) (s : Pdstate) (t : Token) (s1 : Pdstate),
        (s.expand = [] ∨ s.skiplevel = 0) → getnext ext fuel s = some (t, s1) →
        s1.skiplevel ≠ 0 → t.code = EOF := by
      intro fuel
      induction fuel with
      | zero => intro s t s1 _ h; simp [getnext] at h
      | succ n ih =>
        intro s t s1 hs h hne
        cases hx : s.expand with
        | cons x rest =>
          unfold getnext at h
          rw [hx] at h
          simp only [Option.some.injEq, Prod.mk.injEq] at h
          rcases hs with hs | hs
          · rw [hs] at hx; cases hx
          · exfalso; apply hne; rw [← h.2]; exact hs
        | nil =>
          rw [getnext_unfold ext n s hx] at h
          have hpost := getnext_pass_post ext s hx
          cases hp : getnext_pass ext s with
          | none => rw [hp] at h; cases h
          | some p =>
            rw [hp] at h
            have hpp := hpost p hp
            cases p with
            | discarded s2 => exact ih s2 t s1 (Or.inl hpp) h hne
            | directive s2 => exact ih s2 t s1 (Or.inl hpp) h hne
            | expanded s2 => exact ih s2 t s1 (Or.inr hpp) h hne
            | returned t2 s2 =>
              simp only [Option.some.injEq, Prod.mk.injEq] at h
              rw [← h.1]
              exact hpp (h.2 ▸ hne)
    intro fuel t s1 hexp h hne
    exact key fuel s t s1 (Or.inl hexp) h hne

/-- Instance: the line `int` met at `skiplevel` 1; the identifier is dropped
and the call returns `EOF`. -/
theorem skipped_token_not_returned_witness :
    (∃ b, getnext_pass sampleExt
        (Pdstate.inside [false] 1 [tok IDENTIFIER "int" 0, tok NL "\n" 3]) =
      some (.discarded { Pdstate.inside [false] 1 [tok NL "\n" 3] with at_bol := b })) ∧
    eofToken.code = EOF :=
  ⟨(skipped_token_not_returned sampleExt
      (Pdstate.inside [false] 1 [tok IDENTIFIER "int" 0, tok NL "\n" 3]) (by decide)).2.2.1
      (by decide) (by decide),
   (skipped_token_not_returned sampleExt
      (Pdstate.inside [false] 1 [tok IDENTIFIER "int" 0, tok NL "\n" 3]) (by decide)).2.2.2
      3 eofToken
      { input := [], at_bol := false, expand := [], macros := [], iftaken := [false],
        skiplevel := 1, context := .cpp_normal,
        errors := [(.E_ERR, "EOF while processing #if directive")], unified := [] }
      rfl rfl (by decide)⟩

/-- Lookup after `macros_erase`: the erased name is gone, the others stay. -/
theorem macros_find_erase (m : MapMacro) (name k : String) :
    macros_find (macros_erase m name) k = if k = name then none else macros_find m k := by
  induction m with
  | nil => simp [macros_erase, macros_find]
  | cons kv rest ih =>
    obtain ⟨a, v⟩ := kv
    unfold macros_erase at ih ⊢
    simp only [List.filter_cons]
    by_cases ha : a = name
    · subst ha
      simp only [bne_self_eq_false, Bool.false_eq_true, if_false]
      rw [ih]
      by_cases hk : k = a
      · simp [hk]
      · have : ¬ a = k := fun h => hk h.symm
        simp [hk, macros_find, this]
    · have hne : (a != name) = true := by simpa using ha
      simp only [hne, if_true]
      unfold macros_find
      by_cases hak : a = k
      · subst hak
        simp [ha]
      · simp only [hak, if_false]
        exact ih

/-- Lookup after `macros_set`: the name maps to the new macro, the others stay. -/
theorem macros_find_set (m : MapMacro) (name k : String) (v : Macro) :
    macros_find (macros_set m name v) k = if k = name then some v else macros_find m k := by
  simp only [macros_set, macros_find]
  by_cases hk : name = k
  · subst hk; simp
  · have : ¬ k = name := fun h => hk h.symm
    simp only [hk, this, if_false]
    rw [macros_find_erase]
    simp [this]

/-- Erasing a name that has no entry changes nothing. -/
theorem macros_erase_absent (m : MapMacro) (name : String)
    (h : macros_find m name = none) : macros_erase m name = m := by
  induction m with
  | nil => rfl
  | cons kv rest ih =>
    obtain ⟨a, v⟩ := kv
    unfold macros_find at h
    by_cases ha : a = name
    · simp [ha] at h
    · simp only [ha, if_false] at h
      unfold macros_erase at ih ⊢
      have hne : (a != name) = true := by simpa using ha
      simp only [List.filter_cons, hne, if_true]
      rw [ih h]

/-- The formal argument loop reports one of its two errors only. -/
theorem gather_formals_bad (inp : List Token) :
    ∀ (want_name : Bool) (args : List (String × Token)) (formal_args : List Token)
      (msg : String) (left : List Token),
      gather_formals want_name inp args formal_args = .bad msg left →
      msg = "Invalid macro parameter name" ∨ msg = "Invalid macro parameter punctuation" := by
  induction inp with
  | nil =>
    intro w args fa msg left h
    unfold gather_formals at h
    split at h
    · simp only [Formals.bad.injEq] at h; exact Or.inl h.1.symm
    · simp only [Formals.bad.injEq] at h; exact Or.inr h.1.symm
  | cons t rest ih =>
    intro w args fa msg left h
    unfold gather_formals at h
    split at h
    · exact ih _ _ _ _ _ h
    · split at h
      · split at h
        · simp only [Formals.bad.injEq] at h; exact Or.inl h.1.symm
        · exact ih _ _ _ _ _ h
      · split at h
        · cases h
        · split at h
          · simp only [Formals.bad.injEq] at h; exact Or.inr h.1.symm
          · exact ih _ _ _ _ _ h

/-- The outcomes of `process_define`: either the directive is rejected with
one of its three errors, the macro table and the unifications being as
before, or the macro is stored by `define_finish`, as function-like exactly
when the token right after the name is `(`, and without formal arguments
when it is not. -/
theorem process_define_cases (ext : Ext) (s s1 : Pdstate)
    (h : process_define ext s = some s1) :
    (∃ msg, (msg = "Invalid macro name" ∨ msg = "Invalid macro parameter name" ∨
        msg = "Invalid macro parameter punctuation") ∧
      s1.errors = s.errors ++ [(Severity.E_ERR, msg)] ∧ s1.macros = s.macros ∧
      s1.unified = s.unified ∧ s1.iftaken = s.iftaken ∧ s1.skiplevel = s.skiplevel) ∨
    (∃ formal_args body,
      (getnext_nospc s.input).1.code = IDENTIFIER ∧
      ((lex_getnext (getnext_nospc s.input).2).1.code ≠ LPAREN → formal_args = []) ∧
      s1 = define_finish ext { s with context := .cpp_define } (getnext_nospc s.input).1
        (decide ((lex_getnext (getnext_nospc s.input).2).1.code = LPAREN))
        formal_args body) := by
  unfold process_define at h
  simp only [] at h
  by_cases c1 : (getnext_nospc s.input).1.code ≠ IDENTIFIER
  · rw [if_pos c1] at h
    left
    refine ⟨"Invalid macro name", Or.inl rfl, ?_⟩
    cases h
    simp [eat_to_eol, Pdstate.error]
  rw [if_neg c1] at h
  simp only [ne_eq, Decidable.not_not] at c1
  by_cases c2 : (lex_getnext (getnext_nospc s.input).2).1.code = LPAREN
  · rw [if_pos c2] at h
    split at h
    · split at h
      · rename_i msg inp hbad
        left
        refine ⟨msg, Or.inr (gather_formals_bad _ _ _ _ _ _ hbad), ?_⟩
        cases h
        simp [Pdstate.error]
      · rename_i args fa t3 inp3 hok
        simp only [Option.map_eq_some'] at h
        obtain ⟨body, _, hb⟩ := h
        right
        exact ⟨fa, body, c1, fun hne => absurd c2 hne, by rw [← hb]; simp [c2]⟩
    · simp only [Option.map_eq_some'] at h
      obtain ⟨body, _, hb⟩ := h
      right
      exact ⟨[], body, c1, fun _ => rfl, by rw [← hb]; simp [c2]⟩
  · rw [if_neg c2] at h
    simp only [Option.map_eq_some'] at h
    obtain ⟨body, _, hb⟩ := h
    right
    exact ⟨[], body, c1, fun _ => rfl, by rw [← hb]; simp [c2]⟩

/-- What `define_finish` leaves behind: the name maps to the new macro `m`,
the other entries stay, and the warning is the only diagnostic it can add,
added exactly when an older macro of the name differs from the new one. -/
theorem define_finish_post (ext : Ext) (s : Pdstate) (name_token : Token) (isf : Bool)
    (fa : List Token) (body : List Token × List (Token × Token) × List Token) (m : Macro)
    (hm : m = ⟨name_token, isf, fa, ext.value_rtrim body.1⟩) :
    macros_find (define_finish ext s name_token isf fa body).macros name_token.val = some m ∧
    (∀ k, k ≠ name_token.val →
      macros_find (define_finish ext s name_token isf fa body).macros k =
        macros_find s.macros k) ∧
    ((define_finish ext s name_token isf fa body).errors =
      if (∃ old, macros_find s.macros name_token.val = some old ∧
          ext.macro_differs old m = true)
      then s.errors ++ [(Severity.E_WARN, "Duplicate (different) macro definition")]
      else s.errors) := by
  subst hm
  unfold define_finish
  simp only []
  refine ⟨?_, ?_, ?_⟩
  · rw [macros_find_set]
    simp
  · intro k hk
    rw [macros_find_set]
    simp only [hk, if_false]
    split
    · split <;> rfl
    · rfl
  · cases hold : macros_find s.macros name_token.val with
    | none => simp
    | some old =>
      simp only [Option.some.injEq, exists_eq_left']
      by_cases hd : ext.macro_differs old
          ⟨name_token, isf, fa, ext.value_rtrim body.1⟩ = true
      · simp [hd, Pdstate.error]
      · simp [hd]

/-- A token that is neither `SPACE` nor a newline is not whitespace. -/
theorem not_space_of_code (ext : Ext) (hsp : ext.space_ok) (t : Token)
    (h1 : t.code ≠ SPACE) (h2 : t.code ≠ NL) : ext.is_space t = false := by
  cases h : ext.is_space t with
  | false => rfl
  | true =>
    rcases hsp.2 t h with h3 | h3
    · exact absurd h3 h1
    · exact absurd h3 h2

/-- An accepted `#define` went through `define_finish`. -/
theorem define_accepted (ext : Ext) (s s1 : Pdstate)
    (h : process_define ext s = some s1) (hacc : ¬ define_rejected s s1) :
    ∃ formal_args body,
      (getnext_nospc s.input).1.code = IDENTIFIER ∧
      ((lex_getnext (getnext_nospc s.input).2).1.code ≠ LPAREN → formal_args = []) ∧
      s1 = define_finish ext { s with context := .cpp_define } (getnext_nospc s.input).1
        (decide ((lex_getnext (getnext_nospc s.input).2).1.code = LPAREN))
        formal_args body := by
  rcases process_define_cases ext s s1 h with ⟨msg, _, herr, _⟩ | h2
  · exact absurd ⟨msg, herr⟩ hacc
  · exact h2

/-- Claim C12: a `#define` that is not rejected stores, for its name, a macro
that is function-like if and only if the token read right after the name
(whitespace tokens included) is `(`, and that has no formal arguments when it
is not function-like. With whitespace and trimming as the spec describes
them, `#define A(x) x` stores a function-like macro with the formal argument
`x` (the body `x` unified with it), and `#define A (x)` stores an object-like
macro without formal arguments whose body is `(`, `x`, `)`. -/
theorem define_function_like_iff_paren (ext : Ext) (hsp : ext.space_ok)
    (hrt : ext.rtrim_ok) :
    (∀ s s1, process_define ext s = some s1 → ¬ define_rejected s s1 →
      ∃ m, macros_find s1.macros (getnext_nospc s.input).1.val = some m ∧
        m.name_token = (getnext_nospc s.input).1 ∧
        (m.is_function = true ↔ (lex_getnext (getnext_nospc s.input).2).1.code = LPAREN) ∧
        (m.is_function = false → m.formal_args = [])) ∧
    process_define ext (Pdstate.init define_A_function) =
      some { Pdstate.init [] with
        context := .cpp_define,
        macros := [("A", { name_token := tok IDENTIFIER "A" 8, is_function := true,
                           formal_args := [tok IDENTIFIER "x" 10],
                           value := [tok IDENTIFIER "x" 13] })],
        unified := [(tok IDENTIFIER "x" 13, tok IDENTIFIER "x" 10)] } ∧
    process_define ext (Pdstate.init define_A_object) =
      some { Pdstate.init [] with
        context := .cpp_define,
        macros := [("A", { name_token := tok IDENTIFIER "A" 8, is_function := false,
                           formal_args := [],
                           value := [tok LPAREN "(" 10, tok IDENTIFIER "x" 11,
                                     tok RPAREN ")" 12] })] } := by
  refine ⟨?_, ?_, ?_⟩
  · intro s s1 h hacc
    obtain ⟨fa, body, _, hfa, hs1⟩ := define_accepted ext s s1 h hacc
    have hpost := define_finish_post ext { s with context := .cpp_define }
      (getnext_nospc s.input).1
      (decide ((lex_getnext (getnext_nospc s.input).2).1.code = LPAREN)) fa body _ rfl
    refine ⟨_, by rw [hs1]; exact hpost.1, rfl, by simp, ?_⟩
    intro hf
    simp only [decide_eq_false_iff_not] at hf
    exact hfa hf
  · have e1 : ext.is_space (tok SPACE " " 12) = true := hsp.1 _ rfl
    have e2 : ext.is_space (tok IDENTIFIER "x" 13) = false :=
      not_space_of_code ext hsp _ (by decide) (by decide)
    have hb : gather_body ext [("x", tok IDENTIFIER "x" 10)] true (tok SPACE " " 12)
        [tok IDENTIFIER "x" 13, tok NL "\n" 14] [] [] =
        some ([tok IDENTIFIER "x" 13], [(tok IDENTIFIER "x" 13, tok IDENTIFIER "x" 10)], []) := by
      simp only [tok] at e1 e2
      simp [gather_body, e1, e2, tok]
    have hv : ext.value_rtrim [tok IDENTIFIER "x" 13] = [tok IDENTIFIER "x" 13] := by
      rw [hrt]; simp [e2]
    have step : process_define ext (Pdstate.init define_A_function) =
        (gather_body ext [("x", tok IDENTIFIER "x" 10)] true (tok SPACE " " 12)
          [tok IDENTIFIER "x" 13, tok NL "\n" 14] [] []).map
          (define_finish ext { Pdstate.init define_A_function with context := .cpp_define }
            (tok IDENTIFIER "A" 8) true [tok IDENTIFIER "x" 10]) := rfl
    rw [step, hb]
    simp only [Option.map_some', define_finish, hv]
    rfl
  · have e1 : ext.is_space (tok SPACE " " 9) = true := hsp.1 _ rfl
    have e2 : ext.is_space (tok LPAREN "(" 10) = false :=
      not_space_of_code ext hsp _ (by decide) (by decide)
    have e3 : ext.is_space (tok RPAREN ")" 12) = false :=
      not_space_of_code ext hsp _ (by decide) (by decide)
    have hb : gather_body ext [] true (tok SPACE " " 9)
        [tok LPAREN "(" 10, tok IDENTIFIER "x" 11, tok RPAREN ")" 12, tok NL "\n" 13] [] [] =
        some ([tok LPAREN "(" 10, tok IDENTIFIER "x" 11, tok RPAREN ")" 12], [], []) := by
      simp only [tok] at e1 e2
      simp [gather_body, e1, e2, tok]
    have hv : ext.value_rtrim [tok LPAREN "(" 10, tok IDENTIFIER "x" 11, tok RPAREN ")" 12] =
        [tok LPAREN "(" 10, tok IDENTIFIER "x" 11, tok RPAREN ")" 12] := by
      rw [hrt]; simp [e3]
    have step : process_define ext (Pdstate.init define_A_object) =
        (gather_body ext [] true (tok SPACE " " 9)
          [tok LPAREN "(" 10, tok IDENTIFIER "x" 11, tok RPAREN ")" 12, tok NL "\n" 13]
          [] []).map
          (define_finish ext { Pdstate.init define_A_object with context := .cpp_define }
            (tok IDENTIFIER "A" 8) false []) := rfl
    rw [step, hb]
    simp only [Option.map_some', define_finish, hv]
    rfl

/-- The sample collaborators treat whitespace as the spec describes it. -/
theorem sampleExt_space_ok : sampleExt.space_ok := by
  constructor
  · intro t h
    simp [sampleExt, h]
  · intro t h
    simpa [sampleExt] using h

/-- The sample collaborators trim a body as the spec describes it. -/
theorem sampleExt_rtrim_ok : sampleExt.rtrim_ok := fun _ => rfl

/-- Instance: `#define A(x) x` with the sample collaborators. -/
theorem define_function_like_iff_paren_witness :
    process_define sampleExt (Pdstate.init define_A_function) =
      some { Pdstate.init [] with
        context := .cpp_define,
        macros := [("A", { name_token := tok IDENTIFIER "A" 8, is_function := true,
                           formal_args := [tok IDENTIFIER "x" 10],
                           value := [tok IDENTIFIER "x" 13] })],
        unified := [(tok IDENTIFIER "x" 13, tok IDENTIFIER "x" 10)] } :=
  (define_function_like_iff_paren sampleExt sampleExt_space_ok sampleExt_rtrim_ok).2.1

/-- Claim C13: after every `#define N ...` that is not rejected, the macro
table maps `N` to the newly parsed macro, whether or not `N` was defined
before, and every entry of another name is as before; the only diagnostic
added is the warning `Duplicate (different) macro definition`, and it is
added if and only if `N` was already defined with a macro that compares
different from the new one. -/
theorem define_second_wins (ext : Ext) (s s1 : Pdstate)
    (h : process_define ext s = some s1) (hacc : ¬ define_rejected s s1) :
    ∃ m, m.name_token = (getnext_nospc s.input).1 ∧
      (m.is_function = true ↔ (lex_getnext (getnext_nospc s.input).2).1.code = LPAREN) ∧
      macros_find s1.macros (getnext_nospc s.input).1.val = some m ∧
      (∀ k, k ≠ (getnext_nospc s.input).1.val →
        macros_find s1.macros k = macros_find s.macros k) ∧
      (s1.errors = s.errors ∨
        s1.errors = s.errors ++ [(Severity.E_WARN, "Duplicate (different) macro definition")]) ∧
      (s1.errors = s.errors ++ [(Severity.E_WARN, "Duplicate (different) macro definition")] ↔
        ∃ old, macros_find s.macros (getnext_nospc s.input).1.val = some old ∧
          ext.macro_differs old m = true) := by
  obtain ⟨fa, body, _, _, hs1⟩ := define_accepted ext s s1 h hacc
  have hpost := define_finish_post ext { s with context := .cpp_define }
    (getnext_nospc s.input).1
    (decide ((lex_getnext (getnext_nospc s.input).2).1.code = LPAREN)) fa body _ rfl
  rw [← hs1] at hpost
  obtain ⟨h1, h2, h3⟩ := hpost
  refine ⟨_, rfl, by simp, h1, h2, ?_, ?_⟩
  · rw [h3]
    split
    · exact Or.inr rfl
    · exact Or.inl rfl
  · rw [h3]
    constructor
    · intro he
      split at he
      · assumption
      · have := congrArg List.length he
        simp at this
    · intro hc
      rw [if_pos hc]

/-- Instance: `#define X 1` after `#define X 0` with the sample collaborators;
the second definition is stored and the warning is added. -/
theorem define_second_wins_witness :
    ∃ m, m.name_token = tok IDENTIFIER "X" 28 ∧
      macros_find [("X", (⟨tok IDENTIFIER "X" 28, false, [], [tok PP_NUMBER "1" 30]⟩ : Macro))]
        "X" = some m :=
  (define_second_wins sampleExt
    { Pdstate.init [tok SPACE " " 27, tok IDENTIFIER "X" 28, tok SPACE " " 29,
        tok PP_NUMBER "1" 30, tok NL "\n" 31] with macros := macros_X0 }
    { Pdstate.init [] with
        context := .cpp_define,
        macros := [("X", { name_token := tok IDENTIFIER "X" 28, is_function := false,
                           formal_args := [], value := [tok PP_NUMBER "1" 30] })],
        errors := [(.E_WARN, "Duplicate (different) macro definition")] }
    (by decide)
    (by rintro ⟨msg, hmsg⟩; simp [Pdstate.init] at hmsg)).imp
    (fun _ hm => ⟨hm.1, hm.2.2.1⟩)

/-- Claim C14, evaluated on the code: for the unknown directive `#foo 1` the
error is reported but the line is not skipped: `getnext` goes on with the
tokens after the keyword and returns the `1` of that line, the newline still
to be read. On the line `#foo #define X` the `#` that follows is taken for
the start of a directive, and `X` is in the macro table afterwards. -/
theorem unknown_directive_not_skipped (ext : Ext) (fuel : Nat) :
    getnext ext (fuel + 3) (Pdstate.init unknown_directive) =
      some (tok PP_NUMBER "1" 5,
        { Pdstate.init [tok NL "\n" 6] with
          at_bol := false,
          errors := [(.E_ERR, "Unknown preprocessor directive: foo")] }) ∧
    (getnext ext (fuel + 4) (Pdstate.init unknown_then_define)).map
        (fun r => (r.1, r.2.macros.map Prod.fst, r.2.errors)) =
      some (eofToken, ["X"], [(.E_ERR, "Unknown preprocessor directive: foo")]) :=
  ⟨rfl, rfl⟩

/-- Claim C15, evaluated on the code: when the offending token of a rejected
directive is the newline that ends its line, the recovery consumes the whole
of the following line too. After `#define A(`, after `#define` and after
`#undef`, each followed at once by a newline, the line `int x;` that comes
next is consumed and the input left starts at the line after it. -/
theorem rejected_directive_eats_next_line (ext : Ext) :
    process_directive ext
        (Pdstate.init ([tok IDENTIFIER "define" 1, tok SPACE " " 7, tok IDENTIFIER "A" 8,
          tok LPAREN "(" 9, tok NL "\n" 10] ++ next_lines 11)) =
      some { Pdstate.init [tok IDENTIFIER "y" 18] with
        context := .cpp_define,
        errors := [(.E_ERR, "Invalid macro parameter name")] } ∧
    process_directive ext
        (Pdstate.init ([tok IDENTIFIER "define" 1, tok NL "\n" 7] ++ next_lines 8)) =
      some { Pdstate.init [tok IDENTIFIER "y" 15] with
        context := .cpp_define,
        errors := [(.E_ERR, "Invalid macro name")] } ∧
    process_directive ext
        (Pdstate.init ([tok IDENTIFIER "undef" 1, tok NL "\n" 6] ++ next_lines 7)) =
      some { Pdstate.init [tok IDENTIFIER "y" 14] with
        errors := [(.E_ERR, "Invalid macro name")] } :=
  ⟨rfl, rfl, rfl⟩

/-- Claim C16: for a line `#undef X` (the token after the keyword is an
identifier), after `process_undef` the macro table has no entry for `X` and
every entry of another name is as before; no error is reported; when `X` was
not defined the table and the unifications are unchanged; when `X` was
defined with the macro `m`, exactly the unification of the use token with the
name token of `m` is added. Consequently, for collaborators with whitespace as
the spec describes it, the `defined` loop of `eval` turns `defined(X)` into
the single pp-number `0` afterwards. -/
theorem undef_post (s : Pdstate) (hid : (getnext_nospc s.input).1.code = IDENTIFIER) :
    macros_find (process_undef s).macros (getnext_nospc s.input).1.val = none ∧
    (∀ k, k ≠ (getnext_nospc s.input).1.val →
      macros_find (process_undef s).macros k = macros_find s.macros k) ∧
    (process_undef s).errors = s.errors ∧
    (macros_find s.macros (getnext_nospc s.input).1.val = none →
      (process_undef s).macros = s.macros ∧ (process_undef s).unified = s.unified) ∧
    (∀ m, macros_find s.macros (getnext_nospc s.input).1.val = some m →
      (process_undef s).unified = s.unified ++ [((getnext_nospc s.input).1, m.name_token)]) ∧
    (∀ (ext : Ext) (fuel : Nat) (p1 p2 p3 p4 : List Tpart), ext.space_ok →
      defined_pass ext (process_undef s).macros (fuel + 1)
        [⟨IDENTIFIER, p1, "defined"⟩, ⟨LPAREN, p2, "("⟩,
         ⟨IDENTIFIER, p3, (getnext_nospc s.input).1.val⟩, ⟨RPAREN, p4, ")"⟩] =
      { unified := [], result := .ok [Token.ofVal PP_NUMBER "0"] }) := by
  have hfind : macros_find (process_undef s).macros (getnext_nospc s.input).1.val = none := by
    unfold process_undef
    simp only [hid, ne_eq, not_true_eq_false, if_false]
    split
    · simp only [eat_to_eol]
      rw [macros_find_erase]
      simp
    · rename_i hnone
      simpa [eat_to_eol] using hnone
  refine ⟨hfind, ?_, ?_, ?_, ?_, ?_⟩
  · intro k hk
    unfold process_undef
    simp only [hid, ne_eq, not_true_eq_false, if_false]
    split
    · simp only [eat_to_eol]
      rw [macros_find_erase]
      simp [hk]
    · rfl
  · unfold process_undef
    simp only [hid, ne_eq, not_true_eq_false, if_false]
    split <;> rfl
  · intro hnone
    unfold process_undef
    simp only [hid, ne_eq, not_true_eq_false, if_false]
    split
    · rename_i m hm
      rw [hnone] at hm
      cases hm
    · exact ⟨rfl, rfl⟩
  · intro m hm
    unfold process_undef
    simp only [hid, ne_eq, not_true_eq_false, if_false]
    split
    · rename_i m2 hm2
      rw [hm] at hm2
      cases hm2
      rfl
    · rename_i hnone
      rw [hm] at hnone
      cases hnone
  · intro ext fuel p1 p2 p3 p4 hsp
    have e1 : ext.is_space ⟨LPAREN, p2, "("⟩ = false :=
      not_space_of_code ext hsp _ (by simp) (by simp)
    have e2 : ext.is_space ⟨IDENTIFIER, p3, (getnext_nospc s.input).1.val⟩ = false :=
      not_space_of_code ext hsp _ (by simp) (by simp)
    have e3 : ext.is_space ⟨RPAREN, p4, ")"⟩ = false :=
      not_space_of_code ext hsp _ (by simp) (by simp)
    have hrest : ∀ n, defined_pass ext (process_undef s).macros n [] =
        { unified := [], result := .ok [] } := by
      intro n
      cases n <;> simp [defined_pass]
    unfold defined_pass
    simp [is_defined_op, e1, e2, e3, hfind, hrest]

/-- Instance: `#undef X` after `#define X 0`. -/
theorem undef_post_witness :
    macros_find (process_undef
      { Pdstate.init [tok SPACE " " 18, tok IDENTIFIER "X" 19, tok NL "\n" 20] with
        macros := macros_X0 }).macros "X" = none ∧
    (process_undef
      { Pdstate.init [tok SPACE " " 18, tok IDENTIFIER "X" 19, tok NL "\n" 20] with
        macros := macros_X0 }).unified = [(tok IDENTIFIER "X" 19, tok IDENTIFIER "X" 8)] :=
  ⟨(undef_post
      { Pdstate.init [tok SPACE " " 18, tok IDENTIFIER "X" 19, tok NL "\n" 20] with
        macros := macros_X0 } (by decide)).1,
   (undef_post
      { Pdstate.init [tok SPACE " " 18, tok IDENTIFIER "X" 19, tok NL "\n" 20] with
        macros := macros_X0 } (by decide)).2.2.2.2.1 _ rfl⟩

/-- The lines `#define X`, `#undef X`, `#if defined(X)` with the sample
collaborators: the condition is not taken. -/
theorem define_undef_defined_run :
    (getnext sampleExt 4 (Pdstate.init
      [tok HASH "#" 0, tok IDENTIFIER "define" 1, tok SPACE " " 7, tok IDENTIFIER "X" 8,
       tok NL "\n" 9,
       tok HASH "#" 10, tok IDENTIFIER "undef" 11, tok SPACE " " 16, tok IDENTIFIER "X" 17,
       tok NL "\n" 18,
       tok HASH "#" 19, tok IDENTIFIER "if" 20, tok SPACE " " 22, tok IDENTIFIER "defined" 23,
       tok LPAREN "(" 30, tok IDENTIFIER "X" 31, tok RPAREN ")" 32, tok NL "\n" 33])).map
      (fun r => (r.2.macros, r.2.iftaken, r.2.skiplevel)) = some ([], [false], 1) := by
  decide

/-- Claim C19, evaluated on the code where `long` has 64 bits: when the
parser stores 4294967296 (2^32) in `eval_result`, the `int` that `eval`
returns is 0, so `process_if` at `skiplevel` 0 pushes false on `iftaken` and
sets `skiplevel` to 1 although the value is not zero. -/
theorem wide_value_not_taken (ext : Ext) (s : Pdstate) (u : List (Token × Token))
    (toks1 : List Token) (diags : List (Severity × String)) (hskip : s.skiplevel = 0)
    (hdp : defined_pass ext s.macros ((eval_read s.input).1.length + 1) (eval_read s.input).1 =
      { unified := u, result := .ok toks1 })
    (hparse : ext.eval_parse (zero_identifiers (ext.macro_replace_all s.macros toks1).tokens) =
      (diags, some 4294967296)) :
    (eval ext s).1 = 0 ∧
    (process_if ext s).iftaken = false :: s.iftaken ∧
    (process_if ext s).skiplevel = 1 := by
  have hev := eval_ok ext s u toks1 diags 4294967296 hdp hparse
  have h0 : (eval ext s).1 = 0 := by rw [hev]; rfl
  have hf := (eval_frame ext s).1
  refine ⟨h0, ?_, ?_⟩
  · simp [process_if, hskip, h0, hf]
  · simp [process_if, hskip, h0]

/-- Instance: the line `#if 4294967296` with the sample collaborators. -/
theorem wide_value_not_taken_witness :
    (process_if sampleExt
      (Pdstate.init [tok SPACE " " 3, tok PP_NUMBER "4294967296" 4, tok NL "\n" 14])).iftaken
      = [false] :=
  (wide_value_not_taken sampleExt
    (Pdstate.init [tok SPACE " " 3, tok PP_NUMBER "4294967296" 4, tok NL "\n" 14]) []
    [tok SPACE " " 3, tok PP_NUMBER "4294967296" 4, tok NL "\n" 14] [] rfl rfl rfl).2.1

/-- Skipping whitespace stops at the first token that is not whitespace. -/
theorem dropWhile_spaces (p : Token → Bool) (ws : List Token) (x : Token) (rest : List Token)
    (hws : ∀ w ∈ ws, p w = true) (hx : p x = false) :
    (ws ++ x :: rest).dropWhile p = x :: rest := by
  induction ws with
  | nil => simp [List.dropWhile, hx]
  | cons w ws ih =>
    have hw : p w = true := hws w (List.mem_cons_self _ _)
    simp only [List.cons_append, List.dropWhile_cons, hw, if_true]
    exact ih (fun w2 h2 => hws w2 (List.mem_cons_of_mem _ h2))

/-- A token that is not the `defined` operator in front of the list stays in
front of the outcome of the `defined` loop. -/
theorem defined_pass_keep (ext : Ext) (macros : MapMacro) (fuel : Nat) (t : Token)
    (rest : List Token) (ht : is_defined_op t = false) :
    defined_pass ext macros (fuel + 1) (t :: rest) =
      { unified := (defined_pass ext macros (fuel + 1) rest).unified,
        result := match (defined_pass ext macros (fuel + 1) rest).result with
          | .error e => .error e
          | .ok ts => .ok (t :: ts) } := by
  unfold defined_pass
  simp only [List.dropWhile_cons, List.takeWhile_cons, ht, Bool.not_false, if_true]
  split
  · rfl
  · split
    · rfl
    · split
      · rfl
      · split
        · rfl
        · simp only [List.cons_append]
          generalize (defined_pass ext macros fuel _).result = r
          cases r <;> rfl

/-- The pp-number of the `defined` step is not spelled `defined`. -/
theorem defined_number_not_op (macros : MapMacro) (x : Token) :
    is_defined_op (defined_number macros x) = false := by
  unfold defined_number is_defined_op Token.ofVal
  split <;> decide

/-- The `defined` loop of `eval` computes the list and the unifications of
the specification. -/
theorem defined_spec_pass (ext : Ext) (macros : MapMacro) (hsp : ext.space_ok)
    (toks out : List Token) (u : List (Token × Token))
    (hspec : DefinedSpec ext macros toks out u) :
    ∀ fuel, toks.length < fuel →
      defined_pass ext macros fuel toks = { unified := u, result := .ok out } := by
  induction hspec with
  | done =>
    intro fuel _
    cases fuel <;> simp [defined_pass]
  | keep t rest out u ht _ ih =>
    intro fuel hf
    cases fuel with
    | zero => simp at hf
    | succ n =>
      rw [defined_pass_keep ext macros n t rest ht]
      rw [ih (n + 1) (by simp only [List.length_cons] at hf; omega)]
  | plain d x ws rest out u hd hws hx _ ih =>
    intro fuel hf
    cases fuel with
    | zero => simp at hf
    | succ n =>
      have hxs : ext.is_space x = false :=
        not_space_of_code ext hsp x (by rw [hx]; decide) (by rw [hx]; decide)
      have h1 : (ws ++ x :: rest).dropWhile ext.is_space = x :: rest :=
        dropWhile_spaces ext.is_space ws x rest hws hxs
      have hlen : rest.length < n := by
        simp only [List.length_cons, List.length_append] at hf
        omega
      unfold defined_pass
      simp only [List.dropWhile_cons, List.takeWhile_cons, hd, Bool.not_true,
        Bool.false_eq_true, if_false, h1, hx]
      have hd1 : decide ((IDENTIFIER : Int) = LPAREN) = false := by decide
      simp only [hd1, Bool.false_eq_true, if_false, hx, ne_eq, not_true_eq_false,
        ih n hlen, List.nil_append, defined_number, defined_unify]
      cases macros_find macros x.val <;> simp
  | bracket d lp x rp ws1 ws2 ws3 rest out u hd hws1 hlp hws2 hx hws3 hrp _ ih =>
    intro fuel hf
    cases fuel with
    | zero => simp at hf
    | succ n =>
      have hxs : ext.is_space x = false :=
        not_space_of_code ext hsp x (by rw [hx]; decide) (by rw [hx]; decide)
      have hlps : ext.is_space lp = false :=
        not_space_of_code ext hsp lp (by rw [hlp]; decide) (by rw [hlp]; decide)
      have hrps : ext.is_space rp = false :=
        not_space_of_code ext hsp rp (by rw [hrp]; decide) (by rw [hrp]; decide)
      have h1 : (ws1 ++ lp :: (ws2 ++ x :: (ws3 ++ rp :: rest))).dropWhile ext.is_space =
          lp :: (ws2 ++ x :: (ws3 ++ rp :: rest)) :=
        dropWhile_spaces ext.is_space ws1 lp _ hws1 hlps
      have h2 : (ws2 ++ x :: (ws3 ++ rp :: rest)).dropWhile ext.is_space =
          x :: (ws3 ++ rp :: rest) :=
        dropWhile_spaces ext.is_space ws2 x _ hws2 hxs
      have h3 : (ws3 ++ rp :: rest).dropWhile ext.is_space = rp :: rest :=
        dropWhile_spaces ext.is_space ws3 rp _ hws3 hrps
      have hlen : rest.length < n := by
        simp only [List.length_cons, List.length_append] at hf
        omega
      unfold defined_pass
      simp only [List.dropWhile_cons, List.takeWhile_cons, hd, Bool.not_true,
        Bool.false_eq_true, if_false, h1, hlp]
      simp only [decide_True, if_true, List.drop_succ_cons, List.drop_zero, h2, h3, hx, hrp,
        ne_eq, not_true_eq_false, if_false, ih n hlen, defined_number, defined_unify]
      cases macros_find macros x.val <;> simp

/-- The list of the specification holds no token spelled `defined`. -/
theorem defined_spec_no_op (ext : Ext) (macros : MapMacro)
    (toks out : List Token) (u : List (Token × Token))
    (hspec : DefinedSpec ext macros toks out u) :
    ∀ t ∈ out, is_defined_op t = false := by
  induction hspec with
  | done => simp
  | keep t rest out u ht _ ih =>
    intro t2 h2
    rcases List.mem_cons.1 h2 with h | h
    · rw [h]; exact ht
    · exact ih t2 h
  | plain d x ws rest out u hd hws hx _ ih =>
    intro t2 h2
    rcases List.mem_cons.1 h2 with h | h
    · rw [h]; exact defined_number_not_op macros x
    · exact ih t2 h
  | bracket d lp x rp ws1 ws2 ws3 rest out u hd hws1 hlp hws2 hx hws3 hrp _ ih =>
    intro t2 h2
    rcases List.mem_cons.1 h2 with h | h
    · rw [h]; exact defined_number_not_op macros x
    · exact ih t2 h

/-- Claim C17: for every token list in which each `defined` is followed,
after optional whitespace, by an identifier or by `(` identifier `)`, and for
collaborators with whitespace as the spec describes it, the `defined` loop of
`eval` ends without error and makes exactly the list and the unifications of
the specification: each whole occurrence is replaced by the one pp-number `1`
if the operand is a key of the macro table and `0` otherwise, every other
token is kept in its place, the operand is unified with the name token of its
macro exactly when it is defined; no token spelled `defined` is left; and it
is this rewritten list, without the operands, that `eval` hands to macro
expansion. -/
theorem defined_pass_meets_spec (ext : Ext) (macros : MapMacro) (hsp : ext.space_ok)
    (toks out : List Token) (u : List (Token × Token))
    (hspec : DefinedSpec ext macros toks out u) :
    (∀ fuel, toks.length < fuel →
      defined_pass ext macros fuel toks = { unified := u, result := .ok out }) ∧
    (∀ t ∈ out, is_defined_op t = false) ∧
    (∀ s : Pdstate, s.macros = macros → (eval_read s.input).1 = toks →
      (eval ext s).2.unified = (s.unified ++ u) ++ (ext.macro_replace_all macros out).unified) := by
  refine ⟨defined_spec_pass ext macros hsp toks out u hspec,
    defined_spec_no_op ext macros toks out u hspec, ?_⟩
  intro s hm ht
  have hdp := defined_spec_pass ext macros hsp toks out u hspec (toks.length + 1)
    (Nat.lt_succ_self _)
  unfold eval
  simp only [hm, ht, hdp]
  split <;> simp [Pdstate.error]

/-- Instance: the expression `defined(X)` after `#define X 0`. -/
theorem defined_pass_meets_spec_witness :
    defined_pass sampleExt macros_X0 6
        [tok IDENTIFIER "defined" 4, tok LPAREN "(" 11, tok IDENTIFIER "X" 12,
         tok RPAREN ")" 13, tok NL "\n" 14] =
      { unified := [(tok IDENTIFIER "X" 12, tok IDENTIFIER "X" 8)],
        result := .ok [Token.ofVal PP_NUMBER "1", tok NL "\n" 14] } :=
  (defined_pass_meets_spec sampleExt macros_X0 sampleExt_space_ok _ _ _
    (DefinedSpec.bracket (tok IDENTIFIER "defined" 4) (tok LPAREN "(" 11)
      (tok IDENTIFIER "X" 12) (tok RPAREN ")" 13) [] [] [] [tok NL "\n" 14] [tok NL "\n" 14] []
      rfl (by simp) rfl (by simp) rfl (by simp) rfl
      (DefinedSpec.keep (tok NL "\n" 14) [] [] [] rfl DefinedSpec.done))).1 6 (by decide)

/-- The first token left by `dropWhile` does not satisfy the predicate. -/
theorem dropWhile_head {α : Type} (p : α → Bool) (l : List α) (x : α) (rest : List α)
    (h : l.dropWhile p = x :: rest) : p x = false := by
  induction l with
  | nil => simp at h
  | cons a t ih =>
    simp only [List.dropWhile_cons] at h
    split at h
    · exact ih h
    · rename_i hp
      simp only [List.cons.injEq] at h
      rw [← h.1]
      simpa using hp

/-- Tokens that are not identifiers are left alone by `zero_identifiers`. -/
theorem zero_identifiers_id (l : List Token)
    (h : ∀ t ∈ l, (!decide (t.code = IDENTIFIER)) = true) : zero_identifiers l = l := by
  induction l with
  | nil => rfl
  | cons a t ih =>
    have ha := h a (List.mem_cons_self _ _)
    simp only [Bool.not_eq_true', decide_eq_false_iff_not] at ha
    simp only [zero_identifiers, List.map_cons, ha, if_false, List.cons.injEq, true_and]
    exact ih (fun t2 h2 => h t2 (List.mem_cons_of_mem _ h2))

/-- The identifier loop of `eval`, given more rounds than there are
identifiers from the iterator on, ends with the list in which every
identifier is replaced. -/
theorem zero_loop_eq (fuel : Nat) :
    ∀ (done rest : List Token),
      rest.countP (fun t => decide (t.code = IDENTIFIER)) < fuel →
      zero_loop fuel done rest = some (done ++ zero_identifiers rest) := by
  induction fuel with
  | zero => intro done rest h; omega
  | succ n ih =>
    intro done rest h
    unfold zero_loop
    have hsplit := List.takeWhile_append_dropWhile
      (fun t => !decide (t.code = IDENTIFIER)) rest
    have htake : ∀ t ∈ rest.takeWhile (fun t => !decide (t.code = IDENTIFIER)),
        (!decide (t.code = IDENTIFIER)) = true :=
      fun t ht => by
        have := List.mem_takeWhile_imp ht
        exact this
    cases hdrop : rest.dropWhile (fun t => !decide (t.code = IDENTIFIER)) with
    | nil =>
      simp only []
      rw [hdrop, List.append_nil] at hsplit
      rw [← hsplit, zero_identifiers_id _ htake]
    | cons x after =>
      simp only []
      have hx := dropWhile_head _ rest x after hdrop
      simp only [Bool.not_eq_false', decide_eq_true_eq] at hx
      rw [hdrop] at hsplit
      have hcount : (Token.ofVal PP_NUMBER "0" :: after).countP
          (fun t => decide (t.code = IDENTIFIER)) < n := by
        rw [← hsplit] at h
        simp only [List.countP_append, List.countP_cons, hx, decide_True, if_true] at h
        have h0 : (Token.ofVal PP_NUMBER "0").code ≠ IDENTIFIER := by decide
        simp only [List.countP_cons, h0, decide_False, Bool.false_eq_true, if_false]
        omega
      rw [ih _ _ hcount]
      conv => rhs; rw [← hsplit]
      have hz : zero_identifiers (List.takeWhile (fun t => !decide (t.code = IDENTIFIER)) rest
          ++ x :: after) =
          List.takeWhile (fun t => !decide (t.code = IDENTIFIER)) rest ++
            Token.ofVal PP_NUMBER "0" :: zero_identifiers after := by
        have := zero_identifiers_id _ htake
        unfold zero_identifiers at this ⊢
        rw [List.map_append, this]
        simp [hx]
      rw [hz]
      have hz2 : zero_identifiers (Token.ofVal PP_NUMBER "0" :: after) =
          Token.ofVal PP_NUMBER "0" :: zero_identifiers after := by
        unfold zero_identifiers
        simp only [List.map_cons]
        rfl
      rw [hz2, List.append_assoc]

/-- Claim C18: the identifier loop of `eval` ends for every list, within one
round more than the list is long, and afterwards no token with code
`IDENTIFIER` is left, the list is as long as before, every token that was an
identifier is the pp-number `0` at the same position, and every other token
is unchanged; the result is the list `zero_identifiers` that `eval` goes on
with. -/
theorem zero_loop_post (toks : List Token) :
    zero_loop (toks.length + 1) [] toks = some (zero_identifiers toks) ∧
    (zero_identifiers toks).length = toks.length ∧
    (∀ t ∈ zero_identifiers toks, t.code ≠ IDENTIFIER) ∧
    (∀ i : Nat, (zero_identifiers toks)[i]? = (toks[i]?).map (fun t =>
        if t.code = IDENTIFIER then Token.ofVal PP_NUMBER "0" else t)) ∧
    (∀ (i : Nat) (t : Token), toks[i]? = some t → t.code = IDENTIFIER →
      (zero_identifiers toks)[i]? = some (Token.ofVal PP_NUMBER "0")) ∧
    (∀ (i : Nat) (t : Token), toks[i]? = some t → t.code ≠ IDENTIFIER →
      (zero_identifiers toks)[i]? = some t) := by
  refine ⟨?_, ?_, ?_, ?_, ?_, ?_⟩
  · have h := zero_loop_eq (toks.length + 1) [] toks
      (Nat.lt_succ_of_le (List.countP_le_length _))
    simpa using h
  · simp [zero_identifiers]
  · intro t ht
    simp only [zero_identifiers, List.mem_map] at ht
    obtain ⟨a, _, ha⟩ := ht
    split at ha
    · rw [← ha]; decide
    · rw [← ha]; assumption
  · intro i
    simp [zero_identifiers, List.getElem?_map]
  · intro i t hi ht
    simp [zero_identifiers, List.getElem?_map, hi, ht]
  · intro i t hi ht
    simp [zero_identifiers, List.getElem?_map, hi, ht]

/-- Instance: the expression `X+1`. -/
theorem zero_loop_post_witness :
    zero_loop 4 [] [tok IDENTIFIER "X" 4, tok 43 "+" 5, tok PP_NUMBER "1" 6] =
      some [Token.ofVal PP_NUMBER "0", tok 43 "+" 5, tok PP_NUMBER "1" 6] ∧
    (zero_identifiers [tok IDENTIFIER "X" 4, tok 43 "+" 5, tok PP_NUMBER "1" 6])[0]? =
      some (Token.ofVal PP_NUMBER "0") ∧
    (zero_identifiers [tok IDENTIFIER "X" 4, tok 43 "+" 5, tok PP_NUMBER "1" 6])[1]? =
      some (tok 43 "+" 5) :=
  ⟨(zero_loop_post [tok IDENTIFIER "X" 4, tok 43 "+" 5, tok PP_NUMBER "1" 6]).1,
   (zero_loop_post [tok IDENTIFIER "X" 4, tok 43 "+" 5, tok PP_NUMBER "1" 6]).2.2.2.2.1
      0 (tok IDENTIFIER "X" 4) rfl rfl,
   (zero_loop_post [tok IDENTIFIER "X" 4, tok 43 "+" 5, tok PP_NUMBER "1" 6]).2.2.2.2.2
      1 (tok 43 "+" 5) rfl (by decide)⟩

/-- The bytes that the inner loop of `file_replace` reads without writing are
passed over: the scan goes on behind them. -/
theorem file_replace_scan_skip (w : World) (fid : Nat) (k : Nat) :
    ∀ (offs : Nat) (content : List Char),
      file_replace_scan w fid offs k content =
        file_replace_scan w fid (offs + k) 0 (content.drop k) := by
  induction k with
  | zero => intro offs content; simp
  | succ k ih =>
    intro offs content
    cases content with
    | nil => simp [file_replace_scan]
    | cons c rest =>
      rw [file_replace_scan]
      rw [ih (offs + 1) rest]
      simp only [List.drop_succ_cons]
      congr 1
      omega

/-- Offsets without an occurrence to be renamed count for nothing. -/
theorem occurrences_skip (w : World) (fid : Nat) (k : Nat) :
    ∀ (offs : Nat) (content : List Char),
      (∀ j, j < k → replacement_at w ⟨fid, offs + j⟩ = none) →
      occurrences w fid offs content = occurrences w fid (offs + k) (content.drop k) := by
  induction k with
  | zero => intro offs content _; simp
  | succ k ih =>
    intro offs content h
    cases content with
    | nil => simp [occurrences]
    | cons c rest =>
      rw [occurrences]
      have h0 := h 0 (Nat.succ_pos k)
      simp only [Nat.add_zero] at h0
      rw [h0]
      simp only [Option.isSome_none, Bool.false_eq_true, if_false, Nat.zero_add,
        List.drop_succ_cons]
      rw [ih (offs + 1) rest (fun j hj => by
        have := h (j + 1) (Nat.succ_lt_succ hj)
        rw [← this]; congr 2; omega)]
      congr 1
      omega

/-- A key that is in an association list is found by `lookup`. -/
theorem lookup_of_mem (l : List (Nat × Eclass)) (k : Nat) (v : Eclass) (h : (k, v) ∈ l) :
    ∃ v1, l.lookup k = some v1 := by
  induction l with
  | nil => cases h
  | cons kv rest ih =>
    obtain ⟨k1, v1⟩ := kv
    by_cases hk : k = k1
    · subst hk
      exact ⟨v1, by simp [List.lookup]⟩
    · have hne : (k == k1) = false := by simpa using hk
      rcases List.mem_cons.mp h with h1 | h1
      · simp only [Prod.mk.injEq] at h1
        exact absurd h1.1 hk
      · obtain ⟨v2, hv2⟩ := ih h1
        exact ⟨v2, by simp only [List.lookup, hne]; exact hv2⟩

/-- The class that `check_ec` yields is in the store. -/
theorem check_ec_lookup (w : World) (ti : Tokid) (e : Nat) (h : check_ec w ti = some e) :
    ∃ ec, w.eclasses.lookup e = some ec := by
  unfold check_ec at h
  cases hf : w.eclasses.find? (fun kv => kv.2.members.contains ti) with
  | none => rw [hf] at h; cases h
  | some kv =>
    rw [hf] at h
    simp only [Option.map_some', Option.some.injEq] at h
    have hmem := List.mem_of_find?_eq_some hf
    obtain ⟨k, v⟩ := kv
    simp only at h
    subst h
    exact lookup_of_mem _ _ _ hmem

/-- Where the test of `file_replace` succeeds there is an occurrence to be
renamed, of the length and with the new name that the test delivers. -/
theorem occurrence_of_replacement (w : World) (fid offs len : Nat) (i : Identifier)
    (h : replacement_at w ⟨fid, offs⟩ = some (len, i)) : Occurrence w fid offs len i.newid := by
  unfold replacement_at at h
  cases hc : check_ec w ⟨fid, offs⟩ with
  | none => rw [hc] at h; cases h
  | some e =>
    rw [hc] at h
    simp only at h
    cases hi : w.ids.lookup e with
    | none => rw [hi] at h; cases h
    | some i1 =>
      rw [hi] at h
      simp only at h
      obtain ⟨ec, hec⟩ := check_ec_lookup w _ e hc
      rw [hec] at h
      split at h
      · rename_i hrep
        simp only [Option.some.injEq, Prod.mk.injEq] at h
        obtain ⟨h1, h2⟩ := h
        subst h1 h2
        exact Occurrence.mk e ec i1 hc hec hi hrep
      · cases h

/-- At an occurrence to be renamed the test of `file_replace` succeeds, with
the length of the class and the entry of the new name. -/
theorem replacement_of_occurrence (w : World) (fid offs len : Nat) (newid : String)
    (h : Occurrence w fid offs len newid) :
    ∃ i, replacement_at w ⟨fid, offs⟩ = some (len, i) ∧ i.newid = newid := by
  cases h with
  | mk e ec i hc hec hi hrep =>
    refine ⟨i, ?_, rfl⟩
    unfold replacement_at
    simp only [hc, hi, hec, hrep, if_true]

/-- Where the test of `file_replace` fails there is no occurrence to be
renamed. -/
theorem no_occurrence_of_none (w : World) (fid offs : Nat)
    (h : replacement_at w ⟨fid, offs⟩ = none) (len : Nat) (newid : String) :
    ¬ Occurrence w fid offs len newid := by
  intro ho
  obtain ⟨i, hi, _⟩ := replacement_of_occurrence w fid offs len newid ho
  rw [h] at hi
  cases hi

/-- An offset is an occurrence to be renamed in one way only. -/
theorem occurrence_unique (w : World) (fid offs len1 len2 : Nat) (n1 n2 : String)
    (h1 : Occurrence w fid offs len1 n1) (h2 : Occurrence w fid offs len2 n2) :
    len1 = len2 ∧ n1 = n2 := by
  obtain ⟨i1, hr1, hn1⟩ := replacement_of_occurrence w fid offs len1 n1 h1
  obtain ⟨i2, hr2, hn2⟩ := replacement_of_occurrence w fid offs len2 n2 h2
  rw [hr1] at hr2
  simp only [Option.some.injEq, Prod.mk.injEq] at hr2
  obtain ⟨ha, hb⟩ := hr2
  subst ha hb
  exact ⟨rfl, hn1.symm.trans hn2⟩

/-- The rewriting of the specification has one outcome only. -/
theorem rewritten_unique (w : World) (fid : Nat) (offs : Nat) (content out1 : List Char)
    (n1 : Nat) (h1 : Rewritten w fid offs content out1 n1) :
    ∀ (out2 : List Char) (n2 : Nat), Rewritten w fid offs content out2 n2 →
      out2 = out1 ∧ n2 = n1 := by
  induction h1 with
  | done offs =>
    intro out2 n2 h2
    cases h2
    exact ⟨rfl, rfl⟩
  | copy offs c rest out n hno _ ih =>
    intro out2 n2 h2
    cases h2 with
    | copy _ _ _ out3 _ _ h3 =>
      obtain ⟨ha, hb⟩ := ih out3 n2 h3
      exact ⟨by rw [ha], hb⟩
    | subst _ len newid _ _ out3 n3 hocc _ => exact absurd hocc (hno len newid)
  | subst offs len newid c rest out n hocc _ ih =>
    intro out2 n2 h2
    cases h2 with
    | copy _ _ _ out3 _ hno _ => exact absurd hocc (hno len newid)
    | subst _ len3 newid3 _ _ out3 n3 hocc3 h3 =>
      obtain ⟨hl, hn⟩ := occurrence_unique w fid offs len len3 newid newid3 hocc hocc3
      subst hl hn
      obtain ⟨ha, hb⟩ := ih out3 n3 h3
      exact ⟨by rw [ha], by rw [hb]⟩

/-- The invariant of the class store in the words of the specification gives
the one in terms of the test of `file_replace`. -/
theorem classes_ok_of_spec (w : World) (fid : Nat)
    (hlen : ∀ (offs len : Nat) (newid : String), Occurrence w fid offs len newid → 1 ≤ len)
    (hsep : ∀ (offs len : Nat) (newid : String), Occurrence w fid offs len newid →
      ∀ j, 0 < j → j < len →
      ∀ (len2 : Nat) (newid2 : String), ¬ Occurrence w fid (offs + j) len2 newid2) :
    w.classes_ok fid := by
  constructor
  · intro offs len i h
    exact hlen offs len i.newid (occurrence_of_replacement w fid offs len i h)
  · intro offs len i h j hj hjl
    cases hr : replacement_at w ⟨fid, offs + j⟩ with
    | none => rfl
    | some p =>
      obtain ⟨len2, i2⟩ := p
      exact absurd (occurrence_of_replacement w fid (offs + j) len2 i2 hr)
        (hsep offs len i.newid (occurrence_of_replacement w fid offs len i h) j hj hjl
          len2 i2.newid)

/-- The count of the code is the number of offsets of the range at which the
test of `file_replace` succeeds. -/
theorem occurrences_eq_filter (w : World) (fid : Nat) (content : List Char) :
    ∀ offs, occurrences w fid offs content =
      ((List.range' offs content.length).filter
        (fun o => (replacement_at w ⟨fid, o⟩).isSome)).length := by
  induction content with
  | nil => intro offs; rfl
  | cons c rest ih =>
    intro offs
    rw [occurrences, ih (offs + 1)]
    simp only [List.length_cons, List.range'_succ, List.filter_cons]
    split
    · simp; omega
    · simp

/-- The count of the code is the length of every list that holds each offset
of the file that is an occurrence to be renamed once. -/
theorem occurrences_eq_length (w : World) (fid : Nat) (content : List Char)
    (offsets : List Nat) (hnd : offsets.Nodup)
    (hmem : ∀ o, o ∈ offsets ↔
      (o < content.length ∧ ∃ (len : Nat) (newid : String), Occurrence w fid o len newid)) :
    occurrences w fid 0 content = offsets.length := by
  rw [occurrences_eq_filter]
  apply List.Perm.length_eq
  rw [List.perm_ext_iff_of_nodup ((List.nodup_range' 0 content.length).filter _) hnd]
  intro o
  rw [hmem o]
  simp only [List.mem_filter, List.mem_range'_1, Nat.zero_le, true_and, Nat.zero_add]
  constructor
  · rintro ⟨hlt, hs⟩
    refine ⟨hlt, ?_⟩
    cases hr : replacement_at w ⟨fid, o⟩ with
    | none => rw [hr] at hs; cases hs
    | some p =>
      obtain ⟨len, i⟩ := p
      exact ⟨len, i.newid, occurrence_of_replacement w fid o len i hr⟩
  · rintro ⟨hlt, len, newid, hocc⟩
    obtain ⟨i, hi, _⟩ := replacement_of_occurrence w fid o len newid hocc
    exact ⟨hlt, by rw [hi]; rfl⟩

/-- The scan of `file_replace` writes the content of the specification and
counts the offsets at which its test succeeds. -/
theorem file_replace_scan_spec (w : World) (fid : Nat) (hok : w.classes_ok fid) (m : Nat) :
    ∀ (offs : Nat) (content : List Char), content.length ≤ m →
      Rewritten w fid offs content (file_replace_scan w fid offs 0 content).1
        (file_replace_scan w fid offs 0 content).2 ∧
      (file_replace_scan w fid offs 0 content).2 = occurrences w fid offs content := by
  induction m with
  | zero =>
    intro offs content h
    have : content = [] := List.length_eq_zero.1 (Nat.le_zero.1 h)
    subst this
    exact ⟨Rewritten.done offs, rfl⟩
  | succ m ih =>
    intro offs content h
    cases content with
    | nil => exact ⟨Rewritten.done offs, rfl⟩
    | cons c rest =>
      have hrest : rest.length ≤ m := by simp only [List.length_cons] at h; omega
      cases hr : replacement_at w ⟨fid, offs⟩ with
      | none =>
        have hscan : file_replace_scan w fid offs 0 (c :: rest) =
            (c :: (file_replace_scan w fid (offs + 1) 0 rest).1,
             (file_replace_scan w fid (offs + 1) 0 rest).2) := by
          rw [file_replace_scan]; simp only [hr]
        rw [hscan]
        have := ih (offs + 1) rest hrest
        refine ⟨Rewritten.copy offs c rest _ _ (no_occurrence_of_none w fid offs hr) this.1, ?_⟩
        rw [occurrences, hr]
        simp only [Option.isSome_none, Bool.false_eq_true, if_false, Nat.zero_add]
        exact this.2
      | some p =>
        obtain ⟨len, i⟩ := p
        have hlen : 1 ≤ len := hok.1 offs len i hr
        have hscan : file_replace_scan w fid offs 0 (c :: rest) =
            (i.newid.data ++ (file_replace_scan w fid (offs + len) 0 (rest.drop (len - 1))).1,
             (file_replace_scan w fid (offs + len) 0 (rest.drop (len - 1))).2 + 1) := by
          rw [file_replace_scan]
          simp only [hr]
          rw [file_replace_scan_skip w fid (len - 1) (offs + 1) rest]
          have : offs + 1 + (len - 1) = offs + len := by omega
          rw [this]
        have hdrop : (c :: rest).drop len = rest.drop (len - 1) := by
          obtain ⟨k, hk⟩ : ∃ k, len = k + 1 := ⟨len - 1, by omega⟩
          subst hk
          simp
        have hshort : (rest.drop (len - 1)).length ≤ m := by
          rw [List.length_drop]; omega
        have := ih (offs + len) (rest.drop (len - 1)) hshort
        rw [hscan]
        refine ⟨Rewritten.subst offs len i.newid c rest _ _
          (occurrence_of_replacement w fid offs len i hr) (by rw [hdrop]; exact this.1), ?_⟩
        simp only []
        rw [occurrences, hr]
        simp only [Option.isSome_some, if_true]
        rw [occurrences_skip w fid (len - 1) (offs + 1) rest (fun j hj => by
          have := hok.2 offs len i hr (j + 1) (Nat.succ_pos j) (by omega)
          rw [← this]; congr 2; omega)]
        have hoff : offs + 1 + (len - 1) = offs + len := by omega
        rw [hoff, this.2]
        omega

/-- A scan without a replacement copies the content. -/
theorem file_replace_scan_zero (w : World) (fid : Nat) (content : List Char) :
    ∀ offs, (file_replace_scan w fid offs 0 content).2 = 0 →
      (file_replace_scan w fid offs 0 content).1 = content := by
  induction content with
  | nil => intro offs _; rfl
  | cons c rest ih =>
    intro offs h
    rw [file_replace_scan] at h ⊢
    cases hr : replacement_at w ⟨fid, offs⟩ with
    | none =>
      simp only [hr] at h ⊢
      rw [ih (offs + 1) h]
    | some p =>
      simp only [hr] at h
      omega

/-- Without an occurrence to be renamed in the range there is nothing to count. -/
theorem occurrences_none (w : World) (fid : Nat) (content : List Char) :
    ∀ offs, (∀ j, j < content.length → replacement_at w ⟨fid, offs + j⟩ = none) →
      occurrences w fid offs content = 0 := by
  induction content with
  | nil => intro offs _; rfl
  | cons c rest ih =>
    intro offs h
    rw [occurrences]
    have h0 := h 0 (by simp)
    simp only [Nat.add_zero] at h0
    rw [h0, ih (offs + 1) (fun j hj => by
      have := h (j + 1) (by simp only [List.length_cons]; omega)
      rw [← this]; congr 2; omega)]
    rfl

/-- Lookup of the file after `file_replace` has put the new content in. -/
theorem lookup_after_rewrite (files : List (Nat × List Char)) (fid : Nat)
    (content out : List Char) (h : files.lookup fid = some content) :
    (files.map (fun kv => if kv.1 = fid then (fid, out) else kv)).lookup fid = some out := by
  induction files with
  | nil => simp at h
  | cons kv rest ih =>
    obtain ⟨k, v⟩ := kv
    by_cases hk : k = fid
    · subst hk
      have e : (if (k, v).1 = k then (k, out) else (k, v)) = (k, out) := if_pos rfl
      rw [List.map_cons, e]
      simp [List.lookup]
    · have hne : (fid == k) = false := by
        simp only [beq_eq_false_iff_ne, ne_eq]
        exact fun h2 => hk h2.symm
      have e : (if (k, v).1 = fid then (fid, out) else (k, v)) = (k, v) := if_neg hk
      simp only [List.lookup, hne] at h
      rw [List.map_cons, e]
      simp only [List.lookup, hne]
      exact ih h

/-- In `renamed_world` the only occurrence to be renamed is at offset 0 of file 1. -/
theorem renamed_world_replacement (offs : Nat) :
    replacement_at renamed_world ⟨1, offs⟩ =
      if offs = 0 then some (3, { id := "foo", newid := "bar", xfile := false, replaced := true })
      else none := by
  by_cases h : offs = 0
  · subst h; rfl
  · have hc : check_ec renamed_world ⟨1, offs⟩ = none := by
      simp [check_ec, renamed_world, h]
    simp [replacement_at, hc, h]

/-- The classes of `renamed_world` have a length and do not overlap. -/
theorem renamed_world_ok : renamed_world.classes_ok 1 := by
  constructor
  · intro offs len i h
    rw [renamed_world_replacement] at h
    split at h
    · simp only [Option.some.injEq, Prod.mk.injEq] at h
      omega
    · cases h
  · intro offs len i h j hj _
    rw [renamed_world_replacement]
    have : ¬ offs + j = 0 := by omega
    simp [this]

/-- Claim C20: for a file that can be opened, in a world in which every
identifier occurrence to be renamed has a length of at least 1 and none
starts inside another one, `file_replace` returns `n` and leaves the file with
the content `out`, where `out` is the content of the specification: at every
identifier occurrence to be renamed (an offset where `check_ec` yields a class
that has an entry in `ids` with `replaced` set) the new name of that entry
stands in place of the bytes of the length of the class, and every other byte
is copied unchanged and in order. The specification allows no other content,
and `n` is the number of such occurrences: the length of every list that holds
each of their offsets once. In particular, when no offset of the file is such
an occurrence, `out` is the input byte for byte, the result is 0 and nothing is
changed. -/
theorem file_replace_meets_spec (w : World) (fid : Nat) (content : List Char)
    (hfile : w.files.lookup fid = some content)
    (hlen : ∀ (offs len : Nat) (newid : String), Occurrence w fid offs len newid → 1 ≤ len)
    (hsep : ∀ (offs len : Nat) (newid : String), Occurrence w fid offs len newid →
      ∀ j, 0 < j → j < len →
      ∀ (len2 : Nat) (newid2 : String), ¬ Occurrence w fid (offs + j) len2 newid2) :
    ∃ (out : List Char) (n : Nat) (w1 : World),
      file_replace w fid = some (n, w1) ∧
      Rewritten w fid 0 content out n ∧
      (∀ (out2 : List Char) (n2 : Nat), Rewritten w fid 0 content out2 n2 →
        out2 = out ∧ n2 = n) ∧
      (∀ offsets : List Nat, offsets.Nodup →
        (∀ o, o ∈ offsets ↔
          (o < content.length ∧
            ∃ (len : Nat) (newid : String), Occurrence w fid o len newid)) →
        n = offsets.length) ∧
      w1.files.lookup fid = some out ∧ w1.ids = w.ids ∧ w1.eclasses = w.eclasses ∧
      ((∀ o, o < content.length →
          ∀ (len : Nat) (newid : String), ¬ Occurrence w fid o len newid) →
        out = content ∧ n = 0 ∧ w1 = w) := by
  have hok := classes_ok_of_spec w fid hlen hsep
  have hspec := file_replace_scan_spec w fid hok content.length 0 content (le_refl _)
  have hcount : ∀ offsets : List Nat, offsets.Nodup →
      (∀ o, o ∈ offsets ↔
        (o < content.length ∧
          ∃ (len : Nat) (newid : String), Occurrence w fid o len newid)) →
      (file_replace_scan w fid 0 0 content).2 = offsets.length := fun offsets hnd hmem =>
    hspec.2.trans (occurrences_eq_length w fid content offsets hnd hmem)
  have hnone : (∀ o, o < content.length →
      ∀ (len : Nat) (newid : String), ¬ Occurrence w fid o len newid) →
      (file_replace_scan w fid 0 0 content).2 = 0 := fun h =>
    hcount [] List.nodup_nil (fun o => by
      simp only [List.not_mem_nil, false_iff, not_and, not_exists]
      exact fun ho len newid => h o ho len newid)
  by_cases hn : (file_replace_scan w fid 0 0 content).2 = 0
  · refine ⟨(file_replace_scan w fid 0 0 content).1, (file_replace_scan w fid 0 0 content).2,
      w, ?_, hspec.1, rewritten_unique w fid 0 content _ _ hspec.1, hcount, ?_, rfl, rfl, ?_⟩
    · unfold file_replace
      simp only [hfile, hn, ne_eq, not_true_eq_false, if_false]
    · rw [file_replace_scan_zero w fid content 0 hn]; exact hfile
    · intro _
      exact ⟨file_replace_scan_zero w fid content 0 hn, hn, rfl⟩
  · refine ⟨(file_replace_scan w fid 0 0 content).1, (file_replace_scan w fid 0 0 content).2,
      { w with files := w.files.map (fun kv =>
        if kv.1 = fid then (fid, (file_replace_scan w fid 0 0 content).1) else kv) },
      ?_, hspec.1, rewritten_unique w fid 0 content _ _ hspec.1, hcount, ?_, rfl, rfl, ?_⟩
    · unfold file_replace
      simp only [hfile, hn, ne_eq, not_false_eq_true, if_true]
    · exact lookup_after_rewrite w.files fid content _ hfile
    · intro h
      exact absurd (hnone h) hn

/-- The occurrence of `foo` at offset 0 of file 1 of `renamed_world` is to be
renamed to `bar`, and by the specification `foo();` becomes `bar();` with one
substitution. -/
theorem renamed_world_rewritten :
    Rewritten renamed_world 1 0 "foo();".data "bar();".data 1 := by
  have hno : ∀ offs, offs ≠ 0 → ∀ (len : Nat) (newid : String),
      ¬ Occurrence renamed_world 1 offs len newid := by
    intro offs ho len newid
    apply no_occurrence_of_none
    rw [renamed_world_replacement]
    simp [ho]
  have hocc : Occurrence renamed_world 1 0 3 "bar" :=
    Occurrence.mk 1 ⟨3, [⟨1, 0⟩], []⟩ ⟨"foo", "bar", false, true⟩ rfl rfl rfl rfl
  exact Rewritten.subst 0 3 "bar" 'f' _ _ 0 hocc
    (Rewritten.copy 3 '(' _ _ 0 (hno 3 (by decide))
      (Rewritten.copy 4 ')' _ _ 0 (hno 4 (by decide))
        (Rewritten.copy 5 ';' _ _ 0 (hno 5 (by decide)) (Rewritten.done 6))))

/-- Instance: the file `foo();` of `renamed_world`, in which the occurrence of
`foo` is to be renamed to `bar`: `file_replace` returns 1 and the file holds
`bar();` afterwards. -/
theorem file_replace_meets_spec_witness :
    ∃ w1, file_replace renamed_world 1 = some (1, w1) ∧
      w1.files.lookup 1 = some "bar();".data ∧ w1.ids = renamed_world.ids := by
  have hlen : ∀ (offs len : Nat) (newid : String),
      Occurrence renamed_world 1 offs len newid → 1 ≤ len := by
    intro offs len newid h
    obtain ⟨i, hi, _⟩ := replacement_of_occurrence _ _ _ _ _ h
    exact renamed_world_ok.1 offs len i hi
  have hsep : ∀ (offs len : Nat) (newid : String),
      Occurrence renamed_world 1 offs len newid → ∀ j, 0 < j → j < len →
      ∀ (len2 : Nat) (newid2 : String), ¬ Occurrence renamed_world 1 (offs + j) len2 newid2 := by
    intro offs len newid h j hj hjl len2 newid2
    obtain ⟨i, hi, _⟩ := replacement_of_occurrence _ _ _ _ _ h
    exact no_occurrence_of_none _ _ _ (renamed_world_ok.2 offs len i hi j hj hjl) len2 newid2
  obtain ⟨out, n, w1, hfr, _, huniq, _, hlook, hids, _⟩ :=
    file_replace_meets_spec renamed_world 1 "foo();".data rfl hlen hsep
  obtain ⟨ho, hn⟩ := huniq _ _ renamed_world_rewritten
  rw [← ho] at hlook
  rw [← hn] at hfr
  exact ⟨w1, hfr, hlook, hids⟩

/-- The file `foo();` of `renamed_world` becomes `bar();`, with one replacement. -/
theorem renamed_world_run :
    file_replace renamed_world 1 =
      some (1, { renamed_world with files := [(1, "bar();".data)] }) ∧
    occurrences renamed_world 1 0 "foo();".data = 1 := by
  decide

/-- Claim C30: a rejected `#define` is atomic. Whenever `process_define`
reports `Invalid macro name`, `Invalid macro parameter name` or `Invalid macro
parameter punctuation`, the macro table is exactly as before the directive
and no unification has been made, `iftaken` and `skiplevel` being untouched
too. -/
theorem rejected_define_atomic (ext : Ext) (s s1 : Pdstate) (msg : String)
    (h : process_define ext s = some s1)
    (hrep : s1.errors = s.errors ++ [(Severity.E_ERR, msg)]) :
    (msg = "Invalid macro name" ∨ msg = "Invalid macro parameter name" ∨
      msg = "Invalid macro parameter punctuation") ∧
    s1.macros = s.macros ∧ s1.unified = s.unified ∧
    s1.iftaken = s.iftaken ∧ s1.skiplevel = s.skiplevel := by
  rcases process_define_cases ext s s1 h with ⟨m2, hm2, herr, hmac, huni, hift, hsk⟩ | hacc
  · rw [hrep] at herr
    have := List.append_cancel_left herr
    simp only [List.cons.injEq, Prod.mk.injEq, true_and, and_true] at this
    rw [this]
    exact ⟨hm2, hmac, huni, hift, hsk⟩
  · obtain ⟨fa, body, _, _, hs1⟩ := hacc
    have hpost := (define_finish_post ext { s with context := .cpp_define }
      (getnext_nospc s.input).1
      (decide ((lex_getnext (getnext_nospc s.input).2).1.code = LPAREN)) fa body _ rfl).2.2
    rw [← hs1, hrep] at hpost
    exfalso
    split at hpost
    · have := List.append_cancel_left hpost
      simp at this
    · have := congrArg List.length hpost
      simp at this

/-- Instance: the line `#define A(` ended by a newline is rejected. -/
theorem rejected_define_atomic_witness :
    ({ Pdstate.init [] with
        context := .cpp_define, macros := macros_X0,
        errors := [(.E_ERR, "Invalid macro parameter name")] } : Pdstate).macros = macros_X0 :=
  (rejected_define_atomic sampleExt
    { Pdstate.init [tok SPACE " " 7, tok IDENTIFIER "A" 8, tok LPAREN "(" 9, tok NL "\n" 10]
      with macros := macros_X0 }
    { Pdstate.init [] with
        context := .cpp_define, macros := macros_X0,
        errors := [(.E_ERR, "Invalid macro parameter name")] }
    "Invalid macro parameter name" (by decide) rfl).2.1

/-! ## The body loop at the end of the file -/

/-- Without a newline among the current token and the input left, the body
loop as written has not exited after any number of rounds. -/
theorem body_loop_none (ext : Ext) (args : List (String × Token)) (fuel : Nat) :
    ∀ (lead : Bool) (t : Token) (inp value : List Token) (unified : List (Token × Token)),
      (∀ x ∈ t :: inp, x.code ≠ NL) →
      body_loop ext args fuel lead t inp value unified = none := by
  induction fuel with
  | zero => intro lead t inp value unified _; rfl
  | succ n ih =>
    intro lead t inp value unified h
    have ht : t.code ≠ NL := h t (List.mem_cons_self _ _)
    have hnext : ∀ x ∈ (lex_getnext inp).1 :: (lex_getnext inp).2, x.code ≠ NL := by
      cases inp with
      | nil =>
        intro x hx
        simp only [lex_getnext, List.mem_singleton] at hx
        rw [hx]; decide
      | cons a r =>
        intro x hx
        exact h x (List.mem_cons_of_mem _ hx)
    rw [body_loop, if_neg ht]
    split
    · exact ih _ _ _ _ _ hnext
    · exact ih _ _ _ _ _ hnext

/-- Without a newline among the current token and the input left,
`gather_body` gives no result. -/
theorem gather_body_none (ext : Ext) (args : List (String × Token)) :
    ∀ (inp : List Token) (lead : Bool) (t : Token) (value : List Token)
      (unified : List (Token × Token)),
      (∀ x ∈ t :: inp, x.code ≠ NL) →
      gather_body ext args lead t inp value unified = none := by
  intro inp
  induction inp with
  | nil =>
    intro lead t value unified h
    rw [gather_body, if_neg (h t (List.mem_cons_self _ _))]
  | cons a r ih =>
    intro lead t value unified h
    have hr : ∀ x ∈ a :: r, x.code ≠ NL := fun x hx => h x (List.mem_cons_of_mem _ hx)
    rw [gather_body, if_neg (h t (List.mem_cons_self _ _))]
    split
    · exact ih _ _ _ _ hr
    · exact ih _ _ _ _ hr

/-- The loop as written, given enough rounds, and `gather_body` agree: a
result of `gather_body` is reached by the loop within `inp.length + 1`
rounds. -/
theorem body_loop_of_gather (ext : Ext) (args : List (String × Token)) :
    ∀ (inp : List Token) (lead : Bool) (t : Token) (value : List Token)
      (unified : List (Token × Token)) (r : List Token × List (Token × Token) × List Token)
      (k : Nat),
      gather_body ext args lead t inp value unified = some r →
      body_loop ext args (inp.length + 1 + k) lead t inp value unified = some r := by
  intro inp
  induction inp with
  | nil =>
    intro lead t value unified r k h
    rw [gather_body] at h
    have e : ([] : List Token).length + 1 + k = k + 1 := by simp only [List.length_nil]; omega
    rw [e, body_loop]
    split at h
    · rename_i hnl; rw [if_pos hnl]; exact h
    · cases h
  | cons a rest ih =>
    intro lead t value unified r k h
    rw [gather_body] at h
    have e : (a :: rest).length + 1 + k = (rest.length + 1 + k) + 1 := by
      simp only [List.length_cons]; omega
    rw [e, body_loop]
    split at h
    · rename_i hnl; rw [if_pos hnl]; exact h
    · rename_i hnl
      rw [if_neg hnl]
      split at h
      · rename_i hl; rw [if_pos hl]; exact ih _ _ _ _ _ k h
      · rename_i hl; rw [if_neg hl]; exact ih _ _ _ _ _ k h

/-- Claim C29, evaluated on the code: the body loop of `process_define` tests
only for the newline. For the definition `#define A` whose line is ended by
the end of the file, the loop as written has not stopped after any number of
rounds, and `process_define`, as `process_directive` on the whole line, gives
no state; this holds for every line without a newline. -/
theorem define_at_eof_never_returns (ext : Ext) :
    (∀ fuel : Nat, body_loop ext [] fuel true eofToken [] [] [] = none) ∧
    process_define ext (Pdstate.init [tok SPACE " " 7, tok IDENTIFIER "A" 8]) = none ∧
    process_directive ext
      (Pdstate.init [tok IDENTIFIER "define" 1, tok SPACE " " 7, tok IDENTIFIER "A" 8]) = none ∧
    (∀ (args : List (String × Token)) (lead : Bool) (t : Token) (inp value : List Token)
      (unified : List (Token × Token)),
      (∀ x ∈ t :: inp, x.code ≠ NL) →
      gather_body ext args lead t inp value unified = none ∧
      ∀ fuel : Nat, body_loop ext args fuel lead t inp value unified = none) := by
  refine ⟨fun fuel => body_loop_none ext [] fuel _ _ _ _ _ (by decide), rfl, rfl, ?_⟩
  intro args lead t inp value unified h
  exact ⟨gather_body_none ext args inp lead t value unified h,
    fun fuel => body_loop_none ext args fuel lead t inp value unified h⟩

/-- Instance: the body `x y` followed by the end of the file. -/
theorem define_at_eof_never_returns_witness :
    (∀ x ∈ [tok IDENTIFIER "x" 10, tok SPACE " " 11, tok IDENTIFIER "y" 12], x.code ≠ NL) ∧
    gather_body sampleExt [] true (tok IDENTIFIER "x" 10)
      [tok SPACE " " 11, tok IDENTIFIER "y" 12] [] [] = none :=
  ⟨by decide,
   ((define_at_eof_never_returns sampleExt).2.2.2 [] true (tok IDENTIFIER "x" 10)
      [tok SPACE " " 11, tok IDENTIFIER "y" 12] [] [] (by decide)).1⟩

/-! ## The identifier query -/

/-- A loop that clears `add` at the first hit gives the negation of the loop
that sets it at the first hit. -/
theorem all_not_eq_not_any (l : List Nat) (p : Nat → Bool) :
    l.all (fun j => !p j) = !l.any p := by
  induction l with
  | nil => rfl
  | cons a r ih => simp only [List.all_cons, List.any_cons, ih, Bool.not_or]

/-- Marks equal to the attributes are marks that the attributes cover. -/
theorem all_exact_imp_all (l : List Nat) (m a : Nat → Bool)
    (h : l.all (fun j => !(m j != a j)) = true) :
    l.all (fun j => !(m j && !a j)) = true := by
  induction l with
  | nil => rfl
  | cons x r ih =>
    simp only [List.all_cons, Bool.and_eq_true] at h ⊢
    refine ⟨?_, ih h.2⟩
    have h1 := h.1
    revert h1
    cases m x <;> cases a x <;> decide

/-- Claim C28, as stated, fails: with project 7 selected, an identifier whose
class does not have the attribute of the project is left out before the
match type is looked at, so neither `E` nor `Y` selects it. -/
theorem project_filter_before_match :
    xiquery_add 4 7 world_one_class 1
      { id := "a", newid := "", xfile := false, replaced := false } (query_unmarked 'E')
      = some false ∧
    xiquery_add 4 7 world_one_class 1
      { id := "a", newid := "", xfile := false, replaced := false } (query_unmarked 'Y')
      = some false ∧
    ¬ (xiquery_add 4 7 world_one_class 1
        { id := "a", newid := "", xfile := false, replaced := false } (query_unmarked 'E')
        = some true ↔
       ¬ xiquery_add 4 7 world_one_class 1
        { id := "a", newid := "", xfile := false, replaced := false } (query_unmarked 'Y')
        = some true) := by
  decide

/-- Claim C28, amended: for every identifier that passes the project filter of
`xiquery_page` (no project is selected, or the class of the identifier has
the attribute of the selected project) and every setting of the marks, match
type `E` selects the identifier if and only if match type `Y` does not; and,
filter or not, every identifier selected by `T` is also selected by `L`. -/
theorem xiquery_exclude_is_not_any (attr_max current_project : Nat) (w : World) (e : Nat)
    (id : Identifier) (marked : Nat → Bool) (xfile unused writable : Bool) :
    ((current_project = 0 ∨ get_attribute w e current_project = true) →
      (xiquery_add attr_max current_project w e id ⟨'E', marked, xfile, unused, writable⟩
          = some true ↔
        ¬ xiquery_add attr_max current_project w e id ⟨'Y', marked, xfile, unused, writable⟩
          = some true)) ∧
    (xiquery_add attr_max current_project w e id ⟨'T', marked, xfile, unused, writable⟩
        = some true →
      xiquery_add attr_max current_project w e id ⟨'L', marked, xfile, unused, writable⟩
        = some true) := by
  constructor
  · intro hp
    have hf : ¬ (current_project ≠ 0 ∧ get_attribute w e current_project = false) := by
      rintro ⟨h0, h1⟩
      rcases hp with hp | hp
      · exact h0 hp
      · rw [hp] at h1; cases h1
    have hE : ¬ ('E' = 'Y') := by decide
    have hL : ¬ ('E' = 'L') := by decide
    simp only [xiquery_add, if_neg hf, if_true, if_neg hE, if_neg hL, Option.some.injEq]
    rw [all_not_eq_not_any (List.range attr_max) (fun j => marked j && get_attribute w e j)]
    generalize (List.range attr_max).any (fun j => marked j && get_attribute w e j) = b
    cases b <;> cases xfile <;> cases unused <;> cases writable <;>
      cases id.xfile <;> cases get_attribute w e is_readonly <;>
      cases decide (get_size w e = 1) <;> decide
  · by_cases hf : current_project ≠ 0 ∧ get_attribute w e current_project = false
    · simp [xiquery_add, if_pos hf]
    · have hT1 : ¬ ('T' = 'Y') := by decide
      have hT2 : ¬ ('T' = 'L') := by decide
      have hT3 : ¬ ('T' = 'E') := by decide
      have hL1 : ¬ ('L' = 'Y') := by decide
      simp only [xiquery_add, if_neg hf, if_true, if_neg hT1, if_neg hT2, if_neg hT3,
        if_neg hL1, Option.some.injEq]
      intro h
      simp only [Bool.and_eq_true] at h ⊢
      obtain ⟨⟨⟨h1, h2⟩, h3⟩, h4⟩ := h
      refine ⟨⟨⟨all_exact_imp_all _ _ _ h1, ?_⟩, ?_⟩, ?_⟩
      · revert h2; cases xfile <;> cases id.xfile <;> decide
      · revert h3; cases unused <;> cases decide (get_size w e = 1) <;> decide
      · revert h4; cases writable <;> cases get_attribute w e is_readonly <;> decide

/-- Instance: with no project selected, `E` selects the unmarked identifier
and `Y` does not. -/
theorem xiquery_exclude_is_not_any_witness :
    (0 = 0 ∨ get_attribute world_one_class 1 0 = true) ∧
    (xiquery_add 4 0 world_one_class 1
        { id := "a", newid := "", xfile := false, replaced := false }
        ⟨'E', fun _ => false, false, false, false⟩ = some true ↔
      ¬ xiquery_add 4 0 world_one_class 1
        { id := "a", newid := "", xfile := false, replaced := false }
        ⟨'Y', fun _ => false, false, false, false⟩ = some true) :=
  ⟨Or.inl rfl,
   (xiquery_exclude_is_not_any 4 0 world_one_class 1
      { id := "a", newid := "", xfile := false, replaced := false }
      (fun _ => false) false false false).1 (Or.inl rfl)⟩

/-! ## The nesting invariant -/

/-- The two ways of `process_if`: while skipping it only counts, otherwise it
pushes the truth of the expression. -/
theorem process_if_shape (ext : Ext) (s : Pdstate) :
    (s.skiplevel ≠ 0 ∧ process_if ext s = { s with skiplevel := s.skiplevel + 1 }) ∨
    (s.skiplevel = 0 ∧
      (process_if ext s).iftaken = decide ((eval ext s).1 ≠ 0) :: s.iftaken ∧
      (process_if ext s).skiplevel = (if (eval ext s).1 ≠ 0 then 0 else 1) ∧
      (process_if ext s).macros = s.macros) := by
  by_cases h : s.skiplevel ≠ 0
  · left
    exact ⟨h, by rw [process_if, if_pos h]⟩
  · right
    refine ⟨not_not.mp h, ?_, ?_, ?_⟩
    · rw [process_if, if_neg h]
      simp only [(eval_frame ext s).1]
    · rw [process_if, if_neg h]
      simp only [decide_eq_true_eq]
    · rw [process_if, if_neg h]
      exact (eval_frame ext s).2.2.1

/-- One counted directive keeps the nesting invariant. -/
theorem nest_step_inv (ext : Ext) (n : Nest) (d : Dir × List Token)
    (h0 : 0 ≤ n.state.skiplevel)
    (h1 : (n.state.iftaken.length : Int) + max (n.state.skiplevel - 1) 0
      = (n.ifs : Int) - (n.endifs : Int))
    (h2 : 0 < n.state.skiplevel → n.state.iftaken ≠ []) :
    0 ≤ (n.step ext d).state.skiplevel ∧
    ((n.step ext d).state.iftaken.length : Int) + max ((n.step ext d).state.skiplevel - 1) 0
      = ((n.step ext d).ifs : Int) - ((n.step ext d).endifs : Int) ∧
    (0 < (n.step ext d).state.skiplevel → (n.step ext d).state.iftaken ≠ []) := by
  obtain ⟨s, a, b⟩ := n
  obtain ⟨dir, line⟩ := d
  simp only at h0 h1 h2
  have hif : ∀ t : Pdstate, 0 ≤ t.skiplevel → (0 < t.skiplevel → t.iftaken ≠ []) →
      0 ≤ (process_if ext t).skiplevel ∧
      ((process_if ext t).iftaken.length : Int) + max ((process_if ext t).skiplevel - 1) 0
        = (t.iftaken.length : Int) + max (t.skiplevel - 1) 0 + 1 ∧
      (process_if ext t).iftaken ≠ [] := by
    intro t ht0 ht2
    rcases process_if_shape ext t with ⟨hs, he⟩ | ⟨hs, hi, hk, _⟩
    · rw [he]
      have hpos : 0 < t.skiplevel := by omega
      refine ⟨by simp only; omega, ?_, ht2 hpos⟩
      simp only
      rw [max_eq_left (by omega), max_eq_left (by omega)]
      omega
    · rw [hi, hk, hs]
      refine ⟨by split <;> decide, ?_, by simp⟩
      split <;> simp
  cases dir with
  | d_if =>
    have := hif { s with input := line } h0 h2
    simp only [Nest.step, run_dir, if_true, reduceCtorEq, false_and, if_false]
    refine ⟨this.1, ?_, fun _ => this.2.2⟩
    rw [this.2.1]
    push_cast
    omega
  | d_elif =>
    simp only [Nest.step, run_dir, reduceCtorEq, if_false, false_and]
    cases hi : s.iftaken with
    | nil =>
      rw [hi] at h1 h2
      simp only [process_elif, hi, eat_to_eol, Pdstate.error]
      exact ⟨h0, h1, h2⟩
    | cons top below =>
      rw [hi] at h1
      simp only [process_elif, hi]
      split
      · simp only [hi]; exact ⟨h0, h1, fun _ => by simp⟩
      · rename_i hle
        split
        · simp only [hi]
          refine ⟨by decide, ?_, fun _ => by simp⟩
          rw [max_eq_right (by omega)] at h1
          simpa using h1
        · have := hif { s with input := line, iftaken := below, skiplevel := 0 }
            (le_refl _) (fun h => absurd h (by simp))
          refine ⟨this.1, ?_, fun _ => this.2.2⟩
          rw [this.2.1]
          rw [max_eq_right (by omega)] at h1
          simp only [List.length_cons] at h1 ⊢
          push_cast at h1 ⊢
          simp only [zero_sub, Int.reduceNeg, Left.neg_nonpos_iff, zero_le_one, max_eq_right]
          omega
  | d_else =>
    simp only [Nest.step, run_dir, reduceCtorEq, if_false, false_and]
    cases hi : s.iftaken with
    | nil =>
      rw [hi] at h1 h2
      simp only [process_else, hi, eat_to_eol, Pdstate.error]
      exact ⟨h0, h1, h2⟩
    | cons top below =>
      rw [hi] at h1
      simp only [process_else, hi]
      split
      · simp only [hi]; exact ⟨h0, h1, fun _ => by simp⟩
      · rename_i hle
        rw [max_eq_right (by omega)] at h1
        split
        · simp only [hi]
          refine ⟨by decide, ?_, fun _ => by simp⟩
          simpa using h1
        · simp only [eat_to_eol, hi]
          refine ⟨le_refl _, ?_, fun _ => by simp⟩
          simpa using h1
  | d_endif =>
    simp only [Nest.step, run_dir, reduceCtorEq, if_false, true_and]
    cases hi : s.iftaken with
    | nil =>
      rw [hi] at h1 h2
      simp only [process_endif, hi, eat_to_eol, Pdstate.error, ne_eq, not_true_eq_false,
        if_false]
      exact ⟨h0, h1, fun h => h2 h rfl⟩
    | cons top below =>
      rw [hi] at h1
      simp only [process_endif, hi, eat_to_eol, ne_eq, reduceCtorEq, not_false_eq_true,
        if_true]
      by_cases hle : s.skiplevel ≤ 1
      · rw [max_eq_right (by omega)] at h1
        simp only [if_pos hle]
        by_cases h1' : s.skiplevel ≥ 1
        · simp only [if_pos h1']
          have : s.skiplevel = 1 := by omega
          refine ⟨by omega, ?_, fun h => by omega⟩
          rw [this]
          simp only [List.length_cons] at h1
          push_cast at h1 ⊢
          simp only [sub_self, zero_sub, Int.reduceNeg, Left.neg_nonpos_iff, zero_le_one,
            max_eq_right]
          omega
        · simp only [if_neg h1']
          have : s.skiplevel = 0 := by omega
          refine ⟨by omega, ?_, fun h => by omega⟩
          rw [this]
          simp only [List.length_cons] at h1
          push_cast at h1 ⊢
          simp only [zero_sub, Int.reduceNeg, Left.neg_nonpos_iff, zero_le_one, max_eq_right]
          omega
      · simp only [if_neg hle]
        have hge : s.skiplevel ≥ 1 := by omega
        simp only [if_pos hge, hi]
        refine ⟨by omega, ?_, fun _ => by simp⟩
        rw [max_eq_left (by omega)] at h1
        rw [max_eq_left (by omega)]
        push_cast at h1 ⊢
        omega

/-- The nesting invariant holds after any sequence of counted directives. -/
theorem nest_run_inv (ext : Ext) (ds : List (Dir × List Token)) :
    ∀ n : Nest, 0 ≤ n.state.skiplevel →
      (n.state.iftaken.length : Int) + max (n.state.skiplevel - 1) 0
        = (n.ifs : Int) - (n.endifs : Int) →
      (0 < n.state.skiplevel → n.state.iftaken ≠ []) →
      0 ≤ (n.run ext ds).state.skiplevel ∧
      ((n.run ext ds).state.iftaken.length : Int) + max ((n.run ext ds).state.skiplevel - 1) 0
        = ((n.run ext ds).ifs : Int) - ((n.run ext ds).endifs : Int) ∧
      (0 < (n.run ext ds).state.skiplevel → (n.run ext ds).state.iftaken ≠ []) := by
  induction ds with
  | nil => intro n h0 h1 h2; exact ⟨h0, h1, h2⟩
  | cons d rest ih =>
    intro n h0 h1 h2
    have hs := nest_step_inv ext n d h0 h1 h2
    exact ih (n.step ext d) hs.1 hs.2.1 hs.2.2

/-- Claim C25: the nesting-depth invariant. In every state reached from a
state with `iftaken` empty and `skiplevel` 0 by any sequence of `process_if`,
`process_elif`, `process_else` and `process_endif` calls, `skiplevel` is not
negative and the length of `iftaken` plus `max (skiplevel - 1) 0` is the
number of `#if*` directives seen minus the number of `#endif` directives that
were not rejected as unbalanced; hence a positive `skiplevel` implies a
non-empty `iftaken`, `iftaken` is empty exactly when the two numbers are
equal (no conditional is open), and that is when `#elif`, `#else` and
`#endif` are rejected as unbalanced. -/
theorem nesting_depth_invariant (ext : Ext) (s0 : Pdstate) (ds : List (Dir × List Token))
    (hi : s0.iftaken = []) (hs : s0.skiplevel = 0) :
    0 ≤ (Nest.run ext ⟨s0, 0, 0⟩ ds).state.skiplevel ∧
    ((Nest.run ext ⟨s0, 0, 0⟩ ds).state.iftaken.length : Int)
        + max ((Nest.run ext ⟨s0, 0, 0⟩ ds).state.skiplevel - 1) 0
      = ((Nest.run ext ⟨s0, 0, 0⟩ ds).ifs : Int) - ((Nest.run ext ⟨s0, 0, 0⟩ ds).endifs : Int) ∧
    (0 < (Nest.run ext ⟨s0, 0, 0⟩ ds).state.skiplevel →
      (Nest.run ext ⟨s0, 0, 0⟩ ds).state.iftaken ≠ []) ∧
    ((Nest.run ext ⟨s0, 0, 0⟩ ds).state.iftaken = [] ↔
      (Nest.run ext ⟨s0, 0, 0⟩ ds).ifs = (Nest.run ext ⟨s0, 0, 0⟩ ds).endifs) ∧
    (∀ line : List Token,
      (Nest.run ext ⟨s0, 0, 0⟩ ds).ifs = (Nest.run ext ⟨s0, 0, 0⟩ ds).endifs →
      run_dir ext (.d_elif, line) (Nest.run ext ⟨s0, 0, 0⟩ ds).state
        = eat_to_eol (({ (Nest.run ext ⟨s0, 0, 0⟩ ds).state with input := line } : Pdstate).error
            .E_ERR "Unbalanced #elif") ∧
      run_dir ext (.d_else, line) (Nest.run ext ⟨s0, 0, 0⟩ ds).state
        = eat_to_eol (({ (Nest.run ext ⟨s0, 0, 0⟩ ds).state with input := line } : Pdstate).error
            .E_ERR "Unbalanced #else") ∧
      run_dir ext (.d_endif, line) (Nest.run ext ⟨s0, 0, 0⟩ ds).state
        = eat_to_eol (({ (Nest.run ext ⟨s0, 0, 0⟩ ds).state with input := line } : Pdstate).error
            .E_ERR "Unbalanced #endif")) := by
  have h := nest_run_inv ext ds ⟨s0, 0, 0⟩ (by simp [hs]) (by simp [hi, hs])
    (by simp [hs])
  generalize Nest.run ext ⟨s0, 0, 0⟩ ds = n at h ⊢
  obtain ⟨h0, h1, h2⟩ := h
  have hiff : n.state.iftaken = [] ↔ n.ifs = n.endifs := by
    constructor
    · intro he
      have hle : n.state.skiplevel ≤ 0 := by
        by_contra hc
        exact h2 (by omega) he
      rw [he, max_eq_right (by omega)] at h1
      simp only [List.length_nil, Nat.cast_zero, zero_add] at h1
      omega
    · intro he
      rw [he] at h1
      have : (n.state.iftaken.length : Int) = 0 := by
        have := le_max_right (n.state.skiplevel - 1) 0
        omega
      exact List.length_eq_zero.mp (by exact_mod_cast this)
  refine ⟨h0, h1, h2, hiff, ?_⟩
  intro line he
  have hnil := hiff.mpr he
  simp only [run_dir, process_elif, process_else, process_endif, hnil, and_self]

/-- Instance: after `#if`, `#if`, `#endif` from the initial state one
conditional is open. -/
theorem nesting_depth_invariant_witness :
    (Pdstate.init []).iftaken = [] ∧ (Pdstate.init []).skiplevel = 0 ∧
    ((Nest.run sampleExt ⟨Pdstate.init [], 0, 0⟩
        [(.d_if, [tok PP_NUMBER "0" 3, tok NL "\n" 4]), (.d_if, [tok NL "\n" 9]),
         (.d_endif, [tok NL "\n" 20])]).state.iftaken = [] ↔
      (Nest.run sampleExt ⟨Pdstate.init [], 0, 0⟩
        [(.d_if, [tok PP_NUMBER "0" 3, tok NL "\n" 4]), (.d_if, [tok NL "\n" 9]),
         (.d_endif, [tok NL "\n" 20])]).ifs =
      (Nest.run sampleExt ⟨Pdstate.init [], 0, 0⟩
        [(.d_if, [tok PP_NUMBER "0" 3, tok NL "\n" 4]), (.d_if, [tok NL "\n" 9]),
         (.d_endif, [tok NL "\n" 20])]).endifs) :=
  ⟨rfl, rfl,
   (nesting_depth_invariant sampleExt (Pdstate.init [])
      [(.d_if, [tok PP_NUMBER "0" 3, tok NL "\n" 4]), (.d_if, [tok NL "\n" 9]),
       (.d_endif, [tok NL "\n" 20])] rfl rfl).2.2.2.1⟩

/-! ## The comparison `idcmp` -/

/-- The loop of `idcmp` decides exactly the lexicographic order of what the
iterators visit. -/
theorem rev_loop_iff (a : List Char) : ∀ b : List Char, rev_loop a b = true ↔ lex_lt a b := by
  induction a with
  | nil =>
    intro b
    cases b with
    | nil =>
      simp only [rev_loop, Bool.false_eq_true, false_iff]
      rintro (⟨r, hr, h⟩ | ⟨p, x, y, ra, rb, h, _, _⟩)
      · exact hr (by simpa using h.symm)
      · simp at h
    | cons y rb =>
      simp only [rev_loop, true_iff]
      exact Or.inl ⟨y :: rb, by simp, rfl⟩
  | cons x ra ih =>
    intro b
    cases b with
    | nil =>
      simp only [rev_loop, Bool.false_eq_true, false_iff]
      rintro (⟨r, _, h⟩ | ⟨p, x, y, ra, rb, _, h, _⟩)
      · simp at h
      · simp at h
    | cons y rb =>
      rw [rev_loop]
      by_cases hxy : x = y
      · subst hxy
        simp only [ne_eq, not_true_eq_false, if_false]
        rw [ih rb]
        constructor
        · rintro (⟨r, hr, h⟩ | ⟨p, u, v, ta, tb, h1, h2, h3⟩)
          · exact Or.inl ⟨r, hr, by rw [h]; rfl⟩
          · exact Or.inr ⟨x :: p, u, v, ta, tb, by rw [h1]; rfl, by rw [h2]; rfl, h3⟩
        · rintro (⟨r, hr, h⟩ | ⟨p, u, v, ta, tb, h1, h2, h3⟩)
          · exact Or.inl ⟨r, hr, by simpa using h⟩
          · cases p with
            | nil =>
              simp only [List.nil_append, List.cons.injEq] at h1 h2
              rw [← h1.1, ← h2.1] at h3
              exact absurd h3 (lt_irrefl x)
            | cons z p =>
              simp only [List.cons_append, List.cons.injEq] at h1 h2
              exact Or.inr ⟨p, u, v, ta, tb, h1.2, h2.2, h3⟩
      · simp only [ne_eq, hxy, not_false_eq_true, if_true, decide_eq_true_eq]
        constructor
        · intro h
          exact Or.inr ⟨[], x, y, ra, rb, rfl, rfl, h⟩
        · rintro (⟨r, hr, h⟩ | ⟨p, u, v, ta, tb, h1, h2, h3⟩)
          · simp only [List.cons_append, List.cons.injEq] at h
            exact absurd h.1.symm hxy
          · cases p with
            | nil =>
              simp only [List.nil_append, List.cons.injEq] at h1 h2
              rw [h1.1, h2.1]; exact h3
            | cons z p =>
              simp only [List.cons_append, List.cons.injEq] at h1 h2
              exact absurd (h1.1.trans h2.1.symm) hxy

/-- A negative result of `compare` is a `true` of the loop. -/
theorem string_compare_neg (a : List Char) :
    ∀ b : List Char, string_compare a b < 0 ↔ rev_loop a b = true := by
  induction a with
  | nil => intro b; cases b <;> simp [string_compare, rev_loop]
  | cons x ra ih =>
    intro b
    cases b with
    | nil => simp [string_compare, rev_loop]
    | cons y rb =>
      rw [string_compare, rev_loop]
      rcases lt_trichotomy x y with h | h | h
      · simp [h, ne_of_lt h]
      · subst h
        simp [lt_irrefl, ih rb]
      · have h1 : ¬ x < y := not_lt_of_gt h
        simp [h, h1, ne_of_gt h]

/-- The loop never holds of a list and itself. -/
theorem rev_loop_irrefl (a : List Char) : rev_loop a a = false := by
  induction a with
  | nil => rfl
  | cons x r ih => simp [rev_loop, ih]

/-- The loop does not hold both ways. -/
theorem rev_loop_asymm (a : List Char) :
    ∀ b : List Char, rev_loop a b = true → rev_loop b a = false := by
  induction a with
  | nil => intro b; cases b <;> simp [rev_loop]
  | cons x ra ih =>
    intro b
    cases b with
    | nil => simp [rev_loop]
    | cons y rb =>
      rw [rev_loop, rev_loop]
      by_cases hxy : x = y
      · subst hxy
        simpa using ih rb
      · have hyx : ¬ y = x := fun h => hxy h.symm
        simp only [ne_eq, hxy, hyx, not_false_eq_true, if_true, decide_eq_true_eq,
          decide_eq_false_iff_not]
        exact fun h => not_lt_of_gt h

/-- The loop is transitive. -/
theorem rev_loop_trans (a : List Char) :
    ∀ b c : List Char, rev_loop a b = true → rev_loop b c = true → rev_loop a c = true := by
  induction a with
  | nil =>
    intro b c
    cases b with
    | nil => simp [rev_loop]
    | cons y rb => cases c <;> simp [rev_loop]
  | cons x ra ih =>
    intro b c
    cases b with
    | nil => simp [rev_loop]
    | cons y rb =>
      cases c with
      | nil => simp [rev_loop]
      | cons z rc =>
        rw [rev_loop, rev_loop, rev_loop]
        by_cases hxy : x = y
        · subst hxy
          by_cases hxz : x = z
          · subst hxz
            simpa using ih rb rc
          · simp [hxz]
        · by_cases hyz : y = z
          · subst hyz
            simp only [ne_eq, hxy, not_false_eq_true, if_true, decide_eq_true_eq,
              not_true_eq_false, if_false]
            exact fun h _ => h
          · simp only [ne_eq, hxy, hyz, not_false_eq_true, if_true, decide_eq_true_eq]
            intro h1 h2
            have h3 := lt_trans h1 h2
            simp [ne_of_lt h3, h3]

/-- Two lists that the loop orders neither way are equal. -/
theorem rev_loop_total (a : List Char) :
    ∀ b : List Char, rev_loop a b = false → rev_loop b a = false → a = b := by
  induction a with
  | nil => intro b; cases b <;> simp [rev_loop]
  | cons x ra ih =>
    intro b
    cases b with
    | nil => simp [rev_loop]
    | cons y rb =>
      rw [rev_loop, rev_loop]
      by_cases hxy : x = y
      · subst hxy
        simp only [ne_eq, not_true_eq_false, if_false, List.cons.injEq, true_and]
        exact ih rb
      · have hyx : ¬ y = x := fun h => hxy h.symm
        simp only [ne_eq, hxy, hyx, not_false_eq_true, if_true, decide_eq_false_iff_not,
          List.cons.injEq, false_and, imp_false, not_not]
        intro h1
        rcases lt_trichotomy x y with h | h | h
        · exact absurd h h1
        · exact absurd h hxy
        · exact h

/-- What `idcmp` decides, by the loop, in both modes. -/
theorem idcmp_eq_loop (r : Bool) (a b : Identifier) :
    idcmp r a b = rev_loop (if r then a.id.data.reverse else a.id.data)
      (if r then b.id.data.reverse else b.id.data) := by
  cases r with
  | true => rfl
  | false =>
    simp only [idcmp, Bool.false_eq_true, if_false]
    cases h : rev_loop a.id.data b.id.data with
    | true => simpa using (string_compare_neg _ _).mpr h
    | false =>
      simp only [decide_eq_false_iff_not]
      intro hc
      rw [(string_compare_neg _ _).mp hc] at h
      cases h

/-- Claim C23: with `sort_rev` set `idcmp` holds of `a` and `b` exactly when
the reversed name of `a` is lexicographically smaller than the reversed name
of `b`, so that a proper end of a name sorts before the name; with `sort_rev`
clear it holds exactly when the name of `a` is lexicographically smaller than
the name of `b`. In both modes `idcmp` is irreflexive, asymmetric and
transitive, and two identifiers that it orders neither way have the same
name, which makes it a strict weak ordering. -/
theorem idcmp_lexicographic (a b c : Identifier) :
    (idcmp true a b = true ↔ lex_lt a.id.data.reverse b.id.data.reverse) ∧
    (idcmp false a b = true ↔ lex_lt a.id.data b.id.data) ∧
    (∀ pre : List Char, pre ≠ [] → b.id.data = pre ++ a.id.data → idcmp true a b = true) ∧
    (∀ r : Bool, idcmp r a a = false) ∧
    (∀ r : Bool, idcmp r a b = true → idcmp r b a = false) ∧
    (∀ r : Bool, idcmp r a b = true → idcmp r b c = true → idcmp r a c = true) ∧
    (∀ r : Bool, idcmp r a b = false → idcmp r b a = false → a.id = b.id) := by
  refine ⟨?_, ?_, ?_, ?_, ?_, ?_, ?_⟩
  · rw [idcmp_eq_loop]; exact rev_loop_iff _ _
  · rw [idcmp_eq_loop]; exact rev_loop_iff _ _
  · intro pre hpre hb
    rw [idcmp_eq_loop]
    refine (rev_loop_iff _ _).mpr (Or.inl ⟨pre.reverse, by simpa using hpre, ?_⟩)
    simp [hb]
  · intro r; rw [idcmp_eq_loop]; exact rev_loop_irrefl _
  · intro r; rw [idcmp_eq_loop, idcmp_eq_loop]; exact rev_loop_asymm _ _
  · intro r; rw [idcmp_eq_loop, idcmp_eq_loop, idcmp_eq_loop]; exact rev_loop_trans _ _ _
  · intro r h1 h2
    rw [idcmp_eq_loop] at h1 h2
    have := rev_loop_total _ _ h1 h2
    apply String.ext
    cases r with
    | true => simpa using this
    | false => simpa using this

/-- Instance: `ab` sorts before `xab` from the end, and not the other way. -/
theorem idcmp_lexicographic_witness :
    idcmp true { id := "ab", newid := "", xfile := false, replaced := false }
      { id := "xab", newid := "", xfile := false, replaced := false } = true ∧
    idcmp true { id := "xab", newid := "", xfile := false, replaced := false }
      { id := "ab", newid := "", xfile := false, replaced := false } = false :=
  ⟨(idcmp_lexicographic { id := "ab", newid := "", xfile := false, replaced := false }
      { id := "xab", newid := "", xfile := false, replaced := false }
      { id := "c", newid := "", xfile := false, replaced := false }).2.2.1 ['x'] (by decide) rfl,
   (idcmp_lexicographic { id := "ab", newid := "", xfile := false, replaced := false }
      { id := "xab", newid := "", xfile := false, replaced := false }
      { id := "c", newid := "", xfile := false, replaced := false }).2.2.2.2.1 true (by decide)⟩

/-! ## The body of a macro -/

/-- With a head that is accepted, `process_define` is its body loop followed
by `define_finish`. -/
theorem process_define_header (ext : Ext) (s : Pdstate) (h : Header)
    (hh : define_header s = some h) :
    process_define ext s = (gather_body ext h.args true h.t h.inp [] []).map
      (define_finish ext { s with context := .cpp_define } h.name_token h.is_function
        h.formal_args) := by
  unfold define_header at hh
  unfold process_define
  simp only [] at hh ⊢
  by_cases c1 : (getnext_nospc s.input).1.code ≠ IDENTIFIER
  · rw [if_pos c1] at hh; cases hh
  rw [if_neg c1] at hh ⊢
  by_cases c2 : (lex_getnext (getnext_nospc s.input).2).1.code = LPAREN
  · rw [if_pos c2] at hh ⊢
    by_cases c3 : (getnext_nospc (lex_getnext (getnext_nospc s.input).2).2).1.code ≠ RPAREN
    · rw [if_pos c3] at hh ⊢
      cases hg : gather_formals true (lex_getnext (getnext_nospc s.input).2).2 [] [] with
      | bad msg inp => rw [hg] at hh; cases hh
      | ok args fa t3 inp3 =>
        rw [hg] at hh
        simp only [Option.some.injEq] at hh
        subst hh
        rfl
    · rw [if_neg c3] at hh ⊢
      simp only [Option.some.injEq] at hh
      subst hh
      rfl
  · rw [if_neg c2] at hh ⊢
    simp only [Option.some.injEq] at hh
    subst hh
    rfl

/-- The `args` map of the parameter loop finds, for a name, the last formal
argument of that name. -/
theorem gather_formals_lookup (inp : List Token) :
    ∀ (want_name : Bool) (args : List (String × Token)) (fa : List Token)
      (args1 : List (String × Token)) (fa1 : List Token) (t3 : Token) (inp3 : List Token),
      gather_formals want_name inp args fa = .ok args1 fa1 t3 inp3 →
      (∀ v : String, args.lookup v = fa.reverse.find? (fun f => f.val == v)) →
      ∀ v : String, args1.lookup v = fa1.reverse.find? (fun f => f.val == v) := by
  induction inp with
  | nil =>
    intro w args fa args1 fa1 t3 inp3 h
    unfold gather_formals at h
    split at h <;> cases h
  | cons t rest ih =>
    intro w args fa args1 fa1 t3 inp3 h hinv
    unfold gather_formals at h
    split at h
    · exact ih _ _ _ _ _ _ _ h hinv
    · split at h
      · split at h
        · cases h
        · refine ih _ _ _ _ _ _ _ h ?_
          intro v
          simp only [List.reverse_append, List.reverse_cons, List.reverse_nil, List.nil_append,
            List.singleton_append, List.find?_cons, List.lookup_cons]
          rw [hinv v]
          by_cases hv : v = t.val
          · subst hv; simp
          · have h1 : (v == t.val) = false := by simpa using hv
            have h2 : (t.val == v) = false := by simpa using fun h => hv h.symm
            rw [h1, h2]
      · split at h
        · simp only [Formals.ok.injEq] at h
          obtain ⟨rfl, rfl, _, _⟩ := h
          exact hinv
        · split at h
          · cases h
          · exact ih _ _ _ _ _ _ _ h hinv

/-- The `args` map of an accepted head finds the last formal argument of a
name. -/
theorem define_header_lookup (s : Pdstate) (h : Header) (hh : define_header s = some h) :
    ∀ v : String, h.args.lookup v = h.formal_args.reverse.find? (fun f => f.val == v) := by
  unfold define_header at hh
  simp only [] at hh
  split at hh
  · cases hh
  · split at hh
    · split at hh
      · cases hg : gather_formals true (lex_getnext (getnext_nospc s.input).2).2 [] [] with
        | bad msg inp => rw [hg] at hh; cases hh
        | ok args fa t3 inp3 =>
          rw [hg] at hh
          simp only [Option.some.injEq] at hh
          subst hh
          exact gather_formals_lookup _ _ _ _ _ _ _ _ hg (fun v => rfl)
      · simp only [Option.some.injEq] at hh
        subst hh
        intro v; rfl
    · simp only [Option.some.injEq] at hh
      subst hh
      intro v; rfl

/-- The body loop on a line that a newline ends: it leaves with the tokens
before the newline, the leading whitespace dropped while `lead` holds, each
one unified by its spelling with the entry of `args`. -/
theorem gather_body_line (ext : Ext) (args : List (String × Token)) (nl : Token)
    (rest : List Token) (hnl : nl.code = NL) (pre : List Token) :
    ∀ (lead : Bool) (t : Token) (inp value : List Token) (unified : List (Token × Token)),
      t :: inp = pre ++ nl :: rest → (∀ x ∈ pre, x.code ≠ NL) →
      gather_body ext args lead t inp value unified =
        some (value ++ (if lead then pre.dropWhile ext.is_space else pre),
          unified ++ (if lead then pre.dropWhile ext.is_space else pre).flatMap (fun t =>
            match args.lookup t.val with
            | some formal => [(t, formal)]
            | none => []), rest) := by
  induction pre with
  | nil =>
    intro lead t inp value unified hl _
    simp only [List.nil_append, List.cons.injEq] at hl
    obtain ⟨rfl, rfl⟩ := hl
    rw [gather_body.eq_def, if_pos hnl]
    cases lead <;> simp
  | cons a pre ih =>
    intro lead t inp value unified hl hpre
    simp only [List.cons_append, List.cons.injEq] at hl
    obtain ⟨rfl, rfl⟩ := hl
    have ha : t.code ≠ NL := hpre t (List.mem_cons_self _ _)
    have hpre1 : ∀ x ∈ pre, x.code ≠ NL := fun x hx => hpre x (List.mem_cons_of_mem _ hx)
    obtain ⟨t2, inp2, h2⟩ : ∃ t2 inp2, pre ++ nl :: rest = t2 :: inp2 := by
      cases pre with
      | nil => exact ⟨nl, rest, rfl⟩
      | cons b r => exact ⟨b, r ++ nl :: rest, rfl⟩
    rw [h2, gather_body, if_neg ha]
    by_cases hs : (lead && ext.is_space t) = true
    · rw [if_pos hs]
      simp only [Bool.and_eq_true] at hs
      rw [ih true t2 inp2 value unified h2.symm hpre1]
      simp [hs.1, hs.2]
    · rw [if_neg hs]
      rw [ih false t2 inp2 _ _ h2.symm hpre1]
      cases lead with
      | false => simp
      | true =>
        have : ext.is_space t = false := by simpa using hs
        simp [this]

/-- An object-like head has no formal arguments. -/
theorem define_header_object (s : Pdstate) (h : Header) (hh : define_header s = some h)
    (ho : h.is_function = false) : h.formal_args = [] := by
  unfold define_header at hh
  simp only [] at hh
  split at hh
  · cases hh
  · split at hh
    · split at hh
      · split at hh
        · cases hh
        · simp only [Option.some.injEq] at hh
          subst hh
          cases ho
      · simp only [Option.some.injEq] at hh
        subst hh
        rfl
    · simp only [Option.some.injEq] at hh
      subst hh
      rfl

/-- The unifications after `define_finish` are the old ones and those of the
body loop. -/
theorem define_finish_unified (ext : Ext) (s : Pdstate) (name_token : Token) (isf : Bool)
    (fa : List Token) (body : List Token × List (Token × Token) × List Token) :
    (define_finish ext s name_token isf fa body).unified = s.unified ++ body.2.1 := by
  unfold define_finish
  simp only []
  split
  · split <;> rfl
  · rfl

/-- Claim C24, as stated, fails: for the line `#define A x ` the tokens from
the first one that is not whitespace up to the newline are `x` and a space,
and the body stored is `x` alone, `value_rtrim` having removed the space. -/
theorem trailing_space_not_stored :
    (process_define sampleExt (Pdstate.init define_A_trailing)).bind
        (fun s1 => (macros_find s1.macros "A").map (fun m => m.value))
      = some [tok IDENTIFIER "x" 10] ∧
    (define_header (Pdstate.init define_A_trailing)).map (fun h => h.t :: h.inp)
      = some [tok SPACE " " 9, tok IDENTIFIER "x" 10, tok SPACE " " 11, tok NL "\n" 12] ∧
    [tok SPACE " " 9, tok IDENTIFIER "x" 10, tok SPACE " " 11].dropWhile sampleExt.is_space
      = [tok IDENTIFIER "x" 10, tok SPACE " " 11] := by
  decide

/-- Claim C24, amended: for a `#define` whose name and parameter list are
accepted and whose line a newline ends, `pre` being the tokens between the
name or parameter list and the newline, `process_define` returns; the body
stored is `pre` from its first token that is not whitespace on, with the
trailing whitespace removed as `value_rtrim` does and the whitespace in
between kept; the unifications made are, for every token of `pre` from the
first one that is not whitespace on whose spelling is the name of a formal
argument, the token with the token of that argument in the parameter list,
and no other; an object-like macro makes none. -/
theorem define_body_trimmed_and_unified (ext : Ext) (hrt : ext.rtrim_ok) (s : Pdstate)
    (h : Header) (pre : List Token) (nl : Token) (rest : List Token)
    (hh : define_header s = some h) (hline : h.t :: h.inp = pre ++ nl :: rest)
    (hpre : ∀ x ∈ pre, x.code ≠ NL) (hnl : nl.code = NL) :
    ∃ (s1 : Pdstate) (m : Macro), process_define ext s = some s1 ∧
      macros_find s1.macros h.name_token.val = some m ∧
      m.value = ((pre.dropWhile ext.is_space).reverse.dropWhile ext.is_space).reverse ∧
      s1.unified = s.unified ++ unify_calls h.formal_args (pre.dropWhile ext.is_space) ∧
      (h.is_function = false → s1.unified = s.unified) := by
  have hg := gather_body_line ext h.args nl rest hnl pre true h.t h.inp [] [] hline hpre
  simp only [if_true, List.nil_append] at hg
  have hfun : (fun t : Token =>
      match h.args.lookup t.val with
      | some formal => [(t, formal)]
      | none => []) = (fun t : Token =>
      match h.formal_args.reverse.find? (fun f => f.val == t.val) with
      | some formal => [(t, formal)]
      | none => []) := by
    funext t
    rw [define_header_lookup s h hh t.val]
  rw [hfun] at hg
  have hp := process_define_header ext s h hh
  rw [hg, Option.map_some'] at hp
  have hpost := define_finish_post ext { s with context := .cpp_define } h.name_token
    h.is_function h.formal_args
    (pre.dropWhile ext.is_space,
      (pre.dropWhile ext.is_space).flatMap (fun t : Token =>
        match h.formal_args.reverse.find? (fun f => f.val == t.val) with
        | some formal => [(t, formal)]
        | none => []), rest) _ rfl
  have hu := define_finish_unified ext { s with context := .cpp_define } h.name_token
    h.is_function h.formal_args
    (pre.dropWhile ext.is_space,
      (pre.dropWhile ext.is_space).flatMap (fun t : Token =>
        match h.formal_args.reverse.find? (fun f => f.val == t.val) with
        | some formal => [(t, formal)]
        | none => []), rest)
  refine ⟨_, _, hp, hpost.1, hrt _, hu, ?_⟩
  intro ho
  rw [hu]
  have := define_header_object s h hh ho
  simp [this]

/-- Instance: `#define A(x) x` unifies the `x` of the body with the formal
argument. -/
theorem define_body_trimmed_and_unified_witness :
    ∃ (s1 : Pdstate) (m : Macro),
      process_define sampleExt (Pdstate.init define_A_function) = some s1 ∧
      macros_find s1.macros "A" = some m ∧
      m.value = [tok IDENTIFIER "x" 13] ∧
      s1.unified = [(tok IDENTIFIER "x" 13, tok IDENTIFIER "x" 10)] ∧
      ((true = false) → s1.unified = []) :=
  define_body_trimmed_and_unified sampleExt sampleExt_rtrim_ok (Pdstate.init define_A_function)
    ⟨tok IDENTIFIER "A" 8, true, [("x", tok IDENTIFIER "x" 10)], [tok IDENTIFIER "x" 10],
      tok SPACE " " 12, [tok IDENTIFIER "x" 13, tok NL "\n" 14]⟩
    [tok SPACE " " 12, tok IDENTIFIER "x" 13] (tok NL "\n" 14) [] rfl rfl (by decide) rfl

/-! ## The rows of a file -/

/-- Claim C22, evaluated on the code: in the state `s_saw_slash` the slash is
held back, and an identifier that follows it flushes the chunk without it.
For the file `a/b;` with the identifiers `a` and `b` the rows are `TOKENS`
at 0, `TOKENS` at 2 and `REST` at 3 with the text `/;`: the slash comes after
the `b`, under an offset that is not its own, and the rows do not cover the
file. For the file `x/` the only row is `REST` at 0 with the text `x`: the
slash is lost. Without a slash, as in `a+b;`, the rows cover the file. -/
theorem file_dump_slash_held_back :
    file_dump (world_of_file ['a', '/', 'b', ';'] [0, 2]) (fun _ => true) 1
      = some [⟨"TOKENS", 0, ['a']⟩, ⟨"TOKENS", 2, ['b']⟩, ⟨"REST", 3, ['/', ';']⟩] ∧
    (file_dump (world_of_file ['a', '/', 'b', ';'] [0, 2]) (fun _ => true) 1).map
      (fun rows => covers_file rows ['a', '/', 'b', ';']) = some false ∧
    file_dump (world_of_file ['x', '/'] []) (fun _ => true) 1 = some [⟨"REST", 0, ['x']⟩] ∧
    (file_dump (world_of_file ['x', '/'] []) (fun _ => true) 1).map
      (fun rows => covers_file rows ['x', '/']) = some false ∧
    file_dump (world_of_file ['a', '+', 'b', ';'] [0, 2]) (fun _ => true) 1
      = some [⟨"TOKENS", 0, ['a']⟩, ⟨"REST", 1, ['+']⟩, ⟨"TOKENS", 2, ['b']⟩,
          ⟨"REST", 3, [';']⟩] ∧
    (file_dump (world_of_file ['a', '+', 'b', ';'] [0, 2]) (fun _ => true) 1).map
      (fun rows => covers_file rows ['a', '+', 'b', ';']) = some true := by
  refine ⟨by decide, by decide, by decide, by decide, by decide, by decide⟩

/-! ## The lexical analyser of `#if` expressions -/

/-- Claim C21, as stated, fails: for the spelling `10u`, an integer constant
with a suffix, `strtol` stops at the `u` and `eval_lex` returns
`FLOAT_CONST`; for `0xFFFFFFFFFFFFFFFF`, a hexadecimal constant of the value
18446744073709551615, `eval_lex` returns `INT_CONST` with `eval_lval` at the
largest `long`. -/
theorem eval_lex_suffix_and_range :
    eval_lex (fun s => (0, s)) 7 [Token.ofVal PP_NUMBER "10u"]
      = ⟨FLOAT_CONST, 10, [], []⟩ ∧
    IntConstant "0xFFFFFFFFFFFFFFFF".data 18446744073709551615 ∧
    eval_lex (fun s => (0, s)) 7 [Token.ofVal PP_NUMBER "0xFFFFFFFFFFFFFFFF"]
      = ⟨INT_CONST, 9223372036854775807, [], []⟩ := by
  refine ⟨by decide, ?_, by decide⟩
  exact IntConstant.hexadecimal 'x' 'F' "FFFFFFFFFFFFFFF".data (Or.inl rfl) (by decide)

/-- A digit of some base has a character code from 48 on. -/
theorem valid_digit_code (base : Nat) (d : Char) (h : valid_digit base d = true) :
    48 ≤ d.toNat := by
  unfold valid_digit digit_value at h
  by_cases h1 : 48 ≤ d.toNat ∧ d.toNat ≤ 57
  · exact h1.1
  · rw [if_neg h1] at h
    by_cases h2 : 97 ≤ d.toNat ∧ d.toNat ≤ 122
    · omega
    · rw [if_neg h2] at h
      by_cases h3 : 65 ≤ d.toNat ∧ d.toNat ≤ 90
      · omega
      · rw [if_neg h3] at h
        cases h

/-- A digit of a base is a digit of every larger base. -/
theorem valid_digit_mono (b1 b2 : Nat) (hb : b1 ≤ b2) (d : Char)
    (h : valid_digit b1 d = true) : valid_digit b2 d = true := by
  unfold valid_digit at h ⊢
  cases hd : digit_value d with
  | none => rw [hd] at h; cases h
  | some k =>
    rw [hd] at h
    simp only [decide_eq_true_eq] at h ⊢
    omega

/-- A digit is neither white space nor a sign. -/
theorem valid_digit_plain (base : Nat) (d : Char) (h : valid_digit base d = true) :
    isspace d = false ∧ d ≠ '-' ∧ d ≠ '+' := by
  have hc := valid_digit_code base d h
  refine ⟨?_, ?_, ?_⟩
  · unfold isspace
    simp only [decide_eq_false_iff_not]
    omega
  · rintro rfl
    revert hc
    decide
  · rintro rfl
    revert hc
    decide

/-- On digits of the base the digit loop reads everything and collects their
value. -/
theorem strtol_digits_all (base : Nat) (cs : List Char) :
    ∀ acc : Nat, (∀ c ∈ cs, valid_digit base c = true) →
      strtol_digits base acc cs =
        (cs.foldl (fun a c => a * base + (digit_value c).getD 0) acc, []) := by
  induction cs with
  | nil => intro acc _; rfl
  | cons c rest ih =>
    intro acc h
    rw [strtol_digits, if_pos (h c (List.mem_cons_self _ _))]
    rw [ih _ (fun x hx => h x (List.mem_cons_of_mem _ hx))]
    rfl

/-- A character that is not a digit of the base is not read by the digit
loop. -/
theorem strtol_digits_stop (base : Nat) (c : Char) (hc : valid_digit base c = false)
    (cs : List Char) :
    ∀ acc : Nat, c ∈ cs → (strtol_digits base acc cs).2 ≠ [] := by
  induction cs with
  | nil => intro acc h; cases h
  | cons x rest ih =>
    intro acc h
    rw [strtol_digits]
    by_cases hx : valid_digit base x = true
    · rw [if_pos hx]
      rcases List.mem_cons.mp h with h1 | h1
      · rw [← h1, hc] at hx; cases hx
      · exact ih _ h1
    · rw [if_neg hx]
      simp

/-- The call of `strtol` on characters that start with neither white space
nor a sign. -/
theorem strtol_plain (d : Char) (ds : List Char) (hsp : isspace d = false) (hm : d ≠ '-')
    (hp : d ≠ '+') :
    strtol (d :: ds) =
      (if (strtol_digits (if hex_start (d :: ds) then 16 else if d = '0' then 8 else 10) 0
            (if hex_start (d :: ds) then ds.drop 1 else d :: ds)).2.length
          = (if hex_start (d :: ds) then ds.drop 1 else d :: ds).length then (0, d :: ds)
       else
        ((if ((strtol_digits (if hex_start (d :: ds) then 16 else if d = '0' then 8 else 10) 0
              (if hex_start (d :: ds) then ds.drop 1 else d :: ds)).1 : Int) > LONG_MAX
          then LONG_MAX
          else ((strtol_digits (if hex_start (d :: ds) then 16 else if d = '0' then 8 else 10) 0
              (if hex_start (d :: ds) then ds.drop 1 else d :: ds)).1 : Int)),
         (strtol_digits (if hex_start (d :: ds) then 16 else if d = '0' then 8 else 10) 0
            (if hex_start (d :: ds) then ds.drop 1 else d :: ds)).2)) := by
  have h1 : (d :: ds).dropWhile isspace = d :: ds := by
    simp [List.dropWhile, hsp]
  have hnn : ∀ n : Nat, ((n : Int) < LONG_MIN) = False := by
    intro n
    simp only [LONG_MIN, eq_iff_iff, iff_false]
    omega
  unfold strtol
  simp only [h1, List.head?_cons, Option.some.injEq, hm, hp, or_self, if_false,
    decide_False, Bool.false_eq_true, List.drop_succ_cons, hnn]

/-- On an integer constant without a suffix whose value a `long` holds,
`strtol` gives the value and reads everything. -/
theorem strtol_int_constant (cs : List Char) (v : Nat) (h : IntConstant cs v)
    (hv : (v : Int) ≤ LONG_MAX) : strtol cs = ((v : Int), []) := by
  cases h with
  | decimal d ds hd hd0 hds =>
    obtain ⟨hsp, hm, hp⟩ := valid_digit_plain 10 d hd
    have hx : hex_start (d :: ds) = false := by
      unfold hex_start
      split
      · rename_i z x h r heq
        simp only [List.cons.injEq] at heq
        rw [← heq.1]
        simp [hd0]
      · rfl
    have hall : ∀ c ∈ d :: ds, valid_digit 10 c = true := by
      intro c hc
      rcases List.mem_cons.mp hc with h1 | h1
      · rw [h1]; exact hd
      · exact hds c h1
    rw [strtol_plain d ds hsp hm hp]
    simp only [hx, Bool.false_eq_true, if_false, hd0]
    rw [strtol_digits_all 10 (d :: ds) 0 hall]
    have hgt : ¬ ((digits_value 10 (d :: ds) : Nat) : Int) > LONG_MAX := by omega
    simp only [List.length_nil, List.length_cons]
    rw [if_neg (by omega)]
    unfold digits_value at hgt ⊢
    rw [if_neg hgt]
  | octal ds hds =>
    have hx : hex_start ('0' :: ds) = false := by
      unfold hex_start
      split
      · rename_i z x h r heq
        simp only [List.cons.injEq] at heq
        have hxv := hds x (by rw [heq.2]; exact List.mem_cons_self _ _)
        have h1 : x ≠ 'x' := by rintro rfl; revert hxv; decide
        have h2 : x ≠ 'X' := by rintro rfl; revert hxv; decide
        simp [h1, h2]
      · rfl
    have hall : ∀ c ∈ '0' :: ds, valid_digit 8 c = true := by
      intro c hc
      rcases List.mem_cons.mp hc with h1 | h1
      · rw [h1]; decide
      · exact hds c h1
    rw [strtol_plain '0' ds (by decide) (by decide) (by decide)]
    simp only [hx, Bool.false_eq_true, if_false, if_true]
    rw [strtol_digits_all 8 ('0' :: ds) 0 hall]
    have he : List.foldl (fun a c => a * 8 + (digit_value c).getD 0) 0 ('0' :: ds)
        = digits_value 8 ds := by
      unfold digits_value
      rw [List.foldl_cons]
      have : 0 * 8 + (digit_value '0').getD 0 = 0 := by decide
      rw [this]
    rw [he]
    have hgt : ¬ ((digits_value 8 ds : Nat) : Int) > LONG_MAX := by omega
    simp only [List.length_nil, List.length_cons]
    rw [if_neg (by omega), if_neg hgt]
  | hexadecimal x h hs hxx hall =>
    have hx : hex_start ('0' :: x :: h :: hs) = true := by
      have := hall h (List.mem_cons_self _ _)
      rcases hxx with rfl | rfl <;> simp [hex_start, this]
    rw [strtol_plain '0' (x :: h :: hs) (by decide) (by decide) (by decide)]
    simp only [hx, if_true, List.drop_succ_cons, List.drop_zero]
    rw [strtol_digits_all 16 (h :: hs) 0 hall]
    have hgt : ¬ ((digits_value 16 (h :: hs) : Nat) : Int) > LONG_MAX := by omega
    simp only [List.length_nil, List.length_cons]
    rw [if_neg (by omega)]
    unfold digits_value at hgt ⊢
    rw [if_neg hgt]

/-- Second component of a choice between two pairs. -/
theorem ite_snd_ne_nil (P : Prop) [Decidable P] (a b : Int) (l1 l2 : List Char)
    (h1 : l1 ≠ []) (h2 : l2 ≠ []) : (if P then (a, l1) else (b, l2)).2 ≠ [] := by
  split
  · exact h1
  · exact h2

/-- A character that the test of `dropWhile` refuses stays in the list. -/
theorem mem_dropWhile_of_false (p : Char → Bool) (c : Char) (hc : p c = false) (l : List Char) :
    c ∈ l → c ∈ l.dropWhile p := by
  induction l with
  | nil => intro h; cases h
  | cons a r ih =>
    intro h
    rw [List.dropWhile_cons]
    by_cases ha : p a = true
    · rw [if_pos ha]
      rcases List.mem_cons.mp h with h1 | h1
      · rw [h1, ha] at hc; cases hc
      · exact ih h1
    · rw [if_neg ha]; exact h

/-- A character that is neither white space, nor a sign, nor part of `0x`, nor
a hexadecimal digit is not read by `strtol`. -/
theorem strtol_stops (cs : List Char) (c : Char) (hmem : c ∈ cs) (hsp : isspace c = false)
    (hm : c ≠ '-') (hp : c ≠ '+') (h0 : c ≠ '0') (hx : c ≠ 'x') (hX : c ≠ 'X')
    (hd : valid_digit 16 c = false) : (strtol cs).2 ≠ [] := by
  have hs1 := mem_dropWhile_of_false isspace c hsp cs hmem
  have hs2 : c ∈ (if (cs.dropWhile isspace).head? = some '-' ∨
      (cs.dropWhile isspace).head? = some '+' then (cs.dropWhile isspace).tail
      else cs.dropWhile isspace) := by
    generalize cs.dropWhile isspace = s1 at hs1
    cases s1 with
    | nil => cases hs1
    | cons a r =>
      split
      · rename_i hsign
        simp only [List.head?_cons, Option.some.injEq] at hsign
        rcases List.mem_cons.mp hs1 with h1 | h1
        · rcases hsign with h2 | h2
          · exact absurd (h1.trans h2) hm
          · exact absurd (h1.trans h2) hp
        · exact h1
      · exact hs1
  unfold strtol
  simp only []
  generalize (if (cs.dropWhile isspace).head? = some '-' ∨
      (cs.dropWhile isspace).head? = some '+' then (cs.dropWhile isspace).tail
      else cs.dropWhile isspace) = s2 at hs2
  have hs3 : c ∈ (if hex_start s2 then s2.drop 2 else s2) := by
    split
    · rename_i hh
      unfold hex_start at hh
      split at hh
      · rename_i z x h r
        simp only [Bool.and_eq_true, Bool.or_eq_true, decide_eq_true_eq] at hh
        simp only [List.drop_succ_cons, List.drop_zero]
        rcases List.mem_cons.mp hs2 with h1 | h1
        · exact absurd (h1.trans hh.1.1) h0
        · rcases List.mem_cons.mp h1 with h2 | h2
          · rcases hh.1.2 with h3 | h3
            · exact absurd (h2.trans h3) hx
            · exact absurd (h2.trans h3) hX
          · exact h2
      · cases hh
    · exact hs2
  have hbase : valid_digit (if hex_start s2 then 16 else if s2.head? = some '0' then 8 else 10)
      c = false := by
    cases hv : valid_digit (if hex_start s2 then 16 else if s2.head? = some '0' then 8 else 10) c
    · rfl
    · have := valid_digit_mono _ 16 (by split <;> [omega; (split <;> omega)]) c hv
      rw [this] at hd
      cases hd
  have hstop := strtol_digits_stop _ c hbase _ 0 hs3
  have hcs : cs ≠ [] := by
    intro he
    rw [he] at hmem
    cases hmem
  exact ite_snd_ne_nil _ _ _ _ _ hcs hstop

/-- On a floating spelling `strtol` stops before the end. -/
theorem strtol_float (cs : List Char) (h : float_spelling cs) : (strtol cs).2 ≠ [] := by
  rcases h with h | h | h | ⟨ds, c, tail, hcs, hne, hds, hc⟩
  · exact strtol_stops cs '.' h (by decide) (by decide) (by decide) (by decide) (by decide)
      (by decide) (by decide)
  · exact strtol_stops cs 'p' h (by decide) (by decide) (by decide) (by decide) (by decide)
      (by decide) (by decide)
  · exact strtol_stops cs 'P' h (by decide) (by decide) (by decide) (by decide) (by decide)
      (by decide) (by decide)
  · cases ds with
    | nil => exact absurd rfl hne
    | cons d ds1 =>
      have hd := hds d (List.mem_cons_self _ _)
      obtain ⟨hsp, hm, hp⟩ := valid_digit_plain 10 d hd
      have hc8 : valid_digit 8 c = false := by rcases hc with rfl | rfl <;> decide
      have hc10 : valid_digit 10 c = false := by rcases hc with rfl | rfl <;> decide
      have hcx : c ≠ 'x' ∧ c ≠ 'X' := by rcases hc with rfl | rfl <;> decide
      have hx : hex_start (d :: (ds1 ++ c :: tail)) = false := by
        unfold hex_start
        split
        · rename_i z x h r heq
          simp only [List.cons.injEq] at heq
          have hxx : x ≠ 'x' ∧ x ≠ 'X' := by
            cases ds1 with
            | nil =>
              simp only [List.nil_append, List.cons.injEq] at heq
              rw [← heq.2.1]; exact hcx
            | cons e r1 =>
              simp only [List.cons_append, List.cons.injEq] at heq
              have he := hds e (List.mem_cons_of_mem _ (List.mem_cons_self _ _))
              rw [heq.2.1] at he
              constructor
              · rintro rfl; revert he; decide
              · rintro rfl; revert he; decide
          simp [hxx.1, hxx.2]
        · rfl
      have hmem : c ∈ d :: (ds1 ++ c :: tail) := by simp
      rw [hcs]
      show (strtol (d :: (ds1 ++ c :: tail))).2 ≠ []
      rw [strtol_plain d _ hsp hm hp]
      simp only [hx, Bool.false_eq_true, if_false]
      have hstop : (strtol_digits (if d = '0' then 8 else 10) 0
          (d :: (ds1 ++ c :: tail))).2 ≠ [] := by
        split
        · exact strtol_digits_stop 8 c hc8 _ 0 hmem
        · exact strtol_digits_stop 10 c hc10 _ 0 hmem
      exact ite_snd_ne_nil _ _ _ _ _ (by simp) hstop

/-- Claim C21, amended: for every `PP_NUMBER` token whose spelling is an
integer constant of C without a suffix (decimal, octal with leading `0`,
hexadecimal with leading `0x`) and of a value that a `long` holds, `eval_lex`
returns `INT_CONST` with `eval_lval` equal to the value of the constant; for
a `PP_NUMBER` with a floating spelling it returns `FLOAT_CONST`; whitespace
and newline tokens are skipped, and the end of the token list yields 0. -/
theorem eval_lex_number (unescape_char : List Char → Int × List Char) (lval : Int) :
    (∀ (t : Token) (rest : List Token) (v : Nat), t.code = PP_NUMBER →
      IntConstant t.val.data v → (v : Int) ≤ LONG_MAX →
      eval_lex unescape_char lval (t :: rest) = ⟨INT_CONST, (v : Int), rest, []⟩) ∧
    (∀ (t : Token) (rest : List Token), t.code = PP_NUMBER → float_spelling t.val.data →
      (eval_lex unescape_char lval (t :: rest)).code = FLOAT_CONST ∧
      (eval_lex unescape_char lval (t :: rest)).rest = rest) ∧
    (∀ (t : Token) (rest : List Token), (t.code = SPACE ∨ t.code = NL) →
      eval_lex unescape_char lval (t :: rest) = eval_lex unescape_char lval rest) ∧
    eval_lex unescape_char lval [] = ⟨0, lval, [], []⟩ := by
  refine ⟨?_, ?_, ?_, rfl⟩
  · intro t rest v hc hi hv
    have hn : ¬ (t.code = NL ∨ t.code = SPACE) := by rw [hc]; decide
    rw [eval_lex, if_neg hn, if_pos hc, strtol_int_constant _ v hi hv]
    simp
  · intro t rest hc hf
    have hn : ¬ (t.code = NL ∨ t.code = SPACE) := by rw [hc]; decide
    rw [eval_lex, if_neg hn, if_pos hc]
    simp [strtol_float _ hf]
  · intro t rest hc
    rw [eval_lex, if_pos (Or.comm.mp hc)]

/-- Instance: the token `0x1F` gives `INT_CONST` with the value 31. -/
theorem eval_lex_number_witness :
    (Token.ofVal PP_NUMBER "0x1F").code = PP_NUMBER ∧
    IntConstant (Token.ofVal PP_NUMBER "0x1F").val.data 31 ∧ ((31 : Nat) : Int) ≤ LONG_MAX ∧
    eval_lex (fun s => (0, s)) 7 [Token.ofVal PP_NUMBER "0x1F", Token.ofVal SPACE " "]
      = ⟨INT_CONST, ((31 : Nat) : Int), [Token.ofVal SPACE " "], []⟩ :=
  ⟨rfl, IntConstant.hexadecimal 'x' '1' ['F'] (Or.inl rfl) (by decide), by decide,
   (eval_lex_number (fun s => (0, s)) 7).1 (Token.ofVal PP_NUMBER "0x1F")
      [Token.ofVal SPACE " "] 31 rfl
      (IntConstant.hexadecimal 'x' '1' ['F'] (Or.inl rfl) (by decide)) (by decide)⟩

/-! ## Chains and blocks with a rejected `#define` in a body -/

/-- Claim C26, evaluated on the code at two chains without nested
conditionals whose first body holds the line `#define A(`, for every
collaborator that leaves the expressions `0` and `1` unexpanded and evaluates
them to 0 and 1. In `#if 0`, `#define A(`, `#elif 1`, `int a;`, `#endif` the
`#define` is processed although the body is skipped, and its recovery swallows
the `#elif 1` line: the tokens of `int a;`, the body of the first condition
that evaluates to nonzero, are discarded, and the first token returned is the
end of file. In `#if 1`, `#define A(`, `#else`, `2;`, `#endif` the recovery
swallows the `#else` line: the `2` of the `#else` body is returned, at
`skiplevel` 0, although the first condition is true. -/
theorem chain_body_directive_swallowed (ext : Ext) (fuel : Nat)
    (hexp0 : ext.expands []
      [tok SPACE " " 3, tok PP_NUMBER "0" 4, tok NL "\n" 5]
      [tok SPACE " " 3, tok PP_NUMBER "0" 4, tok NL "\n" 5] [])
    (hparse0 : ext.eval_parse [tok SPACE " " 3, tok PP_NUMBER "0" 4, tok NL "\n" 5] =
      ([], some 0))
    (hexp1 : ext.expands []
      [tok SPACE " " 3, tok PP_NUMBER "1" 4, tok NL "\n" 5]
      [tok SPACE " " 3, tok PP_NUMBER "1" 4, tok NL "\n" 5] [])
    (hparse1 : ext.eval_parse [tok SPACE " " 3, tok PP_NUMBER "1" 4, tok NL "\n" 5] =
      ([], some 1)) :
    getnext ext (fuel + 9) (Pdstate.init chain_elif_swallowed) =
      some (eofToken,
        { input := [], at_bol := false, expand := [], macros := [], iftaken := [],
          skiplevel := 0, context := .cpp_define,
          errors := [(.E_ERR, "Invalid macro parameter name")],
          unified := [] }) ∧
    getnext ext (fuel + 3) (Pdstate.init chain_else_swallowed) =
      some (tok PP_NUMBER "2" 23,
        { input := [tok 59 ";" 24, tok NL "\n" 25,
            tok HASH "#" 26, tok IDENTIFIER "endif" 27, tok NL "\n" 32],
          at_bol := false, expand := [], macros := [], iftaken := [true],
          skiplevel := 0, context := .cpp_define,
          errors := [(.E_ERR, "Invalid macro parameter name")],
          unified := [] }) := by
  constructor
  · obtain ⟨h1, h2, h3⟩ := hexp0
    have step1 : getnext ext (fuel + 9) (Pdstate.init chain_elif_swallowed) =
        getnext ext (fuel + 8)
          (process_if ext (Pdstate.init (chain_elif_swallowed.drop 2))) := rfl
    have hev := eval_ok ext (Pdstate.init (chain_elif_swallowed.drop 2)) []
      [tok SPACE " " 3, tok PP_NUMBER "0" 4, tok NL "\n" 5] [] 0 rfl
      (by erw [h1]; exact hparse0)
    have step2 : process_if ext (Pdstate.init (chain_elif_swallowed.drop 2)) =
        { Pdstate.init (chain_elif_swallowed.drop 5) with
          iftaken := [false], skiplevel := 1 } := by
      unfold process_if
      erw [hev, h2, h3]
      rfl
    rw [step1, step2]
    rfl
  · obtain ⟨h1, h2, h3⟩ := hexp1
    have step1 : getnext ext (fuel + 3) (Pdstate.init chain_else_swallowed) =
        getnext ext (fuel + 2)
          (process_if ext (Pdstate.init (chain_else_swallowed.drop 2))) := rfl
    have hev := eval_ok ext (Pdstate.init (chain_else_swallowed.drop 2)) []
      [tok SPACE " " 3, tok PP_NUMBER "1" 4, tok NL "\n" 5] [] 1 rfl
      (by erw [h1]; exact hparse1)
    have step2 : process_if ext (Pdstate.init (chain_else_swallowed.drop 2)) =
        { Pdstate.init (chain_else_swallowed.drop 5) with
          iftaken := [true], skiplevel := 0 } := by
      unfold process_if
      erw [hev, h2, h3]
      rfl
    rw [step1, step2]
    rfl

/-- Instance of the two chains with the sample collaborators. -/
theorem chain_body_directive_swallowed_witness :
    (getnext sampleExt 9 (Pdstate.init chain_elif_swallowed)).map
        (fun r => (r.1, r.2.skiplevel, r.2.iftaken)) = some (eofToken, 0, []) ∧
    (getnext sampleExt 3 (Pdstate.init chain_else_swallowed)).map
        (fun r => (r.1, r.2.skiplevel, r.2.iftaken)) =
      some (tok PP_NUMBER "2" 23, 0, [true]) :=
  ⟨congrArg (Option.map (fun r => (r.1, r.2.skiplevel, r.2.iftaken)))
      (chain_body_directive_swallowed sampleExt 0 ⟨rfl, rfl, rfl⟩ rfl ⟨rfl, rfl, rfl⟩ rfl).1,
   congrArg (Option.map (fun r => (r.1, r.2.skiplevel, r.2.iftaken)))
      (chain_body_directive_swallowed sampleExt 0 ⟨rfl, rfl, rfl⟩ rfl ⟨rfl, rfl, rfl⟩ rfl).2⟩

/-- Claim C27, evaluated on the code at a well-nested block met while
skipping: `#if 0`, then the block `#if 1`, `#define A(`, `#endif`, for every
collaborator that leaves the expression `0` unexpanded and evaluates it to 0.
Before the `#if` of the block `skiplevel` is 1. The `#define` line of the body
is processed although it is skipped, and its recovery swallows the `#endif` of
the block: at the end of file right after the block `skiplevel` is 2, not 1,
and with the `#endif` of the `#if 0` following the block the end of file is
met with `skiplevel` 1 and `iftaken` still holding the entry of the `#if 0`. -/
theorem skipped_block_endif_swallowed (ext : Ext) (fuel : Nat)
    (hexp : ext.expands []
      [tok SPACE " " 3, tok PP_NUMBER "0" 4, tok NL "\n" 5]
      [tok SPACE " " 3, tok PP_NUMBER "0" 4, tok NL "\n" 5] [])
    (hparse : ext.eval_parse [tok SPACE " " 3, tok PP_NUMBER "0" 4, tok NL "\n" 5] =
      ([], some 0)) :
    process_if ext (Pdstate.init (block_endif_swallowed.drop 2)) =
      { Pdstate.init (block_endif_swallowed.drop 5) with iftaken := [false], skiplevel := 1 } ∧
    getnext ext (fuel + 7) (Pdstate.init block_endif_swallowed) =
      some (eofToken,
        { input := [], at_bol := false, expand := [], macros := [], iftaken := [false],
          skiplevel := 2, context := .cpp_define,
          errors := [(.E_ERR, "Invalid macro parameter name"),
                     (.E_ERR, "EOF while processing #if directive")],
          unified := [] }) ∧
    getnext ext (fuel + 8) (Pdstate.init (block_endif_swallowed ++ outer_endif)) =
      some (eofToken,
        { input := [], at_bol := false, expand := [], macros := [], iftaken := [false],
          skiplevel := 1, context := .cpp_define,
          errors := [(.E_ERR, "Invalid macro parameter name"),
                     (.E_ERR, "EOF while processing #if directive")],
          unified := [] }) := by
  obtain ⟨h1, h2, h3⟩ := hexp
  have hev := eval_ok ext (Pdstate.init (block_endif_swallowed.drop 2)) []
    [tok SPACE " " 3, tok PP_NUMBER "0" 4, tok NL "\n" 5] [] 0 rfl
    (by erw [h1]; exact hparse)
  have step2 : process_if ext (Pdstate.init (block_endif_swallowed.drop 2)) =
      { Pdstate.init (block_endif_swallowed.drop 5) with
        iftaken := [false], skiplevel := 1 } := by
    unfold process_if
    erw [hev, h2, h3]
    rfl
  have hev2 := eval_ok ext (Pdstate.init ((block_endif_swallowed ++ outer_endif).drop 2)) []
    [tok SPACE " " 3, tok PP_NUMBER "0" 4, tok NL "\n" 5] [] 0 rfl
    (by erw [h1]; exact hparse)
  have step2b : process_if ext (Pdstate.init ((block_endif_swallowed ++ outer_endif).drop 2)) =
      { Pdstate.init ((block_endif_swallowed ++ outer_endif).drop 5) with
        iftaken := [false], skiplevel := 1 } := by
    unfold process_if
    erw [hev2, h2, h3]
    rfl
  refine ⟨step2, ?_, ?_⟩
  · have step1 : getnext ext (fuel + 7) (Pdstate.init block_endif_swallowed) =
        getnext ext (fuel + 6)
          (process_if ext (Pdstate.init (block_endif_swallowed.drop 2))) := rfl
    rw [step1, step2]
    rfl
  · have step1 : getnext ext (fuel + 8) (Pdstate.init (block_endif_swallowed ++ outer_endif)) =
        getnext ext (fuel + 7)
          (process_if ext (Pdstate.init ((block_endif_swallowed ++ outer_endif).drop 2))) := rfl
    rw [step1, step2b]
    rfl

/-- Instance of the block with the sample collaborators. -/
theorem skipped_block_endif_swallowed_witness :
    (getnext sampleExt 7 (Pdstate.init block_endif_swallowed)).map
        (fun r => (r.1, r.2.skiplevel, r.2.iftaken)) = some (eofToken, 2, [false]) :=
  congrArg (Option.map (fun r => (r.1, r.2.skiplevel, r.2.iftaken)))
    (skipped_block_endif_swallowed sampleExt 0 ⟨rfl, rfl, rfl⟩ rfl).2.1

end CScout
